import Mathlib

set_option autoImplicit false

/-
Verification of the `staticflow` package (src/staticflow/__init__.py).

The development shallowly embeds the two components of the package:

* the scope-aware symbol classifier (`Symbol`, `_CellVisitor`, `Cell`),
  embedded as a state-passing traversal `visitStmt`/`visitExpr`/... over a
  Python-2-flavoured abstract syntax (the source handles `TryExcept`,
  `node.starargs`, the `print` statement and `exec`, i.e. the Python 2 `ast`);

* the incremental dependency index (`Flow`), embedded as a record of the
  ordered cell list plus the two reverse maps, with the operations
  `_add`/`_rm`/`__setitem__`/`__delitem__`/`append` and the three queries
  `dependencies`/`dependents`/`graph`.

Python dicts with an absent-key default are embedded as total functions
(`String → SymState`, `String → Finset Cell`, `String → Option Nat`), sets as
`Finset`, and object identity of `Cell` objects as an `id : Nat` field.
-/

namespace StaticFlow

/-! ## The per-name 4-state machine (`class Symbol`) -/

/-- The four states of `Symbol`: `DOESNT_EXIST`, `READ`, `CREATED`,
`READ_THEN_WRITTEN`.  A name absent from the visitor's `symbols` dict is
represented by `.de`; the source never stores a symbol that is still in the
`DOESNT_EXIST` state (every freshly inserted `Symbol()` is immediately
`read()` or `write()`n), so this loses nothing. -/
inductive SymState where
  | de
  | rd
  | created
  | rtw
  deriving DecidableEq, Repr

/-- `Symbol.read`: only a `DOESNT_EXIST` symbol changes state. -/
def readT : SymState → SymState
  | .de => .rd
  | s => s

/-- `Symbol.write`: `DOESNT_EXIST → CREATED`, `READ → READ_THEN_WRITTEN`,
otherwise a no-op. -/
def writeT : SymState → SymState
  | .de => .created
  | .rd => .rtw
  | s => s

/-- `Symbol.is_read`. -/
def isRead : SymState → Bool
  | .rd => true
  | .rtw => true
  | _ => false

/-- `Symbol.is_written`. -/
def isWritten : SymState → Bool
  | .created => true
  | .rtw => true
  | _ => false

/-! ## Scopes and the visitor state -/

/-- `class Scope`: the `globals` and `locals` sets of one local scope. -/
structure Scope where
  globals : Finset String
  locals : Finset String
  deriving DecidableEq

/-- The mutable state of `_CellVisitor`: the scope stack (head = innermost,
i.e. Python's `self.scopes[-1]`; empty = module/global scope) and the
`symbols` dict, embedded as a total function plus the list `dom` of names
ever touched (so that the final read/write sets are computable). -/
structure VState where
  scopes : List Scope
  sym : String → SymState
  dom : List String

/-- Apply a state transition to one name in the `symbols` dict. -/
def VState.touch (st : VState) (x : String) (f : SymState → SymState) : VState :=
  { st with
    sym := fun y => if y = x then f (st.sym x) else st.sym y
    dom := x :: st.dom }

/-- Fetch-or-create the `Symbol` for `x` and call `read()` on it. -/
def VState.readSym (st : VState) (x : String) : VState :=
  st.touch x readT

/-- Fetch-or-create the `Symbol` for `x` and call (`read()` when `upd`, then)
`write()` on it — the body of the write branch of `_CellVisitor.assign`. -/
def VState.writeSym (st : VState) (x : String) (upd : Bool) : VState :=
  st.touch x (fun s => writeT (if upd then readT s else s))

/-- `_CellVisitor.visit_Name`: record a read unless the name is a local of
the innermost scope. -/
def visitName (x : String) (st : VState) : VState :=
  match st.scopes with
  | [] => st.readSym x
  | sc :: _ => if x ∈ sc.locals then st else st.readSym x

/-- The string case of `_CellVisitor.assign`: write the fragment-level symbol
when in the global scope or when the name was declared `global` in the
innermost scope, otherwise record a scope-local binding. -/
def assignName (x : String) (upd : Bool) (st : VState) : VState :=
  match st.scopes with
  | [] => st.writeSym x upd
  | sc :: rest =>
    if x ∈ sc.globals then st.writeSym x upd
    else { st with scopes := { sc with locals := insert x sc.locals } :: rest }

/-- Push a fresh scope (`self.scopes.append(Scope())`). -/
def pushScope (st : VState) : VState :=
  { st with scopes := ⟨∅, ∅⟩ :: st.scopes }

/-- Pop the innermost scope (`self.scopes.pop()`). -/
def popScope (st : VState) : VState :=
  { st with scopes := st.scopes.tail }

/-! ## The abstract syntax

A Python-2-flavoured fragment language covering the node kinds the
claims exercise.  Nested lists are represented by the dedicated mutual
types `ExprList`, `StmtList`, `Handlers` and `OptExpr` so that the
traversal is plainly structurally recursive.

Notable faithfulness points, all mirrored from the source:
* `functionDef` carries its parameter list but `visit_FunctionDef` only ever
  touches `node.args.defaults`, so the parameters are never visited;
* there is no `Lambda` handler in the source, so a lambda is traversed by
  `generic_visit`: in the Python 2 `ast` its parameters are `Name` nodes and
  are therefore fed to `visit_Name`, then the defaults and the body are
  visited — all in the *current* scope, no scope is pushed;
* `visit_For` does not visit the loop's `orelse`, so the syntax omits it;
* a `tupleE` assignment target falls through every `isinstance` check of
  `assign` and binds nothing.
-/

mutual

inductive Expr where
  | name (id : String)
  | num (n : Int)
  | binOp (l r : Expr)
  | attr (value : Expr) (field : String)
  | subscript (value slice : Expr)
  | call (func : Expr) (args keywords : ExprList) (starargs kwargs : OptExpr)
  | lam (params : List String) (defaults : ExprList) (body : Expr)
  | tupleE (elts : ExprList)

inductive OptExpr where
  | noneE
  | someE (e : Expr)

inductive ExprList where
  | nil
  | cons (e : Expr) (rest : ExprList)

inductive Stmt where
  | assign (targets : ExprList) (value : Expr)
  | augAssign (target : Expr) (value : Expr)
  | delStmt (targets : ExprList)
  | functionDef (nm : String) (params : List String) (defaults decorators : ExprList)
      (body : StmtList)
  | classDef (nm : String) (bases decorators : ExprList) (body : StmtList)
  | forLoop (target : Expr) (iter : Expr) (body : StmtList)
  | withStmt (ctx : Expr) (optVars : OptExpr) (body : StmtList)
  | tryExcept (body : StmtList) (handlers : Handlers) (orelse : StmtList)
  | importStmt (names : List (String × Option String))
  | importFrom (names : List (String × Option String))
  | globalStmt (names : List String)
  | exprStmt (value : Expr)
  | printStmt (values : ExprList)
  | ret (value : OptExpr)

inductive Handlers where
  | nil
  | cons (htype : OptExpr) (hname : Option String) (hbody : StmtList) (rest : Handlers)

inductive StmtList where
  | nil
  | cons (s : Stmt) (rest : StmtList)

end

/-- The name bound by one `import` alias: the alias if given, else the first
component of the dotted path (`name.name.split('.', 1)[0]`). -/
def importBind (p : String × Option String) : String :=
  p.2.getD ((p.1.splitOn ".").headD p.1)

/-- The name bound by one `from ... import` alias. -/
def importFromBind (p : String × Option String) : String :=
  p.2.getD p.1

/-! ## The traversal (`_CellVisitor`) -/

mutual

/-- Dispatch on the statement kind, mirroring the `visit_*` handlers; a kind
without a handler (`exprStmt`, `printStmt`, `ret`) gets `generic_visit`,
which visits every child expression. -/
def visitStmt : Stmt → VState → VState
  | .assign targets value, st => visitExpr value (assignTargets targets st)
  | .augAssign target value, st => visitExpr value (assignTgt target true st)
  | .delStmt targets, st => delTargets targets st
  | .functionDef nm _params defaults decorators body, st =>
    let st1 := visitExprList decorators (visitExprList defaults (assignName nm false st))
    popScope (visitStmtList body (pushScope st1))
  | .classDef nm bases decorators body, st =>
    let st1 := visitExprList decorators (visitExprList bases (assignName nm false st))
    popScope (visitStmtList body (pushScope st1))
  | .forLoop target iter body, st =>
    visitStmtList body (visitExpr iter (assignTgt target false st))
  | .withStmt ctx optVars body, st =>
    let st1 := match optVars with
      | .noneE => st
      | .someE v => assignTgt v false st
    visitStmtList body (visitExpr ctx st1)
  | .tryExcept body handlers orelse, st =>
    visitStmtList orelse (visitHandlers handlers (visitStmtList body st))
  | .importStmt names, st => names.foldl (fun s p => assignName (importBind p) false s) st
  | .importFrom names, st => names.foldl (fun s p => assignName (importFromBind p) false s) st
  | .globalStmt names, st =>
    match st.scopes with
    | [] => st
    | sc :: rest => { st with scopes := { sc with globals := sc.globals ∪ names.toFinset } :: rest }
  | .exprStmt v, st => visitExpr v st
  | .printStmt vs, st => visitExprList vs st
  | .ret v, st =>
    match v with
    | .noneE => st
    | .someE e => visitExpr e st

def visitStmtList : StmtList → VState → VState
  | .nil, st => st
  | .cons s rest, st => visitStmtList rest (visitStmt s st)

/-- Expression traversal: `visit_Name`, `visit_Call` and `generic_visit` for
every other kind (including `Lambda`, which has no handler). -/
def visitExpr : Expr → VState → VState
  | .name x, st => visitName x st
  | .num _, st => st
  | .binOp l r, st => visitExpr r (visitExpr l st)
  | .attr v _, st => visitExpr v st
  | .subscript v s, st => visitExpr s (visitExpr v st)
  | .call f args kws star kw, st =>
    let st1 := match f with
      | .attr v _ => assignTgt v true st
      | g => visitExpr g st
    visitOptExpr kw (visitOptExpr star (visitExprList kws (visitExprList args st1)))
  | .lam params defaults body, st =>
    visitExpr body (visitExprList defaults (params.foldl (fun s x => visitName x s) st))
  | .tupleE es, st => visitExprList es st

def visitExprList : ExprList → VState → VState
  | .nil, st => st
  | .cons e rest, st => visitExprList rest (visitExpr e st)

def visitOptExpr : OptExpr → VState → VState
  | .noneE, st => st
  | .someE e, st => visitExpr e st

/-- `_CellVisitor.assign` on an assignment-target node: `Name` goes through
`assignName`; a `Subscript` visits its slice and recurses on the base with
`update=True`; an `Attribute` recurses on the base with `update=True`; every
other node kind is silently ignored. -/
def assignTgt : Expr → Bool → VState → VState
  | .name x, upd, st => assignName x upd st
  | .subscript v s, _, st => assignTgt v true (visitExpr s st)
  | .attr v _, _, st => assignTgt v true st
  | _, _, st => st

def assignTargets : ExprList → VState → VState
  | .nil, st => st
  | .cons t rest, st => assignTargets rest (assignTgt t false st)

/-- `visit_Delete`: for a `Name` target already present in the symbols dict,
`read()` then `write()` it directly — note this fast path does *not* consult
the scope stack; otherwise visit the target and then `assign` it. -/
def delTargets : ExprList → VState → VState
  | .nil, st => st
  | .cons t rest, st =>
    let st1 := match t with
      | .name x =>
        if st.sym x ≠ .de then st.touch x (fun s => writeT (readT s))
        else assignTgt (.name x) false (visitExpr (.name x) st)
      | u => assignTgt u false (visitExpr u st)
    delTargets rest st1

def visitHandlers : Handlers → VState → VState
  | .nil, st => st
  | .cons htype hname hbody rest, st =>
    let st1 := match htype with
      | .noneE => st
      | .someE e => visitExpr e st
    let st2 := match hname with
      | none => st1
      | some x => assignName x false st1
    visitHandlers rest (visitStmtList hbody st2)

end

/-! ## Cells (`class Cell`) -/

/-- The initial `_CellVisitor` state: no scopes, empty symbols dict. -/
def initState : VState :=
  ⟨[], fun _ => .de, []⟩

/-- The final `reads` set of a visitor run. -/
def readsOf (st : VState) : Finset String :=
  (st.dom.filter (fun x => isRead (st.sym x))).toFinset

/-- The final `writes` set of a visitor run. -/
def writesOf (st : VState) : Finset String :=
  (st.dom.filter (fun x => isWritten (st.sym x))).toFinset

/-- A `Cell`, after construction: its `reads` and `writes` sets.  The `id`
field stands for Python object identity (the index stores cells in sets and
lists by identity; two distinct `Cell` objects with equal read/write sets are
distinct set members). -/
structure Cell where
  id : Nat
  reads : Finset String
  writes : Finset String
  deriving DecidableEq

/-- `Cell.__init__` on a pre-parsed tree: run `_CellVisitor` once and project
the symbol states through `is_read`/`is_written`. -/
def mkCell (cid : Nat) (prog : StmtList) : Cell :=
  let st := visitStmtList prog initState
  ⟨cid, readsOf st, writesOf st⟩

/-- Default cell used only to totalise list indexing; every indexing in the
proofs is guarded by an in-range fact. -/
def dCell : Cell :=
  ⟨0, ∅, ∅⟩

/-! ## The dependency index (`class Flow`)

`read_by` and `written_by` are Python dicts from name to a set of cells,
with `default(dct, key, set)` supplying an empty set for an absent key;
they are embedded as total functions `String → Finset Cell`.  `_rm` calls
`set.remove`, which raises `KeyError` on an absent element; the embedding
uses `Finset.erase` (identical whenever the element is present, which is
the case in every state the theorems below visit). -/

structure Flow where
  cells : List Cell
  read_by : String → Finset Cell
  written_by : String → Finset Cell

/-- The reverse-map half of `Flow._add`: insert the cell into
`read_by[s]` for each of its reads and into `written_by[s]` for each of its
writes (the `if cell.reads:` guard in the source only skips an empty loop). -/
def Flow.addMaps (fl : Flow) (c : Cell) : Flow :=
  { fl with
    read_by := fun s => if s ∈ c.reads then insert c (fl.read_by s) else fl.read_by s
    written_by := fun s => if s ∈ c.writes then insert c (fl.written_by s) else fl.written_by s }

/-- `Flow._rm`: remove the cell from both reverse maps. -/
def Flow.rmMaps (fl : Flow) (c : Cell) : Flow :=
  { fl with
    read_by := fun s => if s ∈ c.reads then (fl.read_by s).erase c else fl.read_by s
    written_by := fun s => if s ∈ c.writes then (fl.written_by s).erase c else fl.written_by s }

/-- `Flow.__init__(cells)`: `self._cells = [self._add(cell) for cell in cells]`
with initially empty reverse maps. -/
def Flow.init (cs : List Cell) : Flow :=
  cs.foldl Flow.addMaps ⟨cs, fun _ => ∅, fun _ => ∅⟩

/-- `Flow.append`. -/
def Flow.append (fl : Flow) (c : Cell) : Flow :=
  { fl.addMaps c with cells := fl.cells ++ [c] }

/-- `Flow.__delitem__`: `self._rm(self._cells.pop(key))`. -/
def Flow.delitem (fl : Flow) (k : Nat) : Flow :=
  { fl.rmMaps (fl.cells.getD k dCell) with cells := fl.cells.eraseIdx k }

/-- `Flow.__setitem__` with an already-constructed cell:
`self._rm(self._cells[key]); self._cells[key] = self._add(value)`. -/
def Flow.setitem (fl : Flow) (k : Nat) (c : Cell) : Flow :=
  { (fl.rmMaps (fl.cells.getD k dCell)).addMaps c with cells := fl.cells.set k c }

/-- Result of an index operation together with whether it raised. -/
structure OpResult where
  state : Flow
  raised : Bool

/-- `Flow.__setitem__` given the outcome of parsing the raw value:
`none` models source text the external parser rejects.  The source removes
the old cell from the reverse maps *before* constructing the replacement
cell inside `_add`, so on a parse error the exception propagates after
`_rm` has already run and before `self._cells[key]` is reassigned. -/
def Flow.setitemRaw (fl : Flow) (k : Nat) (v : Option Cell) : OpResult :=
  match v with
  | some c => ⟨fl.setitem k c, false⟩
  | none => ⟨fl.rmMaps (fl.cells.getD k dCell), true⟩

/-- Python's `list.index`: position of the first occurrence. -/
def listIndex (c : Cell) : List Cell → Nat
  | [] => 0
  | d :: rest => if d = c then 0 else listIndex c rest + 1

/-- The scanning loop shared by `Flow.dependencies` (`sel = writes`, scanning
`self._cells[idx::-1]`) and `Flow.dependents` (`sel = reads`, scanning
`self._cells[idx:]`): while names remain wanted, record the first cell whose
selected set meets the wanted names (into the `last_assign`/`last_read`
dict, embedded as a function) and drop those names from the wanted set. -/
def scanAux (sel : Cell → Finset String) :
    List Cell → Finset String → (String → Option Cell) → (String → Option Cell)
  | [], _, la => la
  | c :: rest, symbols, la =>
    if symbols = ∅ then la
    else
      scanAux sel rest (symbols \ sel c)
        (fun s => if s ∈ sel c ∧ s ∈ symbols then some c else la s)

/-- `Flow.dependencies`: scan backwards from the cell's own (first) position,
inclusive; the result is `set(last_assign.values())`, read off by evaluating
the final dict on the cell's reads (its only possible keys). -/
def Flow.dependencies (fl : Flow) (c : Cell) : Finset Cell :=
  let i := listIndex c fl.cells
  let la := scanAux (fun d => d.writes) ((fl.cells.take (i + 1)).reverse) c.reads fun _ => none
  c.reads.biUnion fun s => (la s).toFinset

/-- `Flow.dependents`: scan forwards from the cell's own (first) position,
inclusive. -/
def Flow.dependents (fl : Flow) (c : Cell) : Finset Cell :=
  let i := listIndex c fl.cells
  let la := scanAux (fun d => d.reads) (fl.cells.drop i) c.writes fun _ => none
  c.writes.biUnion fun s => (la s).toFinset

/-- `Flow.graph`: one forward pass with a running `last_assign` dict from
name to the *index* of its most recent writer, updated only after a cell's
reads are processed. -/
def graphAux : List Cell → Nat → (String → Option Nat) → List (Finset Nat)
  | [], _, _ => []
  | c :: rest, i, la =>
    (c.reads.biUnion fun s => (la s).toFinset) ::
      graphAux rest (i + 1) (fun s => if s ∈ c.writes then some i else la s)

def Flow.graph (fl : Flow) : List (Finset Nat) :=
  graphAux fl.cells 0 fun _ => none

/-! ### Spec-side definitions for the refinement claim (C2)

These two definitions follow the words of the specification, not the code,
and are compared with the code's point queries. -/

/-- The cells standing at a `graph()` predecessor set's indices. -/
def cellsAt (cells : List Cell) (js : Finset Nat) : Finset Cell :=
  js.image fun j => cells.getD j dCell

/-- Modelled from the spec's words for C2: the set of fragments whose
`graph()` predecessor set contains the given fragment (necessarily by way of
a name it writes, since a `graph()` edge into a fragment comes from the last
writer of one of that fragment's read names). -/
def Flow.specDependents (fl : Flow) (c : Cell) : Finset Cell :=
  (((fl.cells.zip fl.graph).filter fun p => listIndex c fl.cells ∈ p.2).map Prod.fst).toFinset

/-! ## Characterising the three queries by the position of the last writer -/

/-- `lastWSel sel cells i s`: the greatest position `j < i` with
`s ∈ sel cells[j]`, if any. -/
def lastWSel (sel : Cell → Finset String) (cells : List Cell) : Nat → String → Option Nat
  | 0, _ => none
  | i + 1, s => if s ∈ sel (cells.getD i dCell) then some i else lastWSel sel cells i s

/-- The last *writer* strictly before position `i`. -/
def lastW (cells : List Cell) : Nat → String → Option Nat :=
  lastWSel (fun c => c.writes) cells

/-- What `graphAux` produces, expressed through `lastW`. -/
def gexp (all : List Cell) : Nat → List Cell → List (Finset Nat)
  | _, [] => []
  | i0, c :: rest =>
    (c.reads.biUnion fun s => (lastW all i0 s).toFinset) :: gexp all (i0 + 1) rest

/-- The invariant stated by the spec: every fragment in the sequence is
registered in the reverse maps under each of its read/written names, and a
fragment not in the sequence appears in neither map. -/
def Inv (fl : Flow) : Prop :=
  (∀ c ∈ fl.cells, (∀ s ∈ c.reads, c ∈ fl.read_by s) ∧ ∀ s ∈ c.writes, c ∈ fl.written_by s)
  ∧ ∀ c, c ∉ fl.cells → ∀ s, c ∉ fl.read_by s ∧ c ∉ fl.written_by s

/-- The exact contents of the reverse maps; this is the inductive
strengthening of `Inv` that the operations actually maintain. -/
def MapsExact (fl : Flow) : Prop :=
  ∀ c s, (c ∈ fl.read_by s ↔ c ∈ fl.cells ∧ s ∈ c.reads)
    ∧ (c ∈ fl.written_by s ↔ c ∈ fl.cells ∧ s ∈ c.writes)

def wCellA : Cell := ⟨0, ∅, {"a"}⟩

def wCellB : Cell := ⟨1, ∅, {"a"}⟩

def wCellC : Cell := ⟨2, {"a"}, ∅⟩

def xCell0 : Cell := ⟨0, ∅, {"a"}⟩

def xCell1 : Cell := ⟨1, {"a"}, ∅⟩

def xCell2 : Cell := ⟨2, {"a"}, ∅⟩

def yCell0 : Cell := ⟨0, ∅, {"a"}⟩

def yCell1 : Cell := ⟨1, {"a"}, {"b"}⟩

def yCell2 : Cell := ⟨2, {"b"}, ∅⟩

def dupCell : Cell := ⟨0, {"a"}, ∅⟩

def zCell0 : Cell := ⟨0, {"a"}, {"b"}⟩

def zCell1 : Cell := ⟨1, {"b"}, ∅⟩

def pCell : Cell := ⟨0, {"a"}, ∅⟩

def qCell : Cell := ⟨0, {"a"}, {"b"}⟩

def stepLe (a b : SymState) : Prop :=
  b = a ∨ a = .de ∨ (a = .rd ∧ b = .rtw)

/-- Scope-stack refinement: same length, pointwise grown sets. -/
def ScLe (xs ys : List Scope) : Prop :=
  List.Forall₂ (fun a b => a.globals ⊆ b.globals ∧ a.locals ⊆ b.locals) xs ys

/-- One traversal step only moves the state "up": symbol states along
`stepLe`, scope stack along `ScLe`, the touched list grows, and the
invariant "a non-`DOESNT_EXIST` symbol was touched" is preserved. -/
def VLe (st st' : VState) : Prop :=
  (∀ x, stepLe (st.sym x) (st'.sym x))
  ∧ ScLe st.scopes st'.scopes
  ∧ (∀ x, x ∈ st.dom → x ∈ st'.dom)
  ∧ ((∀ x, st.sym x ≠ .de → x ∈ st.dom) → ∀ x, st'.sym x ≠ .de → x ∈ st'.dom)

def SL.app : StmtList → StmtList → StmtList
  | .nil, b => b
  | .cons s rest, b => .cons s (SL.app rest b)

/-- Every name whose symbol is not `DOESNT_EXIST` has been touched. -/
def DomInv (st : VState) : Prop :=
  ∀ x, st.sym x ≠ .de → x ∈ st.dom

/-- The fragment of the spec's worked example (and of the package's own unit
test `test_cell`):
`a = b + 1 ; c = 4 ; del d ; e = 1 ; def f(g): h = i + 6 ; print(e)`. -/
def prog1 : StmtList :=
  .cons (.assign (.cons (.name "a") .nil) (.binOp (.name "b") (.num 1)))
  (.cons (.assign (.cons (.name "c") .nil) (.num 4))
  (.cons (.delStmt (.cons (.name "d") .nil))
  (.cons (.assign (.cons (.name "e") .nil) (.num 1))
  (.cons (.functionDef "f" ["g"] .nil .nil
    (.cons (.assign (.cons (.name "h") .nil) (.binOp (.name "i") (.num 6))) .nil))
  (.cons (.printStmt (.cons (.name "e") .nil)) .nil)))))

/-- The fragment `f = lambda x: x`. -/
def prog5 : StmtList :=
  .cons (.assign (.cons (.name "f") .nil) (.lam ["x"] .nil (.name "x"))) .nil

def listHas (x : String) : List String → Bool
  | [] => false
  | y :: rest => (y == x) || listHas x rest

def importHas (x : String) (f : String × Option String → String) :
    List (String × Option String) → Bool
  | [] => false
  | p :: rest => (f p == x) || importHas x f rest

def optNameHas (x : String) : Option String → Bool
  | none => false
  | some y => y == x

/-- A `del` target list containing the plain name `x`. -/
def delHasName (x : String) : ExprList → Bool
  | .nil => false
  | .cons (.name y) rest => (y == x) || delHasName x rest
  | .cons _ rest => delHasName x rest

mutual

def gdS (x : String) : Stmt → Bool
  | .functionDef _ _ _ _ body => gdSL x body
  | .classDef _ _ _ body => gdSL x body
  | .forLoop _ _ body => gdSL x body
  | .withStmt _ _ body => gdSL x body
  | .tryExcept body handlers orelse => gdSL x body || gdH x handlers || gdSL x orelse
  | .globalStmt names => listHas x names
  | _ => false

def gdSL (x : String) : StmtList → Bool
  | .nil => false
  | .cons s rest => gdS x s || gdSL x rest

def gdH (x : String) : Handlers → Bool
  | .nil => false
  | .cons _ _ hbody rest => gdSL x hbody || gdH x rest

end

mutual

def dnS (x : String) : Stmt → Bool
  | .delStmt targets => delHasName x targets
  | .functionDef _ _ _ _ body => dnSL x body
  | .classDef _ _ _ body => dnSL x body
  | .forLoop _ _ body => dnSL x body
  | .withStmt _ _ body => dnSL x body
  | .tryExcept body handlers orelse => dnSL x body || dnH x handlers || dnSL x orelse
  | _ => false

def dnSL (x : String) : StmtList → Bool
  | .nil => false
  | .cons s rest => dnS x s || dnSL x rest

def dnH (x : String) : Handlers → Bool
  | .nil => false
  | .cons _ _ hbody rest => dnSL x hbody || dnH x rest

end

mutual

/-- Sites inside `assign(target, ...)` that reach the write branch for `x`:
a plain `Name x`, or `x` at the base of a subscript/attribute chain (whose
slice expressions are visited as ordinary expressions). -/
def tgtB (x : String) : Expr → Bool
  | .name y => y == x
  | .subscript v s => eMB x s || tgtB x v
  | .attr v _ => tgtB x v
  | _ => false

/-- Sites inside an ordinary expression visit that can feed `x` to `assign`:
exactly the receivers of method calls (`visit_Call` on an `Attribute`
callee), anywhere in the expression, including inside lambda parts (which
are visited in the same scope). -/
def eMB (x : String) : Expr → Bool
  | .name _ => false
  | .num _ => false
  | .binOp l r => eMB x l || eMB x r
  | .attr v _ => eMB x v
  | .subscript v s => eMB x v || eMB x s
  | .call (.attr v _) args kws star kw =>
    tgtB x v || eMBL x args || eMBL x kws || eMBO x star || eMBO x kw
  | .call f args kws star kw =>
    eMB x f || eMBL x args || eMBL x kws || eMBO x star || eMBO x kw
  | .lam _ defaults body => eMBL x defaults || eMB x body
  | .tupleE es => eMBL x es

def eMBL (x : String) : ExprList → Bool
  | .nil => false
  | .cons e rest => eMB x e || eMBL x rest

def eMBO (x : String) : OptExpr → Bool
  | .noneE => false
  | .someE e => eMB x e

end

def tgtBL (x : String) : ExprList → Bool
  | .nil => false
  | .cons t rest => tgtB x t || tgtBL x rest

/-- Write-reaching sites inside a `del` target list: a plain name equal to
`x` (either path of `visit_Delete` can write it), or assign/expression sites
of a structured target. -/
def delB (x : String) : ExprList → Bool
  | .nil => false
  | .cons (.name y) rest => (y == x) || delB x rest
  | .cons t rest => eMB x t || tgtB x t || delB x rest

mutual

/-- Constructs that can feed `x` to the write branch of `assign` (or to the
`visit_Delete` fast path), visited from a statement.  With `deep = false`
the scan stops at function/class bodies (those run in a fresh scope); with
`deep = true` it descends into them. -/
def mbS (deep : Bool) (x : String) : Stmt → Bool
  | .assign targets value => tgtBL x targets || eMB x value
  | .augAssign target value => tgtB x target || eMB x value
  | .delStmt targets => delB x targets
  | .functionDef nm _ defaults decorators body =>
    (nm == x) || eMBL x defaults || eMBL x decorators || (deep && mbSL deep x body)
  | .classDef nm bases decorators body =>
    (nm == x) || eMBL x bases || eMBL x decorators || (deep && mbSL deep x body)
  | .forLoop target iter body => tgtB x target || eMB x iter || mbSL deep x body
  | .withStmt ctx optVars body => eMB x ctx || tgtBO x optVars || mbSL deep x body
  | .tryExcept body handlers orelse => mbSL deep x body || mbH deep x handlers || mbSL deep x orelse
  | .importStmt names => importHas x importBind names
  | .importFrom names => importHas x importFromBind names
  | .globalStmt _ => false
  | .exprStmt v => eMB x v
  | .printStmt vs => eMBL x vs
  | .ret v => eMBO x v

def mbSL (deep : Bool) (x : String) : StmtList → Bool
  | .nil => false
  | .cons s rest => mbS deep x s || mbSL deep x rest

def mbH (deep : Bool) (x : String) : Handlers → Bool
  | .nil => false
  | .cons htype hname hbody rest =>
    eMBO x htype || optNameHas x hname || mbSL deep x hbody || mbH deep x rest

def tgtBO (x : String) : OptExpr → Bool
  | .noneE => false
  | .someE v => tgtB x v

end

mutual

/-- Sites inside `assign(target, ...)` where `visit_Name` is reached on `x`:
only the slice expressions of subscript chains. -/
def refsA (x : String) : Expr → Bool
  | .subscript v s => refsE x s || refsA x v
  | .attr v _ => refsA x v
  | _ => false

/-- The ordinary expression visit reaches `visit_Name` on `x` (a `Name`
node, or a lambda parameter named `x`, which in the Python 2 ast is a `Name`
node fed to `generic_visit`). -/
def refsE (x : String) : Expr → Bool
  | .name y => y == x
  | .num _ => false
  | .binOp l r => refsE x l || refsE x r
  | .attr v _ => refsE x v
  | .subscript v s => refsE x v || refsE x s
  | .call (.attr v _) args kws star kw =>
    refsA x v || refsEL x args || refsEL x kws || refsEO x star || refsEO x kw
  | .call f args kws star kw =>
    refsE x f || refsEL x args || refsEL x kws || refsEO x star || refsEO x kw
  | .lam params defaults body => listHas x params || refsEL x defaults || refsE x body
  | .tupleE es => refsEL x es

def refsEL (x : String) : ExprList → Bool
  | .nil => false
  | .cons e rest => refsE x e || refsEL x rest

def refsEO (x : String) : OptExpr → Bool
  | .noneE => false
  | .someE e => refsE x e

end

def refsAL (x : String) : ExprList → Bool
  | .nil => false
  | .cons t rest => refsA x t || refsAL x rest

/-- `visit_Name`-reaching sites in a `del` target list (a plain `Name`
target may take the fast path, so it is not counted). -/
def refsDel (x : String) : ExprList → Bool
  | .nil => false
  | .cons (.name _) rest => refsDel x rest
  | .cons t rest => refsE x t || refsA x t || refsDel x rest

def refsAO (x : String) : OptExpr → Bool
  | .noneE => false
  | .someE v => refsA x v

mutual

def refsS (x : String) : Stmt → Bool
  | .assign targets value => refsAL x targets || refsE x value
  | .augAssign target value => refsA x target || refsE x value
  | .delStmt targets => refsDel x targets
  | .functionDef _ _ defaults decorators body =>
    refsEL x defaults || refsEL x decorators || refsSL x body
  | .classDef _ bases decorators body =>
    refsEL x bases || refsEL x decorators || refsSL x body
  | .forLoop target iter body => refsA x target || refsE x iter || refsSL x body
  | .withStmt ctx optVars body => refsAO x optVars || refsE x ctx || refsSL x body
  | .tryExcept body handlers orelse =>
    refsSL x body || refsH x handlers || refsSL x orelse
  | .importStmt _ => false
  | .importFrom _ => false
  | .globalStmt _ => false
  | .exprStmt v => refsE x v
  | .printStmt vs => refsEL x vs
  | .ret v => refsEO x v

def refsSL (x : String) : StmtList → Bool
  | .nil => false
  | .cons s rest => refsS x s || refsSL x rest

def refsH (x : String) : Handlers → Bool
  | .nil => false
  | .cons htype _ hbody rest => refsEO x htype || refsSL x hbody || refsH x rest

end

mutual

def occE (x : String) : Expr → Bool
  | .name y => y == x
  | .num _ => false
  | .binOp l r => occE x l || occE x r
  | .attr v _ => occE x v
  | .subscript v s => occE x v || occE x s
  | .call f args kws star kw =>
    occE x f || occEL x args || occEL x kws || occEO x star || occEO x kw
  | .lam params defaults body => listHas x params || occEL x defaults || occE x body
  | .tupleE es => occEL x es

def occEL (x : String) : ExprList → Bool
  | .nil => false
  | .cons e rest => occE x e || occEL x rest

def occEO (x : String) : OptExpr → Bool
  | .noneE => false
  | .someE e => occE x e

end

mutual

/-- Any occurrence of the identifier `x` in a statement (in particular every
position that could touch the symbol table entry of `x`). -/
def occS (x : String) : Stmt → Bool
  | .assign targets value => occEL x targets || occE x value
  | .augAssign target value => occE x target || occE x value
  | .delStmt targets => occEL x targets
  | .functionDef nm params defaults decorators body =>
    (nm == x) || listHas x params || occEL x defaults || occEL x decorators || occSL x body
  | .classDef nm bases decorators body =>
    (nm == x) || occEL x bases || occEL x decorators || occSL x body
  | .forLoop target iter body => occE x target || occE x iter || occSL x body
  | .withStmt ctx optVars body => occE x ctx || occEO x optVars || occSL x body
  | .tryExcept body handlers orelse => occSL x body || occH x handlers || occSL x orelse
  | .importStmt names => importHas x importBind names
  | .importFrom names => importHas x importFromBind names
  | .globalStmt names => listHas x names
  | .exprStmt v => occE x v
  | .printStmt vs => occEL x vs
  | .ret v => occEO x v

def occSL (x : String) : StmtList → Bool
  | .nil => false
  | .cons s rest => occS x s || occSL x rest

def occH (x : String) : Handlers → Bool
  | .nil => false
  | .cons htype hname hbody rest =>
    occEO x htype || optNameHas x hname || occSL x hbody || occH x rest

end

def QInv (x : String) (st : VState) : Prop :=
  isWritten (st.sym x) = false ∧ ∀ sc ∈ st.scopes, x ∉ sc.globals

/-- A fragment with a `global x; ...; x = e` inside a function body:
`pre ++ [def f(params) [decorators]: global x; mid; x = e; post] ++ rest`. -/
def c8prog (pre mid post rest : StmtList) (f x : String) (params : List String)
    (defaults decorators : ExprList) (e : Expr) : StmtList :=
  SL.app pre (.cons (.functionDef f params defaults decorators
    (.cons (.globalStmt [x])
      (SL.app mid (.cons (.assign (.cons (.name x) .nil) e) post)))) rest)

/-- The fragment `y = x` ; `def f(): x = 1; del x`: the name `x` is assigned
(and deleted) only inside the body of `f` and never declared global. -/
def prog8 : StmtList :=
  .cons (.assign (.cons (.name "y") .nil) (.name "x"))
  (.cons (.functionDef "f" [] .nil .nil
    (.cons (.assign (.cons (.name "x") .nil) (.num 1))
    (.cons (.delStmt (.cons (.name "x") .nil)) .nil))) .nil)

/-- The fragment `def f(): y = 1`. -/
def prog8w : StmtList :=
  .cons (.functionDef "f" [] .nil .nil
    (.cons (.assign (.cons (.name "y") .nil) (.num 1)) .nil)) .nil

def RInv (x : String) (st : VState) : Prop :=
  isWritten (st.sym x) = false ∧ ∀ sc ∈ st.scopes, x ∉ sc.globals ∧ x ∉ sc.locals

/-- The fragment `def f(g): return g` of the claim. -/
def prog9 : StmtList :=
  .cons (.functionDef "f" ["g"] .nil .nil
    (.cons (.ret (.someE (.name "g"))) .nil)) .nil

theorem lastWSel_lt (sel : Cell → Finset String) (cells : List Cell) :
    ∀ (i : Nat) (s : String) (j : Nat), lastWSel sel cells i s = some j → j < i := by
  intro i
  induction i with
  | zero => intro s j h; simp [lastWSel] at h
  | succ i ih =>
    intro s j h
    simp only [lastWSel] at h
    split at h
    · cases h; omega
    · exact Nat.lt_succ_of_lt (ih s j h)

theorem drop_eq_cons_getD {l : List Cell} {i : Nat} {c : Cell} {rest : List Cell}
    (h : l.drop i = c :: rest) : l.getD i dCell = c ∧ l.drop (i + 1) = rest := by
  induction l generalizing i with
  | nil => simp at h
  | cons a l ih =>
    cases i with
    | zero =>
      simp only [List.drop_zero] at h
      cases h
      simp
    | succ i =>
      simp only [List.drop_succ_cons] at h
      simpa using ih h

theorem graphAux_spec (all : List Cell) :
    ∀ (L : List Cell) (i0 : Nat) (la : String → Option Nat),
      all.drop i0 = L → (∀ s, la s = lastW all i0 s) →
      graphAux L i0 la = gexp all i0 L := by
  intro L
  induction L with
  | nil => intro i0 la _ _; rfl
  | cons c rest ih =>
    intro i0 la hdrop hla
    obtain ⟨hget, hdrop'⟩ := drop_eq_cons_getD hdrop
    simp only [graphAux, gexp]
    refine congrArg₂ _ ?_ ?_
    · exact Finset.biUnion_congr rfl fun s _ => by rw [hla]
    · refine ih (i0 + 1) _ hdrop' fun s => ?_
      show (if s ∈ c.writes then some i0 else la s) = lastW all (i0 + 1) s
      simp only [lastW, lastWSel, hget, hla s]

theorem foldl_addMaps_cells : ∀ (cs : List Cell) (fl : Flow),
    (cs.foldl Flow.addMaps fl).cells = fl.cells := by
  intro cs
  induction cs with
  | nil => intro fl; rfl
  | cons c rest ih => intro fl; simpa [Flow.addMaps] using ih (fl.addMaps c)

@[simp]

theorem Flow.init_cells (cs : List Cell) : (Flow.init cs).cells = cs :=
  foldl_addMaps_cells cs _

theorem graph_eq (fl : Flow) : fl.graph = gexp fl.cells 0 fl.cells :=
  graphAux_spec fl.cells fl.cells 0 _ (by simp) fun _ => rfl

theorem gexp_length (all : List Cell) :
    ∀ (L : List Cell) (i0 : Nat), (gexp all i0 L).length = L.length := by
  intro L
  induction L with
  | nil => intro i0; rfl
  | cons c rest ih => intro i0; simp [gexp, ih]

theorem gexp_getD (all : List Cell) :
    ∀ (L : List Cell) (i0 k : Nat), k < L.length →
      (gexp all i0 L).getD k ∅ =
        (L.getD k dCell).reads.biUnion fun s => (lastW all (i0 + k) s).toFinset := by
  intro L
  induction L with
  | nil => intro i0 k h; simp at h
  | cons c rest ih =>
    intro i0 k h
    cases k with
    | zero => simp [gexp]
    | succ k =>
      have hk : k < rest.length := by simpa using h
      have heq := ih (i0 + 1) k hk
      have hn : i0 + 1 + k = i0 + (k + 1) := by omega
      rw [hn] at heq
      simpa [gexp, List.getD_cons_succ] using heq

/-! ## The scanning loop, expressed through `lastWSel` -/

theorem take_succ_reverse {l : List Cell} :
    ∀ {m : Nat}, m < l.length →
      (l.take (m + 1)).reverse = l.getD m dCell :: (l.take m).reverse := by
  induction l with
  | nil => intro m h; simp at h
  | cons a l ih =>
    intro m h
    cases m with
    | zero => simp
    | succ m =>
      have hm : m < l.length := by simpa using h
      simp only [List.take_succ_cons, List.reverse_cons, ih hm, List.getD_cons_succ]
      simp

theorem lastWSel_succ (sel : Cell → Finset String) (cells : List Cell) (i : Nat) (s : String) :
    lastWSel sel cells (i + 1) s
      = if s ∈ sel (cells.getD i dCell) then some i else lastWSel sel cells i s :=
  rfl

theorem scanAux_cons (sel : Cell → Finset String) (c : Cell) (rest : List Cell)
    (T : Finset String) (la : String → Option Cell) :
    scanAux sel (c :: rest) T la
      = if T = ∅ then la
        else scanAux sel rest (T \ sel c) fun s => if s ∈ sel c ∧ s ∈ T then some c else la s :=
  rfl

theorem scanAux_take_spec (sel : Cell → Finset String) (all : List Cell) :
    ∀ (m : Nat), m < all.length →
      ∀ (T : Finset String) (la : String → Option Cell),
        (∀ s ∈ T, la s = none) →
        ∀ s, scanAux sel ((all.take (m + 1)).reverse) T la s
          = if s ∈ T then (lastWSel sel all (m + 1) s).map (fun j => all.getD j dCell)
            else la s := by
  intro m
  induction m with
  | zero =>
    intro h0 T la hla s
    rw [take_succ_reverse h0, List.take_zero, List.reverse_nil, scanAux_cons]
    by_cases hT : T = ∅
    · rw [if_pos hT]
      have hsT : s ∉ T := by rw [hT]; exact Finset.not_mem_empty s
      rw [if_neg hsT]
    · rw [if_neg hT]
      show (if s ∈ sel (all.getD 0 dCell) ∧ s ∈ T then some (all.getD 0 dCell) else la s) = _
      rw [lastWSel_succ]
      by_cases hsT : s ∈ T
      · by_cases hsc : s ∈ sel (all.getD 0 dCell)
        · rw [if_pos ⟨hsc, hsT⟩, if_pos hsT, if_pos hsc]
          rfl
        · rw [if_neg (fun hand => hsc hand.1), if_pos hsT, if_neg hsc, hla s hsT]
          rfl
      · rw [if_neg (fun hand => hsT hand.2), if_neg hsT]
  | succ m ih =>
    intro h T la hla s
    have hm : m < all.length := Nat.lt_of_succ_lt h
    rw [take_succ_reverse h, scanAux_cons]
    by_cases hT : T = ∅
    · rw [if_pos hT]
      have hsT : s ∉ T := by rw [hT]; exact Finset.not_mem_empty s
      rw [if_neg hsT]
    · rw [if_neg hT]
      set c := all.getD (m + 1) dCell with hc
      have hla' : ∀ t ∈ T \ sel c,
          (if t ∈ sel c ∧ t ∈ T then some c else la t) = none := by
        intro t ht
        rcases Finset.mem_sdiff.mp ht with ⟨htT, htc⟩
        rw [if_neg (fun hand => htc hand.1)]
        exact hla t htT
      rw [ih hm (T \ sel c) _ hla' s]
      have hout : lastWSel sel all (m + 1 + 1) s
          = if s ∈ sel c then some (m + 1) else lastWSel sel all (m + 1) s := by
        rw [lastWSel_succ sel all (m + 1) s, ← hc]
      by_cases hsT : s ∈ T
      · by_cases hsc : s ∈ sel c
        · have hnot : s ∉ T \ sel c := fun hmem => (Finset.mem_sdiff.mp hmem).2 hsc
          rw [if_neg hnot, if_pos ⟨hsc, hsT⟩, if_pos hsT, hout, if_pos hsc,
            Option.map_some', ← hc]
        · have hin : s ∈ T \ sel c := Finset.mem_sdiff.mpr ⟨hsT, hsc⟩
          rw [if_pos hin, if_pos hsT, hout, if_neg hsc]
      · have hnot : s ∉ T \ sel c := fun hmem => hsT (Finset.mem_sdiff.mp hmem).1
        rw [if_neg hnot, if_neg (fun hand => hsT hand.2), if_neg hsT]

theorem listIndex_lt {c : Cell} : ∀ {l : List Cell}, c ∈ l → listIndex c l < l.length := by
  intro l
  induction l with
  | nil => intro h; simp at h
  | cons a l ih =>
    intro h
    simp only [listIndex]
    by_cases ha : a = c
    · simp [ha]
    · rw [if_neg ha]
      have : c ∈ l := by
        rcases List.mem_cons.mp h with h | h
        · exact absurd h.symm ha
        · exact h
      simpa using ih this

theorem listIndex_getD {c : Cell} :
    ∀ {l : List Cell}, c ∈ l → l.getD (listIndex c l) dCell = c := by
  intro l
  induction l with
  | nil => intro h; simp at h
  | cons a l ih =>
    intro h
    simp only [listIndex]
    by_cases ha : a = c
    · simp [ha]
    · rw [if_neg ha]
      have : c ∈ l := by
        rcases List.mem_cons.mp h with h | h
        · exact absurd h.symm ha
        · exact h
      simpa using ih this

/-! ## List helper lemmas (positions, erasure, replacement under no-duplicates) -/

theorem getD_mem {l : List Cell} {k : Nat} (hk : k < l.length) : l.getD k dCell ∈ l := by
  induction l generalizing k with
  | nil => simp at hk
  | cons a rest ih =>
    cases k with
    | zero => simp
    | succ k =>
      simp only [List.getD_cons_succ]
      exact List.mem_cons_of_mem _ (ih (by simpa using hk))

theorem getD_inj_nodup {l : List Cell} (hnd : l.Nodup) :
    ∀ {j k : Nat}, j < l.length → k < l.length →
      l.getD j dCell = l.getD k dCell → j = k := by
  induction l with
  | nil => intro j k hj _ _; simp at hj
  | cons a rest ih =>
    obtain ⟨ha, hrest⟩ := List.nodup_cons.mp hnd
    intro j k hj hk heq
    cases j with
    | zero =>
      cases k with
      | zero => rfl
      | succ k =>
        exfalso
        simp only [List.getD_cons_zero, List.getD_cons_succ] at heq
        exact ha (heq ▸ getD_mem (by simpa using hk))
    | succ j =>
      cases k with
      | zero =>
        exfalso
        simp only [List.getD_cons_zero, List.getD_cons_succ] at heq
        exact ha (heq.symm ▸ getD_mem (by simpa using hj))
      | succ k =>
        simp only [List.getD_cons_succ] at heq
        exact congrArg Nat.succ (ih hrest (by simpa using hj) (by simpa using hk) heq)

theorem mem_eraseIdx_nodup {c : Cell} :
    ∀ {l : List Cell} {k : Nat}, l.Nodup → k < l.length →
      (c ∈ l.eraseIdx k ↔ c ∈ l ∧ c ≠ l.getD k dCell) := by
  intro l
  induction l with
  | nil => intro k _ hk; simp at hk
  | cons a rest ih =>
    intro k hnd hk
    obtain ⟨ha, hrest⟩ := List.nodup_cons.mp hnd
    cases k with
    | zero =>
      simp only [List.eraseIdx, List.getD_cons_zero]
      constructor
      · intro hc
        exact ⟨List.mem_cons_of_mem _ hc, fun heq => ha (heq ▸ hc)⟩
      · rintro ⟨hc, hne⟩
        rcases List.mem_cons.mp hc with rfl | hc
        · exact absurd rfl hne
        · exact hc
    | succ k =>
      have hk' : k < rest.length := by simpa using hk
      simp only [List.eraseIdx, List.getD_cons_succ, List.mem_cons, ih hrest hk']
      constructor
      · rintro (rfl | ⟨hc, hne⟩)
        · exact ⟨Or.inl rfl, fun heq => ha (heq ▸ getD_mem hk')⟩
        · exact ⟨Or.inr hc, hne⟩
      · rintro ⟨rfl | hc, hne⟩
        · exact Or.inl rfl
        · exact Or.inr ⟨hc, hne⟩

theorem mem_set_nodup {v c : Cell} :
    ∀ {l : List Cell} {k : Nat}, l.Nodup → k < l.length →
      (c ∈ l.set k v ↔ (c ∈ l ∧ c ≠ l.getD k dCell) ∨ c = v) := by
  intro l
  induction l with
  | nil => intro k _ hk; simp at hk
  | cons a rest ih =>
    intro k hnd hk
    obtain ⟨ha, hrest⟩ := List.nodup_cons.mp hnd
    cases k with
    | zero =>
      simp only [List.set, List.getD_cons_zero, List.mem_cons]
      constructor
      · rintro (rfl | hc)
        · exact Or.inr rfl
        · exact Or.inl ⟨Or.inr hc, fun heq => ha (heq ▸ hc)⟩
      · rintro (⟨rfl | hc, hne⟩ | rfl)
        · exact absurd rfl hne
        · exact Or.inr hc
        · exact Or.inl rfl
    | succ k =>
      have hk' : k < rest.length := by simpa using hk
      simp only [List.set, List.getD_cons_succ, List.mem_cons, ih hrest hk']
      constructor
      · rintro (rfl | (⟨hc, hne⟩ | rfl))
        · exact Or.inl ⟨Or.inl rfl, fun heq => ha (heq ▸ getD_mem hk')⟩
        · exact Or.inl ⟨Or.inr hc, hne⟩
        · exact Or.inr rfl
      · rintro (⟨rfl | hc, hne⟩ | rfl)
        · exact Or.inl rfl
        · exact Or.inr (Or.inl ⟨hc, hne⟩)
        · exact Or.inr (Or.inr rfl)

theorem nodup_set {v : Cell} :
    ∀ {l : List Cell} {k : Nat}, l.Nodup → v ∉ l → (l.set k v).Nodup := by
  intro l
  induction l with
  | nil => intro k _ _; simp
  | cons a rest ih =>
    intro k hnd hv
    obtain ⟨ha, hrest⟩ := List.nodup_cons.mp hnd
    have hva : v ≠ a := fun heq => hv (heq ▸ List.mem_cons_self a rest)
    have hvr : v ∉ rest := fun hm => hv (List.mem_cons_of_mem _ hm)
    cases k with
    | zero => exact List.nodup_cons.mpr ⟨hvr, hrest⟩
    | succ k =>
      refine List.nodup_cons.mpr ⟨?_, ih hrest hvr⟩
      intro hmem
      rcases List.mem_or_eq_of_mem_set hmem with h | rfl
      · exact ha h
      · exact hva rfl

/-! ## The reverse-map invariant (C3) -/

theorem mapsExact_inv {fl : Flow} (h : MapsExact fl) : Inv fl := by
  constructor
  · intro c hc
    exact ⟨fun s hs => ((h c s).1).mpr ⟨hc, hs⟩, fun s hs => ((h c s).2).mpr ⟨hc, hs⟩⟩
  · intro c hc s
    exact ⟨fun hm => hc (((h c s).1).mp hm).1, fun hm => hc (((h c s).2).mp hm).1⟩

theorem mem_addMaps_read_by (fl : Flow) (d c : Cell) (s : String) :
    c ∈ (fl.addMaps d).read_by s ↔ (c = d ∧ s ∈ d.reads) ∨ c ∈ fl.read_by s := by
  by_cases hsd : s ∈ d.reads <;> simp [Flow.addMaps, hsd]

theorem mem_addMaps_written_by (fl : Flow) (d c : Cell) (s : String) :
    c ∈ (fl.addMaps d).written_by s ↔ (c = d ∧ s ∈ d.writes) ∨ c ∈ fl.written_by s := by
  by_cases hsd : s ∈ d.writes <;> simp [Flow.addMaps, hsd]

theorem mem_rmMaps_read_by (fl : Flow) (d c : Cell) (s : String) :
    c ∈ (fl.rmMaps d).read_by s ↔ ¬(c = d ∧ s ∈ d.reads) ∧ c ∈ fl.read_by s := by
  by_cases hsd : s ∈ d.reads <;> simp [Flow.rmMaps, hsd, Finset.mem_erase]

theorem mem_rmMaps_written_by (fl : Flow) (d c : Cell) (s : String) :
    c ∈ (fl.rmMaps d).written_by s ↔ ¬(c = d ∧ s ∈ d.writes) ∧ c ∈ fl.written_by s := by
  by_cases hsd : s ∈ d.writes <;> simp [Flow.rmMaps, hsd, Finset.mem_erase]

theorem foldl_addMaps_read_by (c : Cell) (s : String) :
    ∀ (cs : List Cell) (fl : Flow),
      c ∈ (cs.foldl Flow.addMaps fl).read_by s ↔ (c ∈ cs ∧ s ∈ c.reads) ∨ c ∈ fl.read_by s := by
  intro cs
  induction cs with
  | nil => intro fl; simp
  | cons d rest ih =>
    intro fl
    rw [List.foldl_cons, ih, mem_addMaps_read_by]
    constructor
    · rintro (⟨hc, hs⟩ | (⟨rfl, hs⟩ | hm))
      · exact Or.inl ⟨List.mem_cons_of_mem _ hc, hs⟩
      · exact Or.inl ⟨List.mem_cons_self _ _, hs⟩
      · exact Or.inr hm
    · rintro (⟨hc, hs⟩ | hm)
      · rcases List.mem_cons.mp hc with rfl | hc
        · exact Or.inr (Or.inl ⟨rfl, hs⟩)
        · exact Or.inl ⟨hc, hs⟩
      · exact Or.inr (Or.inr hm)

theorem foldl_addMaps_written_by (c : Cell) (s : String) :
    ∀ (cs : List Cell) (fl : Flow),
      c ∈ (cs.foldl Flow.addMaps fl).written_by s
        ↔ (c ∈ cs ∧ s ∈ c.writes) ∨ c ∈ fl.written_by s := by
  intro cs
  induction cs with
  | nil => intro fl; simp
  | cons d rest ih =>
    intro fl
    rw [List.foldl_cons, ih, mem_addMaps_written_by]
    constructor
    · rintro (⟨hc, hs⟩ | (⟨rfl, hs⟩ | hm))
      · exact Or.inl ⟨List.mem_cons_of_mem _ hc, hs⟩
      · exact Or.inl ⟨List.mem_cons_self _ _, hs⟩
      · exact Or.inr hm
    · rintro (⟨hc, hs⟩ | hm)
      · rcases List.mem_cons.mp hc with rfl | hc
        · exact Or.inr (Or.inl ⟨rfl, hs⟩)
        · exact Or.inl ⟨hc, hs⟩
      · exact Or.inr (Or.inr hm)

theorem mapsExact_init (cs : List Cell) : MapsExact (Flow.init cs) := by
  intro c s
  unfold Flow.init
  rw [foldl_addMaps_cells]
  constructor
  · rw [foldl_addMaps_read_by]
    simp
  · rw [foldl_addMaps_written_by]
    simp

theorem mapsExact_append (fl : Flow) (c : Cell) (hme : MapsExact fl) :
    MapsExact (fl.append c) := by
  intro c' s
  have hcells : (fl.append c).cells = fl.cells ++ [c] := rfl
  have hrb : (fl.append c).read_by s = (fl.addMaps c).read_by s := rfl
  have hwb : (fl.append c).written_by s = (fl.addMaps c).written_by s := rfl
  constructor
  · rw [hrb, hcells, mem_addMaps_read_by, (hme c' s).1]
    simp only [List.mem_append, List.mem_singleton]
    aesop
  · rw [hwb, hcells, mem_addMaps_written_by, (hme c' s).2]
    simp only [List.mem_append, List.mem_singleton]
    aesop

theorem mapsExact_delitem (fl : Flow) (k : Nat) (hme : MapsExact fl)
    (hnd : fl.cells.Nodup) (hk : k < fl.cells.length) : MapsExact (fl.delitem k) := by
  intro c s
  have hcells : (fl.delitem k).cells = fl.cells.eraseIdx k := rfl
  have hrb : (fl.delitem k).read_by s = (fl.rmMaps (fl.cells.getD k dCell)).read_by s := rfl
  have hwb : (fl.delitem k).written_by s
      = (fl.rmMaps (fl.cells.getD k dCell)).written_by s := rfl
  constructor
  · rw [hrb, hcells, mem_rmMaps_read_by, (hme c s).1, mem_eraseIdx_nodup hnd hk]
    constructor
    · rintro ⟨hnot, hc, hs⟩
      exact ⟨⟨hc, fun heq => hnot ⟨heq, heq ▸ hs⟩⟩, hs⟩
    · rintro ⟨⟨hc, hne⟩, hs⟩
      exact ⟨fun hand => hne hand.1, hc, hs⟩
  · rw [hwb, hcells, mem_rmMaps_written_by, (hme c s).2, mem_eraseIdx_nodup hnd hk]
    constructor
    · rintro ⟨hnot, hc, hs⟩
      exact ⟨⟨hc, fun heq => hnot ⟨heq, heq ▸ hs⟩⟩, hs⟩
    · rintro ⟨⟨hc, hne⟩, hs⟩
      exact ⟨fun hand => hne hand.1, hc, hs⟩

theorem mapsExact_setitem (fl : Flow) (k : Nat) (c : Cell) (hme : MapsExact fl)
    (hnd : fl.cells.Nodup) (hk : k < fl.cells.length) : MapsExact (fl.setitem k c) := by
  intro c' s
  have hcells : (fl.setitem k c).cells = fl.cells.set k c := rfl
  have hrb : (fl.setitem k c).read_by s
      = ((fl.rmMaps (fl.cells.getD k dCell)).addMaps c).read_by s := rfl
  have hwb : (fl.setitem k c).written_by s
      = ((fl.rmMaps (fl.cells.getD k dCell)).addMaps c).written_by s := rfl
  constructor
  · rw [hrb, hcells, mem_addMaps_read_by, mem_rmMaps_read_by, (hme c' s).1,
      mem_set_nodup hnd hk]
    constructor
    · rintro (⟨rfl, hs⟩ | ⟨hnot, hc', hs⟩)
      · exact ⟨Or.inr rfl, hs⟩
      · exact ⟨Or.inl ⟨hc', fun heq => hnot ⟨heq, heq ▸ hs⟩⟩, hs⟩
    · rintro ⟨⟨hc', hne⟩ | rfl, hs⟩
      · exact Or.inr ⟨fun hand => hne hand.1, hc', hs⟩
      · exact Or.inl ⟨rfl, hs⟩
  · rw [hwb, hcells, mem_addMaps_written_by, mem_rmMaps_written_by, (hme c' s).2,
      mem_set_nodup hnd hk]
    constructor
    · rintro (⟨rfl, hs⟩ | ⟨hnot, hc', hs⟩)
      · exact ⟨Or.inr rfl, hs⟩
      · exact ⟨Or.inl ⟨hc', fun heq => hnot ⟨heq, heq ▸ hs⟩⟩, hs⟩
    · rintro ⟨⟨hc', hne⟩ | rfl, hs⟩
      · exact Or.inr ⟨fun hand => hne hand.1, hc', hs⟩
      · exact Or.inl ⟨rfl, hs⟩

theorem dependencies_spec (fl : Flow) (c : Cell) (hc : c ∈ fl.cells) :
    fl.dependencies c = c.reads.biUnion fun s =>
      ((lastWSel (fun d => d.writes) fl.cells (listIndex c fl.cells + 1) s).map
        fun j => fl.cells.getD j dCell).toFinset := by
  unfold Flow.dependencies
  refine Finset.biUnion_congr rfl fun s hs => ?_
  rw [scanAux_take_spec (fun d => d.writes) fl.cells (listIndex c fl.cells)
    (listIndex_lt hc) c.reads (fun _ => none) (fun _ _ => rfl) s]
  rw [if_pos hs]

theorem optionToFinset_map (o : Option Nat) (f : Nat → Cell) :
    o.toFinset.image f = (o.map f).toFinset := by
  cases o <;> simp

/-! ## Claim theorems: the dependency-index side -/

/-- Claim C7: for every index and every position `i`, the predecessor set
that `graph()` computes at position `i` never contains `i` itself (the
running last-writer map is updated only after a cell's reads have been
processed, so every recorded predecessor index is strictly smaller). -/
theorem claim_C7 (fl : Flow) (i : Nat) : i ∉ fl.graph.getD i ∅ := by
  by_cases hi : i < fl.cells.length
  · rw [graph_eq, gexp_getD fl.cells fl.cells 0 i hi]
    intro hmem
    rcases Finset.mem_biUnion.mp hmem with ⟨s, _, hs⟩
    rw [Option.mem_toFinset, Option.mem_def] at hs
    have := lastWSel_lt (fun c => c.writes) fl.cells (0 + i) s i hs
    omega
  · have hlen : fl.graph.length = fl.cells.length := by
      rw [graph_eq]
      exact gexp_length _ _ _
    rw [List.getD_eq_default]
    · exact Finset.not_mem_empty i
    · omega

/-- Claim C6: last-writer-wins.  For three fragments in order where the
first two both write `a` and the third reads exactly `{a}`, the predecessor
set `graph()` computes for the third is exactly `{1}` — the position of the
nearest preceding writer — and never contains position `0`. -/
theorem claim_C6 (a : String) (f1 f2 f3 : Cell) (h1 : a ∈ f1.writes) (h2 : a ∈ f2.writes)
    (h3 : f3.reads = {a}) :
    (Flow.init [f1, f2, f3]).graph.getD 2 ∅ = {1} := by
  have hg : (Flow.init [f1, f2, f3]).graph = graphAux [f1, f2, f3] 0 (fun _ => none) := by
    rw [Flow.graph, Flow.init_cells]
  rw [hg]
  simp only [graphAux]
  rw [show ∀ (x y z : Finset Nat), [x, y, z].getD 2 ∅ = z from fun _ _ _ => rfl]
  rw [h3, Finset.singleton_biUnion]
  simp [h2]

theorem claim_C6_witness :
    ("a" ∈ wCellA.writes ∧ "a" ∈ wCellB.writes ∧ wCellC.reads = {"a"})
    ∧ (Flow.init [wCellA, wCellB, wCellC]).graph.getD 2 ∅ = {1} :=
  ⟨⟨by decide, by decide, by decide⟩,
    claim_C6 "a" wCellA wCellB wCellC (by decide) (by decide) (by decide)⟩

/-- Claim C2 (corrected): in a duplicate-free index, for a fragment whose
reads and writes are disjoint, the `dependencies` point query with the
fragment itself removed coincides with the predecessor set `graph()` computes
at the fragment's position; without the disjointness proviso the backward
scan stops at the fragment itself, and the `dependents` half of the original
claim fails outright (see the counterexample). -/
theorem claim_C2_amended (fl : Flow) (F : Cell) (hmem : F ∈ fl.cells)
    (hnd : fl.cells.Nodup) (hdisj : F.reads ∩ F.writes = ∅) :
    (fl.dependencies F).erase F
      = cellsAt fl.cells (fl.graph.getD (listIndex F fl.cells) ∅) := by
  set i := listIndex F fl.cells with hi
  have hlt : i < fl.cells.length := listIndex_lt hmem
  have hFi : fl.cells.getD i dCell = F := listIndex_getD hmem
  have hnw : ∀ s ∈ F.reads, s ∉ F.writes := by
    intro s hs hw
    have hin : s ∈ F.reads ∩ F.writes := Finset.mem_inter.mpr ⟨hs, hw⟩
    rw [hdisj] at hin
    exact absurd hin (Finset.not_mem_empty s)
  have hdeps : fl.dependencies F = F.reads.biUnion fun s =>
      ((lastW fl.cells i s).map fun j => fl.cells.getD j dCell).toFinset := by
    rw [dependencies_spec fl F hmem]
    refine Finset.biUnion_congr rfl fun s hs => ?_
    have hstep : lastWSel (fun d => d.writes) fl.cells (i + 1) s = lastW fl.cells i s := by
      rw [lastWSel_succ, hFi, if_neg (hnw s hs)]
      rfl
    rw [← hi, hstep]
  have hrhs : cellsAt fl.cells (fl.graph.getD i ∅)
      = F.reads.biUnion fun s =>
        ((lastW fl.cells i s).map fun j => fl.cells.getD j dCell).toFinset := by
    rw [graph_eq, gexp_getD fl.cells fl.cells 0 i hlt, Nat.zero_add, hFi, cellsAt,
      Finset.biUnion_image]
    exact Finset.biUnion_congr rfl fun s _ => optionToFinset_map _ _
  have hFnot : F ∉ fl.dependencies F := by
    rw [hdeps]
    intro hmem2
    rcases Finset.mem_biUnion.mp hmem2 with ⟨s, hs, hmem3⟩
    rw [Option.mem_toFinset, Option.mem_def, Option.map_eq_some'] at hmem3
    rcases hmem3 with ⟨j, hj, hjF⟩
    have hjlt : j < i := lastWSel_lt _ _ _ _ _ hj
    have : j = i := getD_inj_nodup hnd (by omega) hlt (hjF.trans hFi.symm)
    omega
  rw [Finset.erase_eq_self.mpr hFnot, hdeps, hrhs]

/-- Claim C2 counterexample: with `F1` writing `a` and both `F2` and `F3`
reading it, `dependents(F1) \ {F1}` is `{F2}` (the forward scan stops at the
first reader of `a`), while `graph()` records `F1` as a predecessor of both
`F2` and `F3` — so the point query does not agree with `graph()` even though
`F1` has no read/write self-intersection. -/
theorem claim_C2_counterexample :
    ((Flow.init [xCell0, xCell1, xCell2]).dependents xCell0).erase xCell0
      ≠ (Flow.init [xCell0, xCell1, xCell2]).specDependents xCell0 := by
  decide

theorem claim_C2_witness :
    (yCell2 ∈ (Flow.init [yCell0, yCell1, yCell2]).cells
      ∧ (Flow.init [yCell0, yCell1, yCell2]).cells.Nodup
      ∧ yCell2.reads ∩ yCell2.writes = ∅)
    ∧ ((Flow.init [yCell0, yCell1, yCell2]).dependencies yCell2).erase yCell2
      = cellsAt (Flow.init [yCell0, yCell1, yCell2]).cells
        ((Flow.init [yCell0, yCell1, yCell2]).graph.getD
          (listIndex yCell2 (Flow.init [yCell0, yCell1, yCell2]).cells) ∅) :=
  ⟨⟨by decide, by decide, by decide⟩,
    claim_C2_amended _ yCell2 (by decide) (by decide) (by decide)⟩

/-- Claim C3 (corrected): the reverse-map invariant holds after construction
and is preserved by `append`, `__delitem__` and `__setitem__`, *provided* no
fragment object ever occurs at two positions of the sequence: construction
starts from a duplicate-free list and insertions add objects not already
present.  (`MapsExact` is the exact description of the reverse-map contents;
it implies the spec's invariant `Inv` and is what the operations maintain.)
With duplicates the invariant fails — see the counterexample. -/
theorem claim_C3_amended :
    (∀ cs : List Cell, cs.Nodup →
      Inv (Flow.init cs) ∧ MapsExact (Flow.init cs) ∧ (Flow.init cs).cells.Nodup)
    ∧ (∀ (fl : Flow) (c : Cell), MapsExact fl → fl.cells.Nodup → c ∉ fl.cells →
      Inv (fl.append c) ∧ MapsExact (fl.append c) ∧ (fl.append c).cells.Nodup)
    ∧ (∀ (fl : Flow) (k : Nat), MapsExact fl → fl.cells.Nodup → k < fl.cells.length →
      Inv (fl.delitem k) ∧ MapsExact (fl.delitem k) ∧ (fl.delitem k).cells.Nodup)
    ∧ (∀ (fl : Flow) (k : Nat) (c : Cell), MapsExact fl → fl.cells.Nodup →
      k < fl.cells.length → c ∉ fl.cells →
      Inv (fl.setitem k c) ∧ MapsExact (fl.setitem k c) ∧ (fl.setitem k c).cells.Nodup) := by
  refine ⟨?_, ?_, ?_, ?_⟩
  · intro cs hnd
    refine ⟨mapsExact_inv (mapsExact_init cs), mapsExact_init cs, ?_⟩
    rw [Flow.init_cells]
    exact hnd
  · intro fl c hme hnd hc
    have hme' := mapsExact_append fl c hme
    refine ⟨mapsExact_inv hme', hme', ?_⟩
    show (fl.cells ++ [c]).Nodup
    simp [List.nodup_append, hnd, hc]
  · intro fl k hme hnd hk
    have hme' := mapsExact_delitem fl k hme hnd hk
    refine ⟨mapsExact_inv hme', hme', ?_⟩
    exact hnd.sublist (List.eraseIdx_sublist _ _)
  · intro fl k c hme hnd hk hc
    have hme' := mapsExact_setitem fl k c hme hnd hk
    refine ⟨mapsExact_inv hme', hme', ?_⟩
    exact nodup_set hnd hc

/-- Claim C3 counterexample: start from the sequence `[c, c]` holding the
same fragment object twice and delete position 0.  The object is still in
the sequence (at the remaining position) yet `_rm` has removed it from
`read_by["a"]`, violating the claimed invariant. -/
theorem claim_C3_counterexample :
    dupCell ∈ ((Flow.init [dupCell, dupCell]).delitem 0).cells
    ∧ "a" ∈ dupCell.reads
    ∧ dupCell ∉ ((Flow.init [dupCell, dupCell]).delitem 0).read_by "a" :=
  ⟨by decide, by decide, by decide⟩

theorem claim_C3_witness :
    [zCell0, zCell1].Nodup
    ∧ Inv (Flow.init [zCell0, zCell1])
    ∧ 0 < (Flow.init [zCell0, zCell1]).cells.length
    ∧ Inv ((Flow.init [zCell0, zCell1]).delitem 0)
    ∧ zCell0 ∉ ((Flow.init [zCell0, zCell1]).delitem 0).cells
    ∧ Inv (((Flow.init [zCell0, zCell1]).delitem 0).append zCell0) := by
  have h1 := claim_C3_amended.1 [zCell0, zCell1] (by decide)
  have h2 := claim_C3_amended.2.2.1 (Flow.init [zCell0, zCell1]) 0 h1.2.1 h1.2.2 (by decide)
  have h3 := claim_C3_amended.2.1 ((Flow.init [zCell0, zCell1]).delitem 0) zCell0
    h2.2.1 h2.2.2 (by decide)
  exact ⟨by decide, h1.1, by decide, h2.1, by decide, h3.1⟩

/-- Claim C4 (corrected): replacing at a valid position with source text the
parser rejects raises, and leaves the fragment *sequence* unchanged — but the
reverse maps are *not* as they were: `__setitem__` runs `_rm` before `_add`
parses the new text, so the old fragment has already been removed from every
reverse-map entry for its reads and writes (entries of other fragments are
untouched). -/
theorem claim_C4_amended (fl : Flow) (k : Nat) (hk : k < fl.cells.length) :
    (fl.setitemRaw k none).raised = true
    ∧ (fl.setitemRaw k none).state.cells = fl.cells
    ∧ (∀ s ∈ (fl.cells.getD k dCell).reads,
        fl.cells.getD k dCell ∉ (fl.setitemRaw k none).state.read_by s)
    ∧ (∀ s ∈ (fl.cells.getD k dCell).writes,
        fl.cells.getD k dCell ∉ (fl.setitemRaw k none).state.written_by s)
    ∧ (∀ c, c ≠ fl.cells.getD k dCell → ∀ s,
        (c ∈ (fl.setitemRaw k none).state.read_by s ↔ c ∈ fl.read_by s)
        ∧ (c ∈ (fl.setitemRaw k none).state.written_by s ↔ c ∈ fl.written_by s)) := by
  refine ⟨rfl, rfl, ?_, ?_, ?_⟩
  · intro s hs
    show _ ∉ (fl.rmMaps (fl.cells.getD k dCell)).read_by s
    rw [mem_rmMaps_read_by]
    rintro ⟨hnot, _⟩
    exact hnot ⟨rfl, hs⟩
  · intro s hs
    show _ ∉ (fl.rmMaps (fl.cells.getD k dCell)).written_by s
    rw [mem_rmMaps_written_by]
    rintro ⟨hnot, _⟩
    exact hnot ⟨rfl, hs⟩
  · intro c hne s
    constructor
    · rw [show (fl.setitemRaw k none).state.read_by s
          = (fl.rmMaps (fl.cells.getD k dCell)).read_by s from rfl, mem_rmMaps_read_by]
      exact ⟨fun h => h.2, fun h => ⟨fun hand => hne hand.1, h⟩⟩
    · rw [show (fl.setitemRaw k none).state.written_by s
          = (fl.rmMaps (fl.cells.getD k dCell)).written_by s from rfl, mem_rmMaps_written_by]
      exact ⟨fun h => h.2, fun h => ⟨fun hand => hne hand.1, h⟩⟩

/-- Claim C4 counterexample: replacing the only fragment (which reads `a`)
with rejected text leaves the index with the fragment still in the sequence
but no longer in `read_by["a"]` — the reverse maps are not "exactly as they
were before the call". -/
theorem claim_C4_counterexample :
    pCell ∈ (Flow.init [pCell]).read_by "a"
    ∧ pCell ∉ ((Flow.init [pCell]).setitemRaw 0 none).state.read_by "a" :=
  ⟨by decide, by decide⟩

theorem claim_C4_witness :
    0 < (Flow.init [qCell]).cells.length
    ∧ ((Flow.init [qCell]).setitemRaw 0 none).raised = true
    ∧ ((Flow.init [qCell]).setitemRaw 0 none).state.cells = (Flow.init [qCell]).cells := by
  have h := claim_C4_amended (Flow.init [qCell]) 0 (by decide)
  exact ⟨by decide, h.1, h.2.1⟩

/-! ## Monotonicity of the traversal

`stepLe` is reachability in the `Symbol` state machine; a whole traversal
step takes every name's state up this order, never changes the shape of the
scope stack around it, only grows each surviving scope's sets, and only
grows the touched-name list. -/

theorem stepLe_refl (a : SymState) : stepLe a a :=
  Or.inl rfl

theorem stepLe_trans {a b c : SymState} (h1 : stepLe a b) (h2 : stepLe b c) : stepLe a c := by
  rcases h1 with rfl | rfl | ⟨rfl, rfl⟩
  · exact h2
  · exact Or.inr (Or.inl rfl)
  · rcases h2 with rfl | h | ⟨h, _⟩
    · exact Or.inr (Or.inr ⟨rfl, rfl⟩)
    · exact SymState.noConfusion h
    · exact SymState.noConfusion h

theorem stepLe_readT (s : SymState) : stepLe s (readT s) := by
  cases s <;> simp [readT, stepLe]

theorem stepLe_writeT (s : SymState) : stepLe s (writeT s) := by
  cases s <;> simp [writeT, stepLe]

theorem stepLe_wr (s : SymState) (upd : Bool) :
    stepLe s (writeT (if upd then readT s else s)) := by
  cases upd <;> cases s <;> simp [readT, writeT, stepLe]

theorem stepLe_wrT (s : SymState) : stepLe s (writeT (readT s)) := by
  cases s <;> simp [readT, writeT, stepLe]

theorem isWritten_stepLe {a b : SymState} (h : stepLe a b) (hw : isWritten a = true) :
    isWritten b = true := by
  rcases h with rfl | rfl | ⟨rfl, rfl⟩
  · exact hw
  · exact absurd hw (by decide)
  · rfl

theorem isRead_stepLe {a b : SymState} (h : stepLe a b) (hr : isRead a = true) :
    isRead b = true := by
  rcases h with rfl | rfl | ⟨rfl, rfl⟩
  · exact hr
  · exact absurd hr (by decide)
  · rfl

theorem created_stepLe {a b : SymState} (h : stepLe a b) (hc : a = .created) :
    b = .created := by
  subst hc
  rcases h with rfl | h | ⟨h, _⟩
  · rfl
  · exact SymState.noConfusion h
  · exact SymState.noConfusion h

theorem scLe_refl (xs : List Scope) : ScLe xs xs := by
  induction xs with
  | nil => exact List.Forall₂.nil
  | cons a l ih => exact List.Forall₂.cons ⟨subset_rfl, subset_rfl⟩ ih

theorem scLe_trans : ∀ {xs ys zs : List Scope}, ScLe xs ys → ScLe ys zs → ScLe xs zs := by
  intro xs ys zs h1
  induction h1 generalizing zs with
  | nil => intro h2; cases h2; exact List.Forall₂.nil
  | cons hab h ih =>
    intro h2
    cases h2 with
    | cons hbc h2' => exact List.Forall₂.cons ⟨hab.1.trans hbc.1, hab.2.trans hbc.2⟩ (ih h2')

theorem vle_refl (st : VState) : VLe st st :=
  ⟨fun _ => stepLe_refl _, scLe_refl _, fun _ h => h, fun h => h⟩

theorem vle_trans {a b c : VState} (h1 : VLe a b) (h2 : VLe b c) : VLe a c :=
  ⟨fun x => stepLe_trans (h1.1 x) (h2.1 x), scLe_trans h1.2.1 h2.2.1,
    fun x hx => h2.2.2.1 x (h1.2.2.1 x hx), fun h => h2.2.2.2 (h1.2.2.2 h)⟩

theorem vle_touch {st : VState} {x : String} {f : SymState → SymState}
    (hf : ∀ s, stepLe s (f s)) : VLe st (st.touch x f) := by
  refine ⟨?_, scLe_refl _, ?_, ?_⟩
  · intro y
    show stepLe (st.sym y) (if y = x then f (st.sym x) else st.sym y)
    by_cases hy : y = x
    · subst hy
      rw [if_pos rfl]
      exact hf _
    · rw [if_neg hy]
      exact stepLe_refl _
  · intro y hy
    exact List.mem_cons_of_mem _ hy
  · intro hinv y hy
    show y ∈ x :: st.dom
    by_cases hyx : y = x
    · exact hyx ▸ List.mem_cons_self _ _
    · have : st.sym y ≠ .de := by
        have heq : (st.touch x f).sym y = st.sym y := by
          show (if y = x then f (st.sym x) else st.sym y) = st.sym y
          rw [if_neg hyx]
        rw [heq] at hy
        exact hy
      exact List.mem_cons_of_mem _ (hinv y this)

theorem vle_readSym (st : VState) (x : String) : VLe st (st.readSym x) :=
  vle_touch stepLe_readT

theorem vle_writeSym (st : VState) (x : String) (upd : Bool) : VLe st (st.writeSym x upd) :=
  vle_touch fun s => stepLe_wr s upd

theorem vle_visitName (x : String) (st : VState) : VLe st (visitName x st) := by
  unfold visitName
  cases hsc : st.scopes with
  | nil => exact vle_readSym st x
  | cons sc rest =>
    show VLe st (if x ∈ sc.locals then st else st.readSym x)
    by_cases hx : x ∈ sc.locals
    · rw [if_pos hx]
      exact vle_refl st
    · rw [if_neg hx]
      exact vle_readSym st x

theorem vle_assignName (x : String) (upd : Bool) (st : VState) :
    VLe st (assignName x upd st) := by
  unfold assignName
  cases hsc : st.scopes with
  | nil => exact vle_writeSym st x upd
  | cons sc rest =>
    show VLe st (if x ∈ sc.globals then st.writeSym x upd
      else { st with scopes := { sc with locals := insert x sc.locals } :: rest })
    by_cases hx : x ∈ sc.globals
    · rw [if_pos hx]
      exact vle_writeSym st x upd
    · rw [if_neg hx]
      refine ⟨fun y => stepLe_refl _, ?_, fun y hy => hy, fun h => h⟩
      show ScLe st.scopes _
      rw [hsc]
      exact List.Forall₂.cons ⟨subset_rfl, Finset.subset_insert _ _⟩ (scLe_refl rest)

theorem scLe_cons_inv {a : Scope} {xs ys : List Scope} (h : ScLe (a :: xs) ys) :
    ∃ b l, ys = b :: l ∧ ScLe xs l := by
  cases h with
  | cons hab htail => exact ⟨_, _, rfl, htail⟩

theorem scLe_cons_inv2 {a : Scope} {xs ys : List Scope} (h : ScLe (a :: xs) ys) :
    ∃ b l, ys = b :: l ∧ (a.globals ⊆ b.globals ∧ a.locals ⊆ b.locals) ∧ ScLe xs l := by
  cases h with
  | cons hab htail => exact ⟨_, _, rfl, hab, htail⟩

theorem vle_of_push_pop {st mid : VState} (h : VLe (pushScope st) mid) :
    VLe st (popScope mid) := by
  obtain ⟨hsym, hsc, hdom, hinv⟩ := h
  have hsc2 : ScLe (⟨∅, ∅⟩ :: st.scopes) mid.scopes := hsc
  obtain ⟨b, l, hys, htail⟩ := scLe_cons_inv hsc2
  refine ⟨hsym, ?_, hdom, hinv⟩
  show ScLe st.scopes mid.scopes.tail
  rw [hys]
  exact htail

theorem vle_foldl {α : Type} (g : α → VState → VState) (hg : ∀ a st, VLe st (g a st)) :
    ∀ (l : List α) (st : VState), VLe st (l.foldl (fun s a => g a s) st) := by
  intro l
  induction l with
  | nil => intro st; exact vle_refl st
  | cons a rest ih => intro st; exact vle_trans (hg a st) (ih (g a st))

mutual

theorem vle_visitStmt : ∀ (s : Stmt) (st : VState), VLe st (visitStmt s st)
  | .assign targets value, st =>
    vle_trans (vle_assignTargets targets st) (vle_visitExpr value _)
  | .augAssign target value, st =>
    vle_trans (vle_assignTgt target true st) (vle_visitExpr value _)
  | .delStmt targets, st => vle_delTargets targets st
  | .functionDef nm _params defaults decorators body, st =>
    vle_trans (vle_assignName nm false st)
      (vle_trans (vle_visitExprList defaults _)
        (vle_trans (vle_visitExprList decorators _)
          (vle_of_push_pop (vle_visitStmtList body _))))
  | .classDef nm bases decorators body, st =>
    vle_trans (vle_assignName nm false st)
      (vle_trans (vle_visitExprList bases _)
        (vle_trans (vle_visitExprList decorators _)
          (vle_of_push_pop (vle_visitStmtList body _))))
  | .forLoop target iter body, st =>
    vle_trans (vle_assignTgt target false st)
      (vle_trans (vle_visitExpr iter _) (vle_visitStmtList body _))
  | .withStmt ctx .noneE body, st =>
    vle_trans (vle_visitExpr ctx st) (vle_visitStmtList body _)
  | .withStmt ctx (.someE v) body, st =>
    vle_trans (vle_assignTgt v false st)
      (vle_trans (vle_visitExpr ctx _) (vle_visitStmtList body _))
  | .tryExcept body handlers orelse, st =>
    vle_trans (vle_visitStmtList body st)
      (vle_trans (vle_visitHandlers handlers _) (vle_visitStmtList orelse _))
  | .importStmt names, st =>
    vle_foldl (fun p st => assignName (importBind p) false st)
      (fun p st => vle_assignName (importBind p) false st) names st
  | .importFrom names, st =>
    vle_foldl (fun p st => assignName (importFromBind p) false st)
      (fun p st => vle_assignName (importFromBind p) false st) names st
  | .globalStmt names, st => by
    unfold visitStmt
    cases hsc : st.scopes with
    | nil => exact vle_refl st
    | cons sc rest =>
      refine ⟨fun y => stepLe_refl _, ?_, fun y hy => hy, fun h => h⟩
      show ScLe st.scopes _
      rw [hsc]
      exact List.Forall₂.cons ⟨Finset.subset_union_left, subset_rfl⟩ (scLe_refl rest)
  | .exprStmt v, st => vle_visitExpr v st
  | .printStmt vs, st => vle_visitExprList vs st
  | .ret .noneE, st => vle_refl st
  | .ret (.someE e), st => vle_visitExpr e st

theorem vle_visitStmtList : ∀ (l : StmtList) (st : VState), VLe st (visitStmtList l st)
  | .nil, st => vle_refl st
  | .cons s rest, st => vle_trans (vle_visitStmt s st) (vle_visitStmtList rest _)

theorem vle_visitExpr : ∀ (e : Expr) (st : VState), VLe st (visitExpr e st)
  | .name x, st => vle_visitName x st
  | .num _, st => vle_refl st
  | .binOp l r, st => vle_trans (vle_visitExpr l st) (vle_visitExpr r _)
  | .attr v _, st => vle_visitExpr v st
  | .subscript v s, st => vle_trans (vle_visitExpr v st) (vle_visitExpr s _)
  | .call (.attr v a) args kws star kw, st =>
    vle_trans (vle_assignTgt v true st)
      (vle_trans (vle_visitExprList args _) (vle_trans (vle_visitExprList kws _)
        (vle_trans (vle_visitOptExpr star _) (vle_visitOptExpr kw _))))
  | .call (.name y) args kws star kw, st =>
    vle_trans (vle_visitExpr (.name y) st)
      (vle_trans (vle_visitExprList args _) (vle_trans (vle_visitExprList kws _)
        (vle_trans (vle_visitOptExpr star _) (vle_visitOptExpr kw _))))
  | .call (.num n) args kws star kw, st =>
    vle_trans (vle_visitExpr (.num n) st)
      (vle_trans (vle_visitExprList args _) (vle_trans (vle_visitExprList kws _)
        (vle_trans (vle_visitOptExpr star _) (vle_visitOptExpr kw _))))
  | .call (.binOp l r) args kws star kw, st =>
    vle_trans (vle_visitExpr (.binOp l r) st)
      (vle_trans (vle_visitExprList args _) (vle_trans (vle_visitExprList kws _)
        (vle_trans (vle_visitOptExpr star _) (vle_visitOptExpr kw _))))
  | .call (.subscript u v) args kws star kw, st =>
    vle_trans (vle_visitExpr (.subscript u v) st)
      (vle_trans (vle_visitExprList args _) (vle_trans (vle_visitExprList kws _)
        (vle_trans (vle_visitOptExpr star _) (vle_visitOptExpr kw _))))
  | .call (.call f2 a2 k2 s2 kw2) args kws star kw, st =>
    vle_trans (vle_visitExpr (.call f2 a2 k2 s2 kw2) st)
      (vle_trans (vle_visitExprList args _) (vle_trans (vle_visitExprList kws _)
        (vle_trans (vle_visitOptExpr star _) (vle_visitOptExpr kw _))))
  | .call (.lam p d b) args kws star kw, st =>
    vle_trans (vle_visitExpr (.lam p d b) st)
      (vle_trans (vle_visitExprList args _) (vle_trans (vle_visitExprList kws _)
        (vle_trans (vle_visitOptExpr star _) (vle_visitOptExpr kw _))))
  | .call (.tupleE es) args kws star kw, st =>
    vle_trans (vle_visitExpr (.tupleE es) st)
      (vle_trans (vle_visitExprList args _) (vle_trans (vle_visitExprList kws _)
        (vle_trans (vle_visitOptExpr star _) (vle_visitOptExpr kw _))))
  | .lam params defaults body, st =>
    vle_trans
      (vle_foldl (fun x st => visitName x st) (fun x st => vle_visitName x st) params st)
      (vle_trans (vle_visitExprList defaults _) (vle_visitExpr body _))
  | .tupleE es, st => vle_visitExprList es st

theorem vle_visitExprList : ∀ (l : ExprList) (st : VState), VLe st (visitExprList l st)
  | .nil, st => vle_refl st
  | .cons e rest, st => vle_trans (vle_visitExpr e st) (vle_visitExprList rest _)

theorem vle_visitOptExpr : ∀ (o : OptExpr) (st : VState), VLe st (visitOptExpr o st)
  | .noneE, st => vle_refl st
  | .someE e, st => vle_visitExpr e st

theorem vle_assignTgt : ∀ (e : Expr) (upd : Bool) (st : VState), VLe st (assignTgt e upd st)
  | .name x, upd, st => vle_assignName x upd st
  | .subscript v s, _, st => vle_trans (vle_visitExpr s st) (vle_assignTgt v true _)
  | .attr v _, _, st => vle_assignTgt v true st
  | .num _, _, st => vle_refl st
  | .binOp _ _, _, st => vle_refl st
  | .call _ _ _ _ _, _, st => vle_refl st
  | .lam _ _ _, _, st => vle_refl st
  | .tupleE _, _, st => vle_refl st

theorem vle_assignTargets : ∀ (l : ExprList) (st : VState), VLe st (assignTargets l st)
  | .nil, st => vle_refl st
  | .cons t rest, st => vle_trans (vle_assignTgt t false st) (vle_assignTargets rest _)

theorem vle_delTargets : ∀ (l : ExprList) (st : VState), VLe st (delTargets l st)
  | .nil, st => vle_refl st
  | .cons (.name x) rest, st => by
    have hstep : VLe st (if st.sym x ≠ .de then st.touch x fun s => writeT (readT s)
        else assignTgt (.name x) false (visitExpr (.name x) st)) := by
      by_cases hx : st.sym x ≠ .de
      · rw [if_pos hx]
        exact vle_touch stepLe_wrT
      · rw [if_neg hx]
        exact vle_trans (vle_visitExpr (.name x) st) (vle_assignTgt (.name x) false _)
    exact vle_trans hstep (vle_delTargets rest _)
  | .cons (.num n) rest, st =>
    vle_trans (vle_trans (vle_visitExpr (.num n) st) (vle_assignTgt (.num n) false _))
      (vle_delTargets rest _)
  | .cons (.binOp l r) rest, st =>
    vle_trans (vle_trans (vle_visitExpr (.binOp l r) st) (vle_assignTgt (.binOp l r) false _))
      (vle_delTargets rest _)
  | .cons (.attr v a) rest, st =>
    vle_trans (vle_trans (vle_visitExpr (.attr v a) st) (vle_assignTgt (.attr v a) false _))
      (vle_delTargets rest _)
  | .cons (.subscript u v) rest, st =>
    vle_trans
      (vle_trans (vle_visitExpr (.subscript u v) st) (vle_assignTgt (.subscript u v) false _))
      (vle_delTargets rest _)
  | .cons (.call f a k s2 kw) rest, st =>
    vle_trans
      (vle_trans (vle_visitExpr (.call f a k s2 kw) st)
        (vle_assignTgt (.call f a k s2 kw) false _))
      (vle_delTargets rest _)
  | .cons (.lam p d b) rest, st =>
    vle_trans (vle_trans (vle_visitExpr (.lam p d b) st) (vle_assignTgt (.lam p d b) false _))
      (vle_delTargets rest _)
  | .cons (.tupleE es) rest, st =>
    vle_trans (vle_trans (vle_visitExpr (.tupleE es) st) (vle_assignTgt (.tupleE es) false _))
      (vle_delTargets rest _)

theorem vle_visitHandlers : ∀ (h : Handlers) (st : VState), VLe st (visitHandlers h st)
  | .nil, st => vle_refl st
  | .cons .noneE hname hbody rest, st => by
    have hstep : VLe st (match hname with | none => st | some x => assignName x false st) := by
      cases hname with
      | none => exact vle_refl st
      | some x => exact vle_assignName x false st
    exact vle_trans hstep (vle_trans (vle_visitStmtList hbody _) (vle_visitHandlers rest _))
  | .cons (.someE e) hname hbody rest, st => by
    have h1 : VLe st (visitExpr e st) := vle_visitExpr e st
    have hstep : VLe (visitExpr e st) (match hname with
        | none => visitExpr e st
        | some x => assignName x false (visitExpr e st)) := by
      cases hname with
      | none => exact vle_refl _
      | some x => exact vle_assignName x false _
    exact vle_trans h1
      (vle_trans hstep (vle_trans (vle_visitStmtList hbody _) (vle_visitHandlers rest _)))

end

/-! ## Concatenation of statement lists and bridging lemmas -/

theorem visitStmtList_app : ∀ (a b : StmtList) (st : VState),
    visitStmtList (SL.app a b) st = visitStmtList b (visitStmtList a st)
  | .nil, _, _ => rfl
  | .cons s rest, b, st => visitStmtList_app rest b (visitStmt s st)

theorem mem_readsOf {st : VState} {x : String} :
    x ∈ readsOf st ↔ x ∈ st.dom ∧ isRead (st.sym x) = true := by
  simp [readsOf, List.mem_filter]

theorem mem_writesOf {st : VState} {x : String} :
    x ∈ writesOf st ↔ x ∈ st.dom ∧ isWritten (st.sym x) = true := by
  simp [writesOf, List.mem_filter]

theorem domInv_init : DomInv initState :=
  fun _ h => absurd rfl h

theorem domInv_mono {st st' : VState} (h : VLe st st') (hd : DomInv st) : DomInv st' :=
  h.2.2.2 hd

theorem isWritten_writeT (s : SymState) : isWritten (writeT s) = true := by
  cases s <;> rfl

theorem notDe_of_isWritten {s : SymState} (h : isWritten s = true) : s ≠ .de := by
  cases s <;> simp_all [isWritten]

theorem notDe_of_isRead {s : SymState} (h : isRead s = true) : s ≠ .de := by
  cases s <;> simp_all [isRead]

theorem scLe_nil_inv : ∀ {ys : List Scope}, ScLe [] ys → ys = [] := by
  intro ys h
  cases h
  rfl

theorem scopes_nil_of_vle {st st' : VState} (h : VLe st st') (hn : st.scopes = []) :
    st'.scopes = [] := by
  have hsc := h.2.1
  rw [hn] at hsc
  exact scLe_nil_inv hsc

/-! ## Claim theorems: the classifier on concrete fragments (C1, C5) -/

/-- Claim C1 (corrected): on the spec's example fragment the computed sets
are `reads = {b, d, i}` and `writes = {a, c, d, e, f}`.  The spec's example
lists `e` among the reads, but `e` is written (`e = 1`) before `print(e)` is
reached and `Symbol.read` is a no-op on a `CREATED` symbol; the package's own
unit test asserts `reads == set('bdi')`, agreeing with the code. -/
theorem claim_C1_amended :
    (mkCell 0 prog1).reads = {"b", "d", "i"}
    ∧ (mkCell 0 prog1).writes = {"a", "c", "d", "e", "f"} :=
  ⟨by decide, by decide⟩

/-- Claim C1 counterexample: the claimed `reads` set `{b, d, i, e}` is not
what the code computes on the example fragment (`e` is missing). -/
theorem claim_C1_counterexample :
    ¬ ((mkCell 0 prog1).reads = {"b", "d", "i", "e"}
      ∧ (mkCell 0 prog1).writes = {"a", "c", "d", "e", "f"}) := by
  decide

/-- Claim C5 (corrected): there is no `Lambda` handler, so no scope is pushed
for a lambda; `generic_visit` feeds the parameter (a `Name` node in the
Python 2 ast) and the body to `visit_Name` in the enclosing scope.  For
`f = lambda x: x` at module level the name `x` therefore lands in the
fragment's `reads` (and stays out of `writes`), instead of staying invisible
as the claim asserts. -/
theorem claim_C5_amended :
    "x" ∈ (mkCell 0 prog5).reads
    ∧ "x" ∉ (mkCell 0 prog5).writes
    ∧ "f" ∈ (mkCell 0 prog5).writes :=
  ⟨by decide, by decide, by decide⟩

/-- Claim C5 counterexample: for `f = lambda x: x` the name `x` does appear
in the fragment's reads, contradicting "the name appears in neither the
fragment's reads nor its writes". -/
theorem claim_C5_counterexample :
    ¬ ("x" ∉ (mkCell 0 prog5).reads ∧ "x" ∉ (mkCell 0 prog5).writes) := by
  decide

/-! ## Syntactic predicates over fragments

Decidable predicates describing where an identifier occurs in a fragment.
They are phrased to mirror the traversal exactly, so that each one can be
related to the visitor by structural induction:

* `gdS x` — a `global` declaration naming `x` occurs anywhere;
* `dnS x` — a `del` statement with the plain target `x` occurs anywhere;
* `mbS deep x` — a construct that can feed `x` to `assign`'s write branch is
  reachable without entering a nested scope (`deep = false` stops at
  function/class bodies, `deep = true` descends into them);
* `refsS x` — the traversal reaches `visit_Name` on `x`;
* `occS x` — the identifier `x` occurs at all. -/

/-! ## The never-written invariant (C8 part 1)

`QInv x st` says `x`'s fragment-level symbol has not been written and `x` is
in no scope's `globals` set.  It is preserved by the traversal as long as no
`global x` declaration occurs, no `del x` occurs, and — whenever the
traversal is at module level — no module-level binding site for `x` is
visited.  Reads never break it (`Symbol.read` cannot produce a written
state). -/

theorem ne_of_beqF {a b : String} (h : (a == b) = false) : a ≠ b := by
  intro he
  subst he
  simp at h

theorem beqF_of_ne {a b : String} (h : a ≠ b) : (a == b) = false := by
  simp [h]

theorem listHas_false {x : String} : ∀ {l : List String}, listHas x l = false → x ∉ l := by
  intro l
  induction l with
  | nil => intro _ h; simp at h
  | cons y rest ih =>
    intro h hmem
    simp only [listHas, Bool.or_eq_false_iff] at h
    rcases List.mem_cons.mp hmem with rfl | hmem
    · exact (ne_of_beqF h.1) rfl
    · exact ih h.2 hmem

theorem isWritten_readT (s : SymState) : isWritten (readT s) = isWritten s := by
  cases s <;> rfl

theorem touch_sym_ne {st : VState} {y x : String} (h : y ≠ x) (f : SymState → SymState) :
    (st.touch y f).sym x = st.sym x := by
  show (if x = y then _ else st.sym x) = st.sym x
  rw [if_neg (fun hh => h hh.symm)]

theorem q_touch_ne {x : String} {st : VState} {y : String} (hy : y ≠ x)
    (f : SymState → SymState) (hQ : QInv x st) : QInv x (st.touch y f) := by
  refine ⟨?_, hQ.2⟩
  rw [touch_sym_ne hy]
  exact hQ.1

theorem q_readSym {x : String} {st : VState} (y : String) (hQ : QInv x st) :
    QInv x (st.readSym y) := by
  by_cases hy : y = x
  · subst hy
    refine ⟨?_, hQ.2⟩
    show isWritten (if y = y then readT (st.sym y) else st.sym y) = false
    rw [if_pos rfl, isWritten_readT]
    exact hQ.1
  · exact q_touch_ne hy _ hQ

theorem q_visitName {x : String} {st : VState} (y : String) (hQ : QInv x st) :
    QInv x (visitName y st) := by
  unfold visitName
  cases hsc : st.scopes with
  | nil => exact q_readSym y hQ
  | cons sc rest =>
    show QInv x (if y ∈ sc.locals then st else st.readSym y)
    by_cases hy : y ∈ sc.locals
    · rw [if_pos hy]
      exact hQ
    · rw [if_neg hy]
      exact q_readSym y hQ

theorem q_writeSym_ne {x y : String} {st : VState} (hy : y ≠ x) (upd : Bool)
    (hQ : QInv x st) : QInv x (st.writeSym y upd) :=
  q_touch_ne hy _ hQ

theorem q_assignName {x y : String} {st : VState} (upd : Bool) (hQ : QInv x st)
    (hmod : st.scopes = [] → y ≠ x) : QInv x (assignName y upd st) := by
  unfold assignName
  cases hsc : st.scopes with
  | nil => exact q_writeSym_ne (hmod hsc) upd hQ
  | cons sc rest =>
    show QInv x (if y ∈ sc.globals then st.writeSym y upd
      else { st with scopes := { sc with locals := insert y sc.locals } :: rest })
    by_cases hy : y ∈ sc.globals
    · rw [if_pos hy]
      have hyx : y ≠ x := by
        intro h
        subst h
        exact (hQ.2 sc (by rw [hsc]; exact List.mem_cons_self sc rest)) hy
      exact q_writeSym_ne hyx upd hQ
    · rw [if_neg hy]
      refine ⟨hQ.1, ?_⟩
      intro sc' hsc'
      rcases List.mem_cons.mp hsc' with rfl | hsc'
      · show x ∉ sc.globals
        exact hQ.2 sc (by rw [hsc]; exact List.mem_cons_self sc rest)
      · exact hQ.2 sc' (by rw [hsc]; exact List.mem_cons_of_mem sc hsc')

theorem q_push {x : String} {st : VState} (hQ : QInv x st) : QInv x (pushScope st) := by
  refine ⟨hQ.1, ?_⟩
  intro sc hsc
  rcases List.mem_cons.mp hsc with rfl | hsc
  · exact Finset.not_mem_empty x
  · exact hQ.2 sc hsc

theorem q_pop {x : String} {st : VState} (hQ : QInv x st) : QInv x (popScope st) := by
  refine ⟨hQ.1, ?_⟩
  intro sc hsc
  have hsc2 : sc ∈ st.scopes.tail := hsc
  have hmem : sc ∈ st.scopes := by
    cases hl : st.scopes with
    | nil => rw [hl] at hsc2; simp at hsc2
    | cons a l =>
      rw [hl] at hsc2
      exact List.mem_cons_of_mem a hsc2
  exact hQ.2 sc hmem

theorem q_globalStmt {x : String} {st : VState} (names : List String) (hQ : QInv x st)
    (hn : listHas x names = false) : QInv x (visitStmt (.globalStmt names) st) := by
  unfold visitStmt
  cases hsc : st.scopes with
  | nil => exact hQ
  | cons sc rest =>
    refine ⟨hQ.1, ?_⟩
    intro sc' hsc'
    rcases List.mem_cons.mp hsc' with rfl | hsc'
    · show x ∉ sc.globals ∪ names.toFinset
      rw [Finset.mem_union]
      rintro (h | h)
      · exact (hQ.2 sc (by rw [hsc]; exact List.mem_cons_self sc rest)) h
      · exact listHas_false hn (List.mem_toFinset.mp h)
    · exact hQ.2 sc' (by rw [hsc]; exact List.mem_cons_of_mem sc hsc')

theorem scLe_nil_inv2 : ∀ {xs : List Scope}, ScLe xs [] → xs = [] := by
  intro xs h
  cases h
  rfl

theorem scopes_nil_back_vle {st st' : VState} (h : VLe st st') (hn : st'.scopes = []) :
    st.scopes = [] := by
  have hsc := h.2.1
  rw [hn] at hsc
  exact scLe_nil_inv2 hsc

theorem nil_transport {st st' : VState} (h : VLe st st') {P : Prop}
    (hp : st.scopes = [] → P) : st'.scopes = [] → P :=
  fun hn => hp (scopes_nil_back_vle h hn)

theorem q_visitNameFold {x : String} :
    ∀ (params : List String) (st : VState), QInv x st →
      QInv x (params.foldl (fun s y => visitName y s) st) := by
  intro params
  induction params with
  | nil => intro st hQ; exact hQ
  | cons y rest ih => intro st hQ; exact ih _ (q_visitName y hQ)

theorem q_importFold {x : String} (f : String × Option String → String) :
    ∀ (names : List (String × Option String)) (st : VState), QInv x st →
      (st.scopes = [] → importHas x f names = false) →
      QInv x (names.foldl (fun s p => assignName (f p) false s) st) := by
  intro names
  induction names with
  | nil => intro st hQ _; exact hQ
  | cons p rest ih =>
    intro st hQ hm
    have h1 := q_assignName (y := f p) false hQ
      (fun hn => ne_of_beqF (Bool.or_eq_false_iff.mp (hm hn)).1)
    exact ih _ h1 (nil_transport (vle_assignName (f p) false st)
      (fun hn => (Bool.or_eq_false_iff.mp (hm hn)).2))

theorem orFl {a b : Bool} (h : (a || b) = false) : a = false :=
  (Bool.or_eq_false_iff.mp h).1

theorem orFr {a b : Bool} (h : (a || b) = false) : b = false :=
  (Bool.or_eq_false_iff.mp h).2

mutual

theorem q_visitStmt (x : String) : ∀ (s : Stmt) (st : VState), QInv x st →
    gdS x s = false → dnS x s = false → (st.scopes = [] → mbS false x s = false) →
    QInv x (visitStmt s st)
  | .assign targets value, st, hQ, _, _, hmb => by
    have h1 := q_assignTargets x targets st hQ (fun hn => orFl ((hmb hn)))
    exact q_visitExpr x value _ h1
      (nil_transport (vle_assignTargets targets st) (fun hn => orFr ((hmb hn))))
  | .augAssign target value, st, hQ, _, _, hmb => by
    have h1 := q_assignTgt x target true st hQ (fun hn => orFl ((hmb hn)))
    exact q_visitExpr x value _ h1
      (nil_transport (vle_assignTgt target true st) (fun hn => orFr ((hmb hn))))
  | .delStmt targets, st, hQ, _, hdn, hmb => q_delTargets x targets st hQ hdn hmb
  | .functionDef nm _params defaults decorators body, st, hQ, hgd, hdn, hmb => by
    have h1 := q_assignName (y := nm) false hQ
      (fun hn => ne_of_beqF (orFl (orFl (orFl ((hmb hn))))))
    have h2 := q_visitExprList x defaults _ h1
      (nil_transport (vle_assignName nm false st)
        (fun hn => orFr (orFl (orFl ((hmb hn))))))
    have h3 := q_visitExprList x decorators _ h2
      (nil_transport (vle_trans (vle_assignName nm false st) (vle_visitExprList defaults _))
        (fun hn => orFr (orFl ((hmb hn)))))
    have h5 := q_visitStmtList x body _ (q_push h3) hgd hdn
      (fun hn => absurd hn (List.cons_ne_nil _ _))
    exact q_pop h5
  | .classDef nm bases decorators body, st, hQ, hgd, hdn, hmb => by
    have h1 := q_assignName (y := nm) false hQ
      (fun hn => ne_of_beqF (orFl (orFl (orFl ((hmb hn))))))
    have h2 := q_visitExprList x bases _ h1
      (nil_transport (vle_assignName nm false st)
        (fun hn => orFr (orFl (orFl ((hmb hn))))))
    have h3 := q_visitExprList x decorators _ h2
      (nil_transport (vle_trans (vle_assignName nm false st) (vle_visitExprList bases _))
        (fun hn => orFr (orFl ((hmb hn)))))
    have h5 := q_visitStmtList x body _ (q_push h3) hgd hdn
      (fun hn => absurd hn (List.cons_ne_nil _ _))
    exact q_pop h5
  | .forLoop target iter body, st, hQ, hgd, hdn, hmb => by
    have h1 := q_assignTgt x target false st hQ (fun hn => orFl (orFl ((hmb hn))))
    have h2 := q_visitExpr x iter _ h1
      (nil_transport (vle_assignTgt target false st)
        (fun hn => orFr (orFl ((hmb hn)))))
    exact q_visitStmtList x body _ h2 hgd hdn
      (nil_transport (vle_trans (vle_assignTgt target false st) (vle_visitExpr iter _))
        (fun hn => orFr ((hmb hn))))
  | .withStmt ctx .noneE body, st, hQ, hgd, hdn, hmb => by
    have h2 := q_visitExpr x ctx st hQ (fun hn => orFl (orFl ((hmb hn))))
    exact q_visitStmtList x body _ h2 hgd hdn
      (nil_transport (vle_visitExpr ctx st)
        (fun hn => orFr ((hmb hn))))
  | .withStmt ctx (.someE v) body, st, hQ, hgd, hdn, hmb => by
    have h1 := q_assignTgt x v false st hQ
      (fun hn => orFr (orFl ((hmb hn))))
    have h2 := q_visitExpr x ctx _ h1
      (nil_transport (vle_assignTgt v false st)
        (fun hn => orFl (orFl ((hmb hn)))))
    exact q_visitStmtList x body _ h2 hgd hdn
      (nil_transport (vle_trans (vle_assignTgt v false st) (vle_visitExpr ctx _))
        (fun hn => orFr ((hmb hn))))
  | .tryExcept body handlers orelse, st, hQ, hgd, hdn, hmb => by
    have h1 := q_visitStmtList x body st hQ (orFl (orFl hgd)) (orFl (orFl hdn))
      (fun hn => orFl (orFl ((hmb hn))))
    have h2 := q_visitHandlers x handlers _ h1 (orFr (orFl hgd)) (orFr (orFl hdn))
      (nil_transport (vle_visitStmtList body st)
        (fun hn => orFr (orFl ((hmb hn)))))
    exact q_visitStmtList x orelse _ h2 (orFr hgd) (orFr hdn)
      (nil_transport (vle_trans (vle_visitStmtList body st) (vle_visitHandlers handlers _))
        (fun hn => orFr ((hmb hn))))
  | .importStmt names, st, hQ, _, _, hmb => q_importFold importBind names st hQ hmb
  | .importFrom names, st, hQ, _, _, hmb => q_importFold importFromBind names st hQ hmb
  | .globalStmt names, st, hQ, hgd, _, _ => q_globalStmt names hQ hgd
  | .exprStmt v, st, hQ, _, _, hmb => q_visitExpr x v st hQ hmb
  | .printStmt vs, st, hQ, _, _, hmb => q_visitExprList x vs st hQ hmb
  | .ret .noneE, _, hQ, _, _, _ => hQ
  | .ret (.someE e), st, hQ, _, _, hmb => q_visitExpr x e st hQ hmb

theorem q_visitStmtList (x : String) : ∀ (l : StmtList) (st : VState), QInv x st →
    gdSL x l = false → dnSL x l = false → (st.scopes = [] → mbSL false x l = false) →
    QInv x (visitStmtList l st)
  | .nil, _, hQ, _, _, _ => hQ
  | .cons s rest, st, hQ, hgd, hdn, hmb => by
    have h1 := q_visitStmt x s st hQ (orFl hgd) (orFl hdn)
      (fun hn => orFl (hmb hn))
    exact q_visitStmtList x rest _ h1 (orFr hgd) (orFr hdn)
      (nil_transport (vle_visitStmt s st) (fun hn => orFr (hmb hn)))

theorem q_visitExpr (x : String) : ∀ (e : Expr) (st : VState), QInv x st →
    (st.scopes = [] → eMB x e = false) → QInv x (visitExpr e st)
  | .name y, _, hQ, _ => q_visitName y hQ
  | .num _, _, hQ, _ => hQ
  | .binOp l r, st, hQ, he => by
    have h1 := q_visitExpr x l st hQ (fun hn => orFl (he hn))
    exact q_visitExpr x r _ h1
      (nil_transport (vle_visitExpr l st) (fun hn => orFr (he hn)))
  | .attr v _, st, hQ, he => q_visitExpr x v st hQ he
  | .subscript v s, st, hQ, he => by
    have h1 := q_visitExpr x v st hQ (fun hn => orFl (he hn))
    exact q_visitExpr x s _ h1
      (nil_transport (vle_visitExpr v st) (fun hn => orFr (he hn)))
  | .call (.attr v a) args kws star kw, st, hQ, he => by
    have hv1 := vle_assignTgt v true st
    have hv2 := vle_trans hv1 (vle_visitExprList args _)
    have hv3 := vle_trans hv2 (vle_visitExprList kws _)
    have hv4 := vle_trans hv3 (vle_visitOptExpr star _)
    have h1 := q_assignTgt x v true st hQ (fun hn => orFl (orFl (orFl (orFl ((he hn))))))
    have h2 := q_visitExprList x args _ h1 (nil_transport hv1
      (fun hn => orFr (orFl (orFl (orFl ((he hn)))))))
    have h3 := q_visitExprList x kws _ h2 (nil_transport hv2
      (fun hn => orFr (orFl (orFl ((he hn))))))
    have h4 := q_visitOptExpr x star _ h3 (nil_transport hv3
      (fun hn => orFr (orFl ((he hn)))))
    exact q_visitOptExpr x kw _ h4 (nil_transport hv4
      (fun hn => orFr ((he hn))))
  | .call (.name y) args kws star kw, st, hQ, he => by
    have hv1 := vle_visitExpr (.name y) st
    have hv2 := vle_trans hv1 (vle_visitExprList args _)
    have hv3 := vle_trans hv2 (vle_visitExprList kws _)
    have hv4 := vle_trans hv3 (vle_visitOptExpr star _)
    have h1 := q_visitExpr x (.name y) st hQ (fun hn => orFl (orFl (orFl (orFl ((he hn))))))
    have h2 := q_visitExprList x args _ h1 (nil_transport hv1
      (fun hn => orFr (orFl (orFl (orFl ((he hn)))))))
    have h3 := q_visitExprList x kws _ h2 (nil_transport hv2
      (fun hn => orFr (orFl (orFl ((he hn))))))
    have h4 := q_visitOptExpr x star _ h3 (nil_transport hv3
      (fun hn => orFr (orFl ((he hn)))))
    exact q_visitOptExpr x kw _ h4 (nil_transport hv4
      (fun hn => orFr ((he hn))))
  | .call (.num n) args kws star kw, st, hQ, he => by
    have hv1 := vle_visitExpr (.num n) st
    have hv2 := vle_trans hv1 (vle_visitExprList args _)
    have hv3 := vle_trans hv2 (vle_visitExprList kws _)
    have hv4 := vle_trans hv3 (vle_visitOptExpr star _)
    have h1 := q_visitExpr x (.num n) st hQ (fun hn => orFl (orFl (orFl (orFl ((he hn))))))
    have h2 := q_visitExprList x args _ h1 (nil_transport hv1
      (fun hn => orFr (orFl (orFl (orFl ((he hn)))))))
    have h3 := q_visitExprList x kws _ h2 (nil_transport hv2
      (fun hn => orFr (orFl (orFl ((he hn))))))
    have h4 := q_visitOptExpr x star _ h3 (nil_transport hv3
      (fun hn => orFr (orFl ((he hn)))))
    exact q_visitOptExpr x kw _ h4 (nil_transport hv4
      (fun hn => orFr ((he hn))))
  | .call (.binOp l r) args kws star kw, st, hQ, he => by
    have hv1 := vle_visitExpr (.binOp l r) st
    have hv2 := vle_trans hv1 (vle_visitExprList args _)
    have hv3 := vle_trans hv2 (vle_visitExprList kws _)
    have hv4 := vle_trans hv3 (vle_visitOptExpr star _)
    have h1 := q_visitExpr x (.binOp l r) st hQ (fun hn => orFl (orFl (orFl (orFl ((he hn))))))
    have h2 := q_visitExprList x args _ h1 (nil_transport hv1
      (fun hn => orFr (orFl (orFl (orFl ((he hn)))))))
    have h3 := q_visitExprList x kws _ h2 (nil_transport hv2
      (fun hn => orFr (orFl (orFl ((he hn))))))
    have h4 := q_visitOptExpr x star _ h3 (nil_transport hv3
      (fun hn => orFr (orFl ((he hn)))))
    exact q_visitOptExpr x kw _ h4 (nil_transport hv4
      (fun hn => orFr ((he hn))))
  | .call (.subscript u v) args kws star kw, st, hQ, he => by
    have hv1 := vle_visitExpr (.subscript u v) st
    have hv2 := vle_trans hv1 (vle_visitExprList args _)
    have hv3 := vle_trans hv2 (vle_visitExprList kws _)
    have hv4 := vle_trans hv3 (vle_visitOptExpr star _)
    have h1 := q_visitExpr x (.subscript u v) st hQ (fun hn => orFl (orFl (orFl (orFl ((he hn))))))
    have h2 := q_visitExprList x args _ h1 (nil_transport hv1
      (fun hn => orFr (orFl (orFl (orFl ((he hn)))))))
    have h3 := q_visitExprList x kws _ h2 (nil_transport hv2
      (fun hn => orFr (orFl (orFl ((he hn))))))
    have h4 := q_visitOptExpr x star _ h3 (nil_transport hv3
      (fun hn => orFr (orFl ((he hn)))))
    exact q_visitOptExpr x kw _ h4 (nil_transport hv4
      (fun hn => orFr ((he hn))))
  | .call (.call f2 a2 k2 s2 kw2) args kws star kw, st, hQ, he => by
    have hv1 := vle_visitExpr (.call f2 a2 k2 s2 kw2) st
    have hv2 := vle_trans hv1 (vle_visitExprList args _)
    have hv3 := vle_trans hv2 (vle_visitExprList kws _)
    have hv4 := vle_trans hv3 (vle_visitOptExpr star _)
    have h1 := q_visitExpr x (.call f2 a2 k2 s2 kw2) st hQ (fun hn => orFl (orFl (orFl (orFl ((he hn))))))
    have h2 := q_visitExprList x args _ h1 (nil_transport hv1
      (fun hn => orFr (orFl (orFl (orFl ((he hn)))))))
    have h3 := q_visitExprList x kws _ h2 (nil_transport hv2
      (fun hn => orFr (orFl (orFl ((he hn))))))
    have h4 := q_visitOptExpr x star _ h3 (nil_transport hv3
      (fun hn => orFr (orFl ((he hn)))))
    exact q_visitOptExpr x kw _ h4 (nil_transport hv4
      (fun hn => orFr ((he hn))))
  | .call (.lam p d b) args kws star kw, st, hQ, he => by
    have hv1 := vle_visitExpr (.lam p d b) st
    have hv2 := vle_trans hv1 (vle_visitExprList args _)
    have hv3 := vle_trans hv2 (vle_visitExprList kws _)
    have hv4 := vle_trans hv3 (vle_visitOptExpr star _)
    have h1 := q_visitExpr x (.lam p d b) st hQ (fun hn => orFl (orFl (orFl (orFl ((he hn))))))
    have h2 := q_visitExprList x args _ h1 (nil_transport hv1
      (fun hn => orFr (orFl (orFl (orFl ((he hn)))))))
    have h3 := q_visitExprList x kws _ h2 (nil_transport hv2
      (fun hn => orFr (orFl (orFl ((he hn))))))
    have h4 := q_visitOptExpr x star _ h3 (nil_transport hv3
      (fun hn => orFr (orFl ((he hn)))))
    exact q_visitOptExpr x kw _ h4 (nil_transport hv4
      (fun hn => orFr ((he hn))))
  | .call (.tupleE es) args kws star kw, st, hQ, he => by
    have hv1 := vle_visitExpr (.tupleE es) st
    have hv2 := vle_trans hv1 (vle_visitExprList args _)
    have hv3 := vle_trans hv2 (vle_visitExprList kws _)
    have hv4 := vle_trans hv3 (vle_visitOptExpr star _)
    have h1 := q_visitExpr x (.tupleE es) st hQ (fun hn => orFl (orFl (orFl (orFl ((he hn))))))
    have h2 := q_visitExprList x args _ h1 (nil_transport hv1
      (fun hn => orFr (orFl (orFl (orFl ((he hn)))))))
    have h3 := q_visitExprList x kws _ h2 (nil_transport hv2
      (fun hn => orFr (orFl (orFl ((he hn))))))
    have h4 := q_visitOptExpr x star _ h3 (nil_transport hv3
      (fun hn => orFr (orFl ((he hn)))))
    exact q_visitOptExpr x kw _ h4 (nil_transport hv4
      (fun hn => orFr ((he hn))))
  | .lam params defaults body, st, hQ, he => by
    have hv1 := vle_foldl (fun y st => visitName y st)
      (fun y st => vle_visitName y st) params st
    have h1 := q_visitNameFold params st hQ
    have h2 := q_visitExprList x defaults _ h1
      (nil_transport hv1 (fun hn => orFl (he hn)))
    exact q_visitExpr x body _ h2
      (nil_transport (vle_trans hv1 (vle_visitExprList defaults _))
        (fun hn => orFr (he hn)))
  | .tupleE es, st, hQ, he => q_visitExprList x es st hQ he

theorem q_visitExprList (x : String) : ∀ (l : ExprList) (st : VState), QInv x st →
    (st.scopes = [] → eMBL x l = false) → QInv x (visitExprList l st)
  | .nil, _, hQ, _ => hQ
  | .cons e rest, st, hQ, he => by
    have h1 := q_visitExpr x e st hQ (fun hn => orFl (he hn))
    exact q_visitExprList x rest _ h1
      (nil_transport (vle_visitExpr e st) (fun hn => orFr (he hn)))

theorem q_visitOptExpr (x : String) : ∀ (o : OptExpr) (st : VState), QInv x st →
    (st.scopes = [] → eMBO x o = false) → QInv x (visitOptExpr o st)
  | .noneE, _, hQ, _ => hQ
  | .someE e, st, hQ, he => q_visitExpr x e st hQ he

theorem q_assignTgt (x : String) : ∀ (e : Expr) (upd : Bool) (st : VState), QInv x st →
    (st.scopes = [] → tgtB x e = false) → QInv x (assignTgt e upd st)
  | .name y, upd, _, hQ, ht => q_assignName upd hQ (fun hn => ne_of_beqF (ht hn))
  | .subscript v s, _, st, hQ, ht => by
    have h1 := q_visitExpr x s st hQ (fun hn => orFl (ht hn))
    exact q_assignTgt x v true _ h1
      (nil_transport (vle_visitExpr s st) (fun hn => orFr (ht hn)))
  | .attr v _, _, st, hQ, ht => q_assignTgt x v true st hQ ht
  | .num _, _, _, hQ, _ => hQ
  | .binOp _ _, _, _, hQ, _ => hQ
  | .call _ _ _ _ _, _, _, hQ, _ => hQ
  | .lam _ _ _, _, _, hQ, _ => hQ
  | .tupleE _, _, _, hQ, _ => hQ

theorem q_assignTargets (x : String) : ∀ (l : ExprList) (st : VState), QInv x st →
    (st.scopes = [] → tgtBL x l = false) → QInv x (assignTargets l st)
  | .nil, _, hQ, _ => hQ
  | .cons t rest, st, hQ, ht => by
    have h1 := q_assignTgt x t false st hQ (fun hn => orFl (ht hn))
    exact q_assignTargets x rest _ h1
      (nil_transport (vle_assignTgt t false st) (fun hn => orFr (ht hn)))

theorem q_delTargets (x : String) : ∀ (l : ExprList) (st : VState), QInv x st →
    delHasName x l = false → (st.scopes = [] → delB x l = false) →
    QInv x (delTargets l st)
  | .nil, _, hQ, _, _ => hQ
  | .cons (.name y) rest, st, hQ, hdel, hdb => by
    have hyx : y ≠ x := ne_of_beqF (orFl hdel)
    have hvle : VLe st (if st.sym y ≠ .de then st.touch y fun s => writeT (readT s)
        else assignTgt (.name y) false (visitExpr (.name y) st)) := by
      by_cases hy : st.sym y ≠ .de
      · rw [if_pos hy]
        exact vle_touch stepLe_wrT
      · rw [if_neg hy]
        exact vle_trans (vle_visitExpr (.name y) st) (vle_assignTgt (.name y) false _)
    have hstep : QInv x (if st.sym y ≠ .de then st.touch y fun s => writeT (readT s)
        else assignTgt (.name y) false (visitExpr (.name y) st)) := by
      by_cases hy : st.sym y ≠ .de
      · rw [if_pos hy]
        exact q_touch_ne hyx _ hQ
      · rw [if_neg hy]
        exact q_assignTgt x (.name y) false _ (q_visitName y hQ) (fun _ => beqF_of_ne hyx)
    exact q_delTargets x rest _ hstep (orFr hdel)
      (nil_transport hvle (fun hn => orFr (hdb hn)))
  | .cons (.num n) rest, st, hQ, hdel, hdb => by
    have h1 := q_visitExpr x (.num n) st hQ (fun hn => orFl (orFl ((hdb hn))))
    have h2 := q_assignTgt x (.num n) false _ h1
      (nil_transport (vle_visitExpr (.num n) st)
        (fun hn => orFr (orFl ((hdb hn)))))
    exact q_delTargets x rest _ h2 hdel
      (nil_transport
        (vle_trans (vle_visitExpr (.num n) st) (vle_assignTgt (.num n) false _))
        (fun hn => orFr ((hdb hn))))
  | .cons (.binOp l r) rest, st, hQ, hdel, hdb => by
    have h1 := q_visitExpr x (.binOp l r) st hQ (fun hn => orFl (orFl ((hdb hn))))
    have h2 := q_assignTgt x (.binOp l r) false _ h1
      (nil_transport (vle_visitExpr (.binOp l r) st)
        (fun hn => orFr (orFl ((hdb hn)))))
    exact q_delTargets x rest _ h2 hdel
      (nil_transport
        (vle_trans (vle_visitExpr (.binOp l r) st) (vle_assignTgt (.binOp l r) false _))
        (fun hn => orFr ((hdb hn))))
  | .cons (.attr v a) rest, st, hQ, hdel, hdb => by
    have h1 := q_visitExpr x (.attr v a) st hQ (fun hn => orFl (orFl ((hdb hn))))
    have h2 := q_assignTgt x (.attr v a) false _ h1
      (nil_transport (vle_visitExpr (.attr v a) st)
        (fun hn => orFr (orFl ((hdb hn)))))
    exact q_delTargets x rest _ h2 hdel
      (nil_transport
        (vle_trans (vle_visitExpr (.attr v a) st) (vle_assignTgt (.attr v a) false _))
        (fun hn => orFr ((hdb hn))))
  | .cons (.subscript u v) rest, st, hQ, hdel, hdb => by
    have h1 := q_visitExpr x (.subscript u v) st hQ (fun hn => orFl (orFl ((hdb hn))))
    have h2 := q_assignTgt x (.subscript u v) false _ h1
      (nil_transport (vle_visitExpr (.subscript u v) st)
        (fun hn => orFr (orFl ((hdb hn)))))
    exact q_delTargets x rest _ h2 hdel
      (nil_transport
        (vle_trans (vle_visitExpr (.subscript u v) st) (vle_assignTgt (.subscript u v) false _))
        (fun hn => orFr ((hdb hn))))
  | .cons (.call f a k s2 kw) rest, st, hQ, hdel, hdb => by
    have h1 := q_visitExpr x (.call f a k s2 kw) st hQ (fun hn => orFl (orFl ((hdb hn))))
    have h2 := q_assignTgt x (.call f a k s2 kw) false _ h1
      (nil_transport (vle_visitExpr (.call f a k s2 kw) st)
        (fun hn => orFr (orFl ((hdb hn)))))
    exact q_delTargets x rest _ h2 hdel
      (nil_transport
        (vle_trans (vle_visitExpr (.call f a k s2 kw) st) (vle_assignTgt (.call f a k s2 kw) false _))
        (fun hn => orFr ((hdb hn))))
  | .cons (.lam p d b) rest, st, hQ, hdel, hdb => by
    have h1 := q_visitExpr x (.lam p d b) st hQ (fun hn => orFl (orFl ((hdb hn))))
    have h2 := q_assignTgt x (.lam p d b) false _ h1
      (nil_transport (vle_visitExpr (.lam p d b) st)
        (fun hn => orFr (orFl ((hdb hn)))))
    exact q_delTargets x rest _ h2 hdel
      (nil_transport
        (vle_trans (vle_visitExpr (.lam p d b) st) (vle_assignTgt (.lam p d b) false _))
        (fun hn => orFr ((hdb hn))))
  | .cons (.tupleE es) rest, st, hQ, hdel, hdb => by
    have h1 := q_visitExpr x (.tupleE es) st hQ (fun hn => orFl (orFl ((hdb hn))))
    have h2 := q_assignTgt x (.tupleE es) false _ h1
      (nil_transport (vle_visitExpr (.tupleE es) st)
        (fun hn => orFr (orFl ((hdb hn)))))
    exact q_delTargets x rest _ h2 hdel
      (nil_transport
        (vle_trans (vle_visitExpr (.tupleE es) st) (vle_assignTgt (.tupleE es) false _))
        (fun hn => orFr ((hdb hn))))

theorem q_visitHandlers (x : String) : ∀ (h : Handlers) (st : VState), QInv x st →
    gdH x h = false → dnH x h = false → (st.scopes = [] → mbH false x h = false) →
    QInv x (visitHandlers h st)
  | .nil, _, hQ, _, _, _ => hQ
  | .cons .noneE hname hbody rest, st, hQ, hgd, hdn, hmb => by
    cases hname with
    | none =>
      have h2 := q_visitStmtList x hbody st hQ (orFl hgd) (orFl hdn)
        (fun hn => orFr (orFl ((hmb hn))))
      exact q_visitHandlers x rest _ h2 (orFr hgd) (orFr hdn)
        (nil_transport (vle_visitStmtList hbody st)
          (fun hn => orFr ((hmb hn))))
    | some y =>
      have hstep := q_assignName (y := y) false hQ
        (fun hn => ne_of_beqF (orFr (orFl (orFl ((hmb hn))))))
      have h2 := q_visitStmtList x hbody _ hstep (orFl hgd) (orFl hdn)
        (nil_transport (vle_assignName y false st)
          (fun hn => orFr (orFl ((hmb hn)))))
      exact q_visitHandlers x rest _ h2 (orFr hgd) (orFr hdn)
        (nil_transport (vle_trans (vle_assignName y false st) (vle_visitStmtList hbody _))
          (fun hn => orFr ((hmb hn))))
  | .cons (.someE e) hname hbody rest, st, hQ, hgd, hdn, hmb => by
    have h1 := q_visitExpr x e st hQ (fun hn => orFl (orFl (orFl ((hmb hn)))))
    have hvle1 := vle_visitExpr e st
    cases hname with
    | none =>
      have h2 := q_visitStmtList x hbody _ h1 (orFl hgd) (orFl hdn)
        (nil_transport hvle1 (fun hn => orFr (orFl ((hmb hn)))))
      exact q_visitHandlers x rest _ h2 (orFr hgd) (orFr hdn)
        (nil_transport (vle_trans hvle1 (vle_visitStmtList hbody _))
          (fun hn => orFr ((hmb hn))))
    | some y =>
      have hstep := q_assignName (y := y) false h1
        (nil_transport hvle1 (fun hn => ne_of_beqF (orFr (orFl (orFl ((hmb hn)))))))
      have h2 := q_visitStmtList x hbody _ hstep (orFl hgd) (orFl hdn)
        (nil_transport (vle_trans hvle1 (vle_assignName y false _))
          (fun hn => orFr (orFl ((hmb hn)))))
      exact q_visitHandlers x rest _ h2 (orFr hgd) (orFr hdn)
        (nil_transport (vle_trans hvle1 (vle_trans (vle_assignName y false _)
            (vle_visitStmtList hbody _)))
          (fun hn => orFr ((hmb hn))))

end

/-! ## Claim C8: writes and nested scopes -/

theorem c8_part1 (prog : StmtList) (x : String) (hgd : gdSL x prog = false)
    (hdn : dnSL x prog = false) (hmb : mbSL false x prog = false) :
    x ∉ (mkCell 0 prog).writes := by
  intro hmem
  have hQ0 : QInv x initState := ⟨rfl, fun sc h => absurd h (List.not_mem_nil sc)⟩
  have hQ := q_visitStmtList x prog initState hQ0 hgd hdn (fun _ => hmb)
  rw [show (mkCell 0 prog).writes = writesOf (visitStmtList prog initState) from rfl,
    mem_writesOf] at hmem
  have hcontra := hmem.2
  rw [hQ.1] at hcontra
  exact Bool.noConfusion hcontra

theorem c8_part2 (pre mid post rest : StmtList) (f x : String) (params : List String)
    (defaults decorators : ExprList) (e : Expr) :
    x ∈ (mkCell 0 (c8prog pre mid post rest f x params defaults decorators e)).writes := by
  have hfin : visitStmtList (c8prog pre mid post rest f x params defaults decorators e)
        initState
      = visitStmtList rest (visitStmt (.functionDef f params defaults decorators
          (.cons (.globalStmt [x])
            (SL.app mid (.cons (.assign (.cons (.name x) .nil) e) post))))
        (visitStmtList pre initState)) := by
    rw [c8prog, visitStmtList_app]
    rfl
  set st1 := visitStmtList pre initState with hst1
  set st2 := visitExprList decorators (visitExprList defaults (assignName f false st1))
    with hst2
  have hst3 : visitStmt (.globalStmt [x]) (pushScope st2)
      = { st2 with scopes := ⟨∅ ∪ ([x] : List String).toFinset, ∅⟩ :: st2.scopes } := rfl
  set st4 := visitStmtList mid
    ({ st2 with scopes := ⟨∅ ∪ ([x] : List String).toFinset, ∅⟩ :: st2.scopes }) with hst4
  have h34 : ScLe ((⟨∅ ∪ ([x] : List String).toFinset, ∅⟩ : Scope) :: st2.scopes)
      st4.scopes :=
    (vle_visitStmtList mid
      { st2 with scopes := ⟨∅ ∪ ([x] : List String).toFinset, ∅⟩ :: st2.scopes }).2.1
  obtain ⟨b, l, hys, hab, _⟩ := scLe_cons_inv2 h34
  have hxb : x ∈ b.globals := by
    refine hab.1 ?_
    show x ∈ ∅ ∪ ([x] : List String).toFinset
    simp
  have hassign : assignName x false st4 = st4.writeSym x false := by
    show (match st4.scopes with
      | [] => st4.writeSym x false
      | sc :: rest2 => if x ∈ sc.globals then st4.writeSym x false
          else { st4 with scopes := { sc with locals := insert x sc.locals } :: rest2 })
      = st4.writeSym x false
    rw [hys]
    show (if x ∈ b.globals then st4.writeSym x false
      else { st4 with scopes := { b with locals := insert x b.locals } :: l })
      = st4.writeSym x false
    rw [if_pos hxb]
  have hw5 : isWritten ((assignName x false st4).sym x) = true := by
    rw [hassign]
    show isWritten (if x = x then writeT (if false then readT (st4.sym x) else st4.sym x)
      else st4.sym x) = true
    rw [if_pos rfl]
    exact isWritten_writeT _
  have hbody : visitStmtList (.cons (.globalStmt [x])
        (SL.app mid (.cons (.assign (.cons (.name x) .nil) e) post))) (pushScope st2)
      = visitStmtList post (visitExpr e (assignName x false st4)) := by
    show visitStmtList (SL.app mid (.cons (.assign (.cons (.name x) .nil) e) post))
        (visitStmt (.globalStmt [x]) (pushScope st2))
      = visitStmtList post (visitExpr e (assignName x false st4))
    rw [hst3, visitStmtList_app]
    rfl
  have hfdef : visitStmt (.functionDef f params defaults decorators
        (.cons (.globalStmt [x])
          (SL.app mid (.cons (.assign (.cons (.name x) .nil) e) post)))) st1
      = popScope (visitStmtList post (visitExpr e (assignName x false st4))) := by
    show popScope (visitStmtList (.cons (.globalStmt [x])
        (SL.app mid (.cons (.assign (.cons (.name x) .nil) e) post))) (pushScope st2))
      = popScope (visitStmtList post (visitExpr e (assignName x false st4)))
    rw [hbody]
  have hw8 : isWritten ((visitStmtList
      (c8prog pre mid post rest f x params defaults decorators e) initState).sym x)
      = true := by
    rw [hfin, hfdef]
    have h6 : isWritten ((visitExpr e (assignName x false st4)).sym x) = true :=
      isWritten_stepLe ((vle_visitExpr e _).1 x) hw5
    have h7 : isWritten ((visitStmtList post
          (visitExpr e (assignName x false st4))).sym x) = true :=
      isWritten_stepLe ((vle_visitStmtList post _).1 x) h6
    exact isWritten_stepLe ((vle_visitStmtList rest _).1 x) h7
  have hdomf : DomInv (visitStmtList
      (c8prog pre mid post rest f x params defaults decorators e) initState) :=
    domInv_mono (vle_visitStmtList _ initState) domInv_init
  rw [show (mkCell 0 (c8prog pre mid post rest f x params defaults decorators e)).writes
      = writesOf (visitStmtList
          (c8prog pre mid post rest f x params defaults decorators e) initState) from rfl,
    mem_writesOf]
  exact ⟨hdomf x (notDe_of_isWritten hw8), hw8⟩

/-! ## Fragments that never mention a name leave its symbol untouched (C10) -/

theorem visitName_sym_ne {y x : String} (h : y ≠ x) (st : VState) :
    (visitName y st).sym x = st.sym x := by
  unfold visitName
  cases hsc : st.scopes with
  | nil => exact touch_sym_ne h _
  | cons sc rest =>
    show (if y ∈ sc.locals then st else st.readSym y).sym x = st.sym x
    by_cases hy : y ∈ sc.locals
    · rw [if_pos hy]
    · rw [if_neg hy]
      exact touch_sym_ne h _

theorem assignName_sym_ne {y x : String} (h : y ≠ x) (upd : Bool) (st : VState) :
    (assignName y upd st).sym x = st.sym x := by
  unfold assignName
  cases hsc : st.scopes with
  | nil => exact touch_sym_ne h _
  | cons sc rest =>
    show (if y ∈ sc.globals then st.writeSym y upd
      else { st with scopes := { sc with locals := insert y sc.locals } :: rest }).sym x
      = st.sym x
    by_cases hy : y ∈ sc.globals
    · rw [if_pos hy]
      exact touch_sym_ne h _
    · rw [if_neg hy]

theorem globalStmt_sym (names : List String) (st : VState) (x : String) :
    (visitStmt (.globalStmt names) st).sym x = st.sym x := by
  unfold visitStmt
  cases hsc : st.scopes with
  | nil => rfl
  | cons sc rest => rfl

theorem occ_visitNameFold (x : String) : ∀ (params : List String) (st : VState),
    listHas x params = false →
    (params.foldl (fun s y => visitName y s) st).sym x = st.sym x := by
  intro params
  induction params with
  | nil => intro st _; rfl
  | cons y rest ih =>
    intro st ho
    show (rest.foldl (fun s y => visitName y s) (visitName y st)).sym x = st.sym x
    rw [ih _ (orFr ho), visitName_sym_ne (ne_of_beqF (orFl ho))]

theorem occ_importFold (x : String) (f : String × Option String → String) :
    ∀ (names : List (String × Option String)) (st : VState),
      importHas x f names = false →
      (names.foldl (fun s p => assignName (f p) false s) st).sym x = st.sym x := by
  intro names
  induction names with
  | nil => intro st _; rfl
  | cons p rest ih =>
    intro st ho
    show (rest.foldl (fun s p => assignName (f p) false s) (assignName (f p) false st)).sym x
      = st.sym x
    rw [ih _ (orFr ho), assignName_sym_ne (ne_of_beqF (orFl ho))]

mutual

theorem occ_visitStmt (x : String) : ∀ (s : Stmt) (st : VState), occS x s = false →
    (visitStmt s st).sym x = st.sym x
  | .assign targets value, st, ho => by
    show (visitExpr value (assignTargets targets st)).sym x = st.sym x
    rw [occ_visitExpr x value _ (orFr ((ho))), occ_assignTargets x targets st (orFl ((ho)))]
  | .augAssign target value, st, ho => by
    show (visitExpr value (assignTgt target true st)).sym x = st.sym x
    rw [occ_visitExpr x value _ (orFr ((ho))), occ_assignTgt x target true st (orFl ((ho)))]
  | .delStmt targets, st, ho => occ_delTargets x targets st ho
  | .functionDef nm params defaults decorators body, st, ho => by
    show (visitStmtList body (pushScope
      (visitExprList decorators (visitExprList defaults (assignName nm false st))))).sym x
      = st.sym x
    rw [occ_visitStmtList x body _ (orFr ((ho)))]
    show (visitExprList decorators (visitExprList defaults (assignName nm false st))).sym x
      = st.sym x
    rw [occ_visitExprList x decorators _ (orFr (orFl ((ho)))),
      occ_visitExprList x defaults _ (orFr (orFl (orFl ((ho))))),
      assignName_sym_ne (ne_of_beqF (orFl (orFl (orFl (orFl ((ho))))))) false st]
  | .classDef nm bases decorators body, st, ho => by
    show (visitStmtList body (pushScope
      (visitExprList decorators (visitExprList bases (assignName nm false st))))).sym x
      = st.sym x
    rw [occ_visitStmtList x body _ (orFr ((ho)))]
    show (visitExprList decorators (visitExprList bases (assignName nm false st))).sym x
      = st.sym x
    rw [occ_visitExprList x decorators _ (orFr (orFl ((ho)))),
      occ_visitExprList x bases _ (orFr (orFl (orFl ((ho))))),
      assignName_sym_ne (ne_of_beqF (orFl (orFl (orFl ((ho)))))) false st]
  | .forLoop target iter body, st, ho => by
    show (visitStmtList body (visitExpr iter (assignTgt target false st))).sym x = st.sym x
    rw [occ_visitStmtList x body _ (orFr ((ho))), occ_visitExpr x iter _ (orFr (orFl ((ho)))),
      occ_assignTgt x target false st (orFl (orFl ((ho))))]
  | .withStmt ctx .noneE body, st, ho => by
    show (visitStmtList body (visitExpr ctx st)).sym x = st.sym x
    rw [occ_visitStmtList x body _ (orFr ((ho))), occ_visitExpr x ctx st (orFl (orFl ((ho))))]
  | .withStmt ctx (.someE v) body, st, ho => by
    show (visitStmtList body (visitExpr ctx (assignTgt v false st))).sym x = st.sym x
    rw [occ_visitStmtList x body _ (orFr ((ho))), occ_visitExpr x ctx _ (orFl (orFl ((ho)))),
      occ_assignTgt x v false st (orFr (orFl ((ho))))]
  | .tryExcept body handlers orelse, st, ho => by
    show (visitStmtList orelse (visitHandlers handlers (visitStmtList body st))).sym x
      = st.sym x
    rw [occ_visitStmtList x orelse _ (orFr ((ho))),
      occ_visitHandlers x handlers _ (orFr (orFl ((ho)))),
      occ_visitStmtList x body st (orFl (orFl ((ho))))]
  | .importStmt names, st, ho => occ_importFold x importBind names st ho
  | .importFrom names, st, ho => occ_importFold x importFromBind names st ho
  | .globalStmt names, st, _ => globalStmt_sym names st x
  | .exprStmt v, st, ho => occ_visitExpr x v st ho
  | .printStmt vs, st, ho => occ_visitExprList x vs st ho
  | .ret .noneE, st, _ => rfl
  | .ret (.someE e), st, ho => occ_visitExpr x e st ho

theorem occ_visitStmtList (x : String) : ∀ (l : StmtList) (st : VState), occSL x l = false →
    (visitStmtList l st).sym x = st.sym x
  | .nil, _, _ => rfl
  | .cons s rest, st, ho => by
    show (visitStmtList rest (visitStmt s st)).sym x = st.sym x
    rw [occ_visitStmtList x rest _ (orFr ((ho))), occ_visitStmt x s st (orFl ((ho)))]

theorem occ_visitExpr (x : String) : ∀ (e : Expr) (st : VState), occE x e = false →
    (visitExpr e st).sym x = st.sym x
  | .name y, st, ho => visitName_sym_ne (ne_of_beqF ho) st
  | .num _, _, _ => rfl
  | .binOp l r, st, ho => by
    show (visitExpr r (visitExpr l st)).sym x = st.sym x
    rw [occ_visitExpr x r _ (orFr ((ho))), occ_visitExpr x l st (orFl ((ho)))]
  | .attr v _, st, ho => occ_visitExpr x v st ho
  | .subscript v s, st, ho => by
    show (visitExpr s (visitExpr v st)).sym x = st.sym x
    rw [occ_visitExpr x s _ (orFr ((ho))), occ_visitExpr x v st (orFl ((ho)))]
  | .call (.attr v a) args kws star kw, st, ho => by
    show (visitOptExpr kw (visitOptExpr star (visitExprList kws (visitExprList args
      (assignTgt v true st))))).sym x = st.sym x
    rw [occ_visitOptExpr x kw _ (orFr ((ho))),
      occ_visitOptExpr x star _ (orFr (orFl ((ho)))),
      occ_visitExprList x kws _ (orFr (orFl (orFl ((ho))))),
      occ_visitExprList x args _ (orFr (orFl (orFl (orFl ((ho)))))),
      occ_assignTgt x v true st (orFl (orFl (orFl (orFl ((ho))))))]
  | .call (.name y) args kws star kw, st, ho => by
    show (visitOptExpr kw (visitOptExpr star (visitExprList kws (visitExprList args
      (visitExpr (.name y) st))))).sym x = st.sym x
    rw [occ_visitOptExpr x kw _ (orFr ((ho))),
      occ_visitOptExpr x star _ (orFr (orFl ((ho)))),
      occ_visitExprList x kws _ (orFr (orFl (orFl ((ho))))),
      occ_visitExprList x args _ (orFr (orFl (orFl (orFl ((ho)))))),
      occ_visitExpr x (.name y) st (orFl (orFl (orFl (orFl ((ho))))))]
  | .call (.num n) args kws star kw, st, ho => by
    show (visitOptExpr kw (visitOptExpr star (visitExprList kws (visitExprList args
      (visitExpr (.num n) st))))).sym x = st.sym x
    rw [occ_visitOptExpr x kw _ (orFr ((ho))),
      occ_visitOptExpr x star _ (orFr (orFl ((ho)))),
      occ_visitExprList x kws _ (orFr (orFl (orFl ((ho))))),
      occ_visitExprList x args _ (orFr (orFl (orFl (orFl ((ho)))))),
      occ_visitExpr x (.num n) st (orFl (orFl (orFl (orFl ((ho))))))]
  | .call (.binOp l r) args kws star kw, st, ho => by
    show (visitOptExpr kw (visitOptExpr star (visitExprList kws (visitExprList args
      (visitExpr (.binOp l r) st))))).sym x = st.sym x
    rw [occ_visitOptExpr x kw _ (orFr ((ho))),
      occ_visitOptExpr x star _ (orFr (orFl ((ho)))),
      occ_visitExprList x kws _ (orFr (orFl (orFl ((ho))))),
      occ_visitExprList x args _ (orFr (orFl (orFl (orFl ((ho)))))),
      occ_visitExpr x (.binOp l r) st (orFl (orFl (orFl (orFl ((ho))))))]
  | .call (.subscript u v) args kws star kw, st, ho => by
    show (visitOptExpr kw (visitOptExpr star (visitExprList kws (visitExprList args
      (visitExpr (.subscript u v) st))))).sym x = st.sym x
    rw [occ_visitOptExpr x kw _ (orFr ((ho))),
      occ_visitOptExpr x star _ (orFr (orFl ((ho)))),
      occ_visitExprList x kws _ (orFr (orFl (orFl ((ho))))),
      occ_visitExprList x args _ (orFr (orFl (orFl (orFl ((ho)))))),
      occ_visitExpr x (.subscript u v) st (orFl (orFl (orFl (orFl ((ho))))))]
  | .call (.call f2 a2 k2 s2 kw2) args kws star kw, st, ho => by
    show (visitOptExpr kw (visitOptExpr star (visitExprList kws (visitExprList args
      (visitExpr (.call f2 a2 k2 s2 kw2) st))))).sym x = st.sym x
    rw [occ_visitOptExpr x kw _ (orFr ((ho))),
      occ_visitOptExpr x star _ (orFr (orFl ((ho)))),
      occ_visitExprList x kws _ (orFr (orFl (orFl ((ho))))),
      occ_visitExprList x args _ (orFr (orFl (orFl (orFl ((ho)))))),
      occ_visitExpr x (.call f2 a2 k2 s2 kw2) st (orFl (orFl (orFl (orFl ((ho))))))]
  | .call (.lam p d b) args kws star kw, st, ho => by
    show (visitOptExpr kw (visitOptExpr star (visitExprList kws (visitExprList args
      (visitExpr (.lam p d b) st))))).sym x = st.sym x
    rw [occ_visitOptExpr x kw _ (orFr ((ho))),
      occ_visitOptExpr x star _ (orFr (orFl ((ho)))),
      occ_visitExprList x kws _ (orFr (orFl (orFl ((ho))))),
      occ_visitExprList x args _ (orFr (orFl (orFl (orFl ((ho)))))),
      occ_visitExpr x (.lam p d b) st (orFl (orFl (orFl (orFl ((ho))))))]
  | .call (.tupleE es) args kws star kw, st, ho => by
    show (visitOptExpr kw (visitOptExpr star (visitExprList kws (visitExprList args
      (visitExpr (.tupleE es) st))))).sym x = st.sym x
    rw [occ_visitOptExpr x kw _ (orFr ((ho))),
      occ_visitOptExpr x star _ (orFr (orFl ((ho)))),
      occ_visitExprList x kws _ (orFr (orFl (orFl ((ho))))),
      occ_visitExprList x args _ (orFr (orFl (orFl (orFl ((ho)))))),
      occ_visitExpr x (.tupleE es) st (orFl (orFl (orFl (orFl ((ho))))))]
  | .lam params defaults body, st, ho => by
    show (visitExpr body (visitExprList defaults
      (params.foldl (fun s y => visitName y s) st))).sym x = st.sym x
    rw [occ_visitExpr x body _ (orFr ((ho))), occ_visitExprList x defaults _ (orFr (orFl ((ho)))),
      occ_visitNameFold x params st (orFl (orFl ((ho))))]
  | .tupleE es, st, ho => occ_visitExprList x es st ho

theorem occ_visitExprList (x : String) : ∀ (l : ExprList) (st : VState), occEL x l = false →
    (visitExprList l st).sym x = st.sym x
  | .nil, _, _ => rfl
  | .cons e rest, st, ho => by
    show (visitExprList rest (visitExpr e st)).sym x = st.sym x
    rw [occ_visitExprList x rest _ (orFr ((ho))), occ_visitExpr x e st (orFl ((ho)))]

theorem occ_visitOptExpr (x : String) : ∀ (o : OptExpr) (st : VState), occEO x o = false →
    (visitOptExpr o st).sym x = st.sym x
  | .noneE, _, _ => rfl
  | .someE e, st, ho => occ_visitExpr x e st ho

theorem occ_assignTgt (x : String) : ∀ (e : Expr) (upd : Bool) (st : VState),
    occE x e = false → (assignTgt e upd st).sym x = st.sym x
  | .name y, upd, st, ho => assignName_sym_ne (ne_of_beqF ho) upd st
  | .subscript v s, _, st, ho => by
    show (assignTgt v true (visitExpr s st)).sym x = st.sym x
    rw [occ_assignTgt x v true _ (orFl ((ho))), occ_visitExpr x s st (orFr ((ho)))]
  | .attr v _, _, st, ho => occ_assignTgt x v true st ho
  | .num _, _, _, _ => rfl
  | .binOp _ _, _, _, _ => rfl
  | .call _ _ _ _ _, _, _, _ => rfl
  | .lam _ _ _, _, _, _ => rfl
  | .tupleE _, _, _, _ => rfl

theorem occ_assignTargets (x : String) : ∀ (l : ExprList) (st : VState),
    occEL x l = false → (assignTargets l st).sym x = st.sym x
  | .nil, _, _ => rfl
  | .cons t rest, st, ho => by
    show (assignTargets rest (assignTgt t false st)).sym x = st.sym x
    rw [occ_assignTargets x rest _ (orFr ((ho))), occ_assignTgt x t false st (orFl ((ho)))]

theorem occ_delTargets (x : String) : ∀ (l : ExprList) (st : VState),
    occEL x l = false → (delTargets l st).sym x = st.sym x
  | .nil, _, _ => rfl
  | .cons (.name y) rest, st, ho => by
    have hyx : y ≠ x := ne_of_beqF (orFl ((ho)))
    have hstep : (if st.sym y ≠ .de then st.touch y fun s => writeT (readT s)
        else assignTgt (.name y) false (visitExpr (.name y) st)).sym x = st.sym x := by
      by_cases hy : st.sym y ≠ .de
      · rw [if_pos hy, touch_sym_ne hyx]
      · rw [if_neg hy]
        have h2 := assignName_sym_ne hyx false (visitExpr (.name y) st)
        rw [show (assignTgt (.name y) false (visitExpr (.name y) st)).sym x
            = (assignName y false (visitExpr (.name y) st)).sym x from rfl, h2]
        exact visitName_sym_ne hyx st
    show (delTargets rest (if st.sym y ≠ .de then st.touch y fun s => writeT (readT s)
      else assignTgt (.name y) false (visitExpr (.name y) st))).sym x = st.sym x
    rw [occ_delTargets x rest _ (orFr ((ho))), hstep]
  | .cons (.num n) rest, st, ho => by
    show (delTargets rest (assignTgt (.num n) false (visitExpr (.num n) st))).sym x = st.sym x
    rw [occ_delTargets x rest _ (orFr ((ho))),
      occ_assignTgt x (.num n) false _ (orFl ((ho))),
      occ_visitExpr x (.num n) st (orFl ((ho)))]
  | .cons (.binOp l r) rest, st, ho => by
    show (delTargets rest (assignTgt (.binOp l r) false (visitExpr (.binOp l r) st))).sym x = st.sym x
    rw [occ_delTargets x rest _ (orFr ((ho))),
      occ_assignTgt x (.binOp l r) false _ (orFl ((ho))),
      occ_visitExpr x (.binOp l r) st (orFl ((ho)))]
  | .cons (.attr v a) rest, st, ho => by
    show (delTargets rest (assignTgt (.attr v a) false (visitExpr (.attr v a) st))).sym x = st.sym x
    rw [occ_delTargets x rest _ (orFr ((ho))),
      occ_assignTgt x (.attr v a) false _ (orFl ((ho))),
      occ_visitExpr x (.attr v a) st (orFl ((ho)))]
  | .cons (.subscript u v) rest, st, ho => by
    show (delTargets rest (assignTgt (.subscript u v) false (visitExpr (.subscript u v) st))).sym x = st.sym x
    rw [occ_delTargets x rest _ (orFr ((ho))),
      occ_assignTgt x (.subscript u v) false _ (orFl ((ho))),
      occ_visitExpr x (.subscript u v) st (orFl ((ho)))]
  | .cons (.call f a k s2 kw) rest, st, ho => by
    show (delTargets rest (assignTgt (.call f a k s2 kw) false (visitExpr (.call f a k s2 kw) st))).sym x = st.sym x
    rw [occ_delTargets x rest _ (orFr ((ho))),
      occ_assignTgt x (.call f a k s2 kw) false _ (orFl ((ho))),
      occ_visitExpr x (.call f a k s2 kw) st (orFl ((ho)))]
  | .cons (.lam p d b) rest, st, ho => by
    show (delTargets rest (assignTgt (.lam p d b) false (visitExpr (.lam p d b) st))).sym x = st.sym x
    rw [occ_delTargets x rest _ (orFr ((ho))),
      occ_assignTgt x (.lam p d b) false _ (orFl ((ho))),
      occ_visitExpr x (.lam p d b) st (orFl ((ho)))]
  | .cons (.tupleE es) rest, st, ho => by
    show (delTargets rest (assignTgt (.tupleE es) false (visitExpr (.tupleE es) st))).sym x = st.sym x
    rw [occ_delTargets x rest _ (orFr ((ho))),
      occ_assignTgt x (.tupleE es) false _ (orFl ((ho))),
      occ_visitExpr x (.tupleE es) st (orFl ((ho)))]

theorem occ_visitHandlers (x : String) : ∀ (hs : Handlers) (st : VState),
    occH x hs = false → (visitHandlers hs st).sym x = st.sym x
  | .nil, _, _ => rfl
  | .cons .noneE hname hbody rest, st, ho => by
    cases hname with
    | none =>
      show (visitHandlers rest (visitStmtList hbody st)).sym x = st.sym x
      rw [occ_visitHandlers x rest _ (orFr ((ho))), occ_visitStmtList x hbody st (orFr (orFl ((ho))))]
    | some y =>
      show (visitHandlers rest (visitStmtList hbody (assignName y false st))).sym x = st.sym x
      rw [occ_visitHandlers x rest _ (orFr ((ho))), occ_visitStmtList x hbody _ (orFr (orFl ((ho)))),
        assignName_sym_ne (ne_of_beqF (orFr (orFl (orFl ((ho)))))) false st]
  | .cons (.someE e) hname hbody rest, st, ho => by
    cases hname with
    | none =>
      show (visitHandlers rest (visitStmtList hbody (visitExpr e st))).sym x = st.sym x
      rw [occ_visitHandlers x rest _ (orFr ((ho))), occ_visitStmtList x hbody _ (orFr (orFl ((ho)))),
        occ_visitExpr x e st (orFl (orFl (orFl ((ho)))))]
    | some y =>
      show (visitHandlers rest (visitStmtList hbody
        (assignName y false (visitExpr e st)))).sym x = st.sym x
      rw [occ_visitHandlers x rest _ (orFr ((ho))), occ_visitStmtList x hbody _ (orFr (orFl ((ho)))),
        assignName_sym_ne (ne_of_beqF (orFr (orFl (orFl ((ho)))))) false _, occ_visitExpr x e st (orFl (orFl (orFl ((ho)))))]

end

/-- Claim C8 (corrected): first half — a name with no module-level binding
site (`mbSL false`), no `global` declaration (`gdSL`) and no plain `del` of
it anywhere (`dnSL`) never appears in the fragment's writes.  The original
claim lacks the no-`del` proviso and is refuted by the counterexample:
`visit_Delete`'s fast path writes the fragment-level symbol without
consulting the scope stack.  Second half — as claimed, a name declared
`global` inside a function body and subsequently assigned there does appear
in the fragment's writes, for any surrounding statements. -/
theorem claim_C8_amended :
    (∀ (prog : StmtList) (x : String), gdSL x prog = false → dnSL x prog = false →
      mbSL false x prog = false → x ∉ (mkCell 0 prog).writes)
    ∧ (∀ (pre mid post rest : StmtList) (f x : String) (params : List String)
        (defaults decorators : ExprList) (e : Expr),
      x ∈ (mkCell 0 (c8prog pre mid post rest f x params defaults decorators e)).writes) :=
  ⟨c8_part1, c8_part2⟩

/-- Claim C8 counterexample: in `prog8`, `x` is only assigned inside a
nested scope and never declared global, yet it appears in the fragment's
writes — `del x` inside `f` hits `visit_Delete`'s fast path (the symbol
already exists from the module-level read in `y = x`), which calls `read()`
and `write()` on the fragment-level symbol regardless of scope. -/
theorem claim_C8_counterexample : "x" ∈ (mkCell 0 prog8).writes := by
  decide

theorem claim_C8_witness :
    (gdSL "y" prog8w = false ∧ dnSL "y" prog8w = false ∧ mbSL false "y" prog8w = false
      ∧ "y" ∉ (mkCell 0 prog8w).writes)
    ∧ "g" ∈ (mkCell 0 (c8prog .nil .nil .nil .nil "f" "g" [] .nil .nil (.num 1))).writes :=
  ⟨⟨by decide, by decide, by decide,
    claim_C8_amended.1 prog8w "y" (by decide) (by decide) (by decide)⟩,
    claim_C8_amended.2 .nil .nil .nil .nil "f" "g" [] .nil .nil (.num 1)⟩

/-- Function half of claim C10: `visit_FunctionDef` assigns the defined name
*before* visiting the default values and the decorator list; once the
symbol is `CREATED` every later `read()` is a no-op, so for any module-level
fragment in which the name does not occur before the definition — the
decorators may reference it freely — the name lands in the fragment's
writes and never in its reads. -/
theorem c10_fun (pre : StmtList) (f : String) (params : List String)
    (defaults decorators : ExprList) (body rest : StmtList)
    (hocc : occSL f pre = false) :
    f ∈ (mkCell 0 (SL.app pre
        (.cons (.functionDef f params defaults decorators body) rest))).writes
    ∧ f ∉ (mkCell 0 (SL.app pre
        (.cons (.functionDef f params defaults decorators body) rest))).reads := by
  have hfin : visitStmtList (SL.app pre
        (.cons (.functionDef f params defaults decorators body) rest)) initState
      = visitStmtList rest (visitStmt (.functionDef f params defaults decorators body)
          (visitStmtList pre initState)) := by
    rw [visitStmtList_app]
    rfl
  set st1 := visitStmtList pre initState with hst1
  have hde : st1.sym f = .de := occ_visitStmtList f pre initState hocc
  have hnil1 : st1.scopes = [] := scopes_nil_of_vle (vle_visitStmtList pre initState) rfl
  have hassign : assignName f false st1 = st1.writeSym f false := by
    show (match st1.scopes with
      | [] => st1.writeSym f false
      | sc :: rest2 => if f ∈ sc.globals then st1.writeSym f false
          else { st1 with scopes := { sc with locals := insert f sc.locals } :: rest2 })
      = st1.writeSym f false
    rw [hnil1]
  have hcreate : (assignName f false st1).sym f = .created := by
    rw [hassign]
    show (if f = f then writeT (if false then readT (st1.sym f) else st1.sym f)
      else st1.sym f) = .created
    rw [if_pos rfl, hde]
    rfl
  have c1 := created_stepLe ((vle_visitExprList defaults (assignName f false st1)).1 f) hcreate
  have c2 := created_stepLe
    ((vle_visitExprList decorators (visitExprList defaults (assignName f false st1))).1 f) c1
  have c4 := created_stepLe ((vle_visitStmtList body (pushScope
    (visitExprList decorators (visitExprList defaults (assignName f false st1))))).1 f) c2
  have habs1 : (visitStmt (.functionDef f params defaults decorators body) st1).sym f
      = .created := c4
  have hfinal : (visitStmtList (SL.app pre
      (.cons (.functionDef f params defaults decorators body) rest)) initState).sym f
      = .created := by
    rw [hfin]
    exact created_stepLe ((vle_visitStmtList rest _).1 f) habs1
  have hdomf : DomInv (visitStmtList (SL.app pre
      (.cons (.functionDef f params defaults decorators body) rest)) initState) :=
    domInv_mono (vle_visitStmtList _ initState) domInv_init
  constructor
  · rw [show (mkCell 0 (SL.app pre (.cons (.functionDef f params defaults decorators body)
        rest))).writes = writesOf (visitStmtList (SL.app pre (.cons (.functionDef f params
        defaults decorators body) rest)) initState) from rfl, mem_writesOf]
    refine ⟨hdomf f ?_, ?_⟩
    · rw [hfinal]
      exact fun hcon => SymState.noConfusion hcon
    · rw [hfinal]
      rfl
  · rw [show (mkCell 0 (SL.app pre (.cons (.functionDef f params defaults decorators body)
        rest))).reads = readsOf (visitStmtList (SL.app pre (.cons (.functionDef f params
        defaults decorators body) rest)) initState) from rfl, mem_readsOf]
    rintro ⟨_, hrd⟩
    rw [hfinal] at hrd
    exact Bool.noConfusion hrd

/-- Class half of claim C10: `visit_ClassDef` assigns the defined name
*before* visiting the base-class expressions and the decorator list, with
the same consequence as for `visit_FunctionDef`. -/
theorem c10_class (pre : StmtList) (f : String)
    (bases decorators : ExprList) (body rest : StmtList)
    (hocc : occSL f pre = false) :
    f ∈ (mkCell 0 (SL.app pre
        (.cons (.classDef f bases decorators body) rest))).writes
    ∧ f ∉ (mkCell 0 (SL.app pre
        (.cons (.classDef f bases decorators body) rest))).reads := by
  have hfin : visitStmtList (SL.app pre
        (.cons (.classDef f bases decorators body) rest)) initState
      = visitStmtList rest (visitStmt (.classDef f bases decorators body)
          (visitStmtList pre initState)) := by
    rw [visitStmtList_app]
    rfl
  set st1 := visitStmtList pre initState with hst1
  have hde : st1.sym f = .de := occ_visitStmtList f pre initState hocc
  have hnil1 : st1.scopes = [] := scopes_nil_of_vle (vle_visitStmtList pre initState) rfl
  have hassign : assignName f false st1 = st1.writeSym f false := by
    show (match st1.scopes with
      | [] => st1.writeSym f false
      | sc :: rest2 => if f ∈ sc.globals then st1.writeSym f false
          else { st1 with scopes := { sc with locals := insert f sc.locals } :: rest2 })
      = st1.writeSym f false
    rw [hnil1]
  have hcreate : (assignName f false st1).sym f = .created := by
    rw [hassign]
    show (if f = f then writeT (if false then readT (st1.sym f) else st1.sym f)
      else st1.sym f) = .created
    rw [if_pos rfl, hde]
    rfl
  have c1 := created_stepLe ((vle_visitExprList bases (assignName f false st1)).1 f) hcreate
  have c2 := created_stepLe
    ((vle_visitExprList decorators (visitExprList bases (assignName f false st1))).1 f) c1
  have c4 := created_stepLe ((vle_visitStmtList body (pushScope
    (visitExprList decorators (visitExprList bases (assignName f false st1))))).1 f) c2
  have habs1 : (visitStmt (.classDef f bases decorators body) st1).sym f
      = .created := c4
  have hfinal : (visitStmtList (SL.app pre
      (.cons (.classDef f bases decorators body) rest)) initState).sym f
      = .created := by
    rw [hfin]
    exact created_stepLe ((vle_visitStmtList rest _).1 f) habs1
  have hdomf : DomInv (visitStmtList (SL.app pre
      (.cons (.classDef f bases decorators body) rest)) initState) :=
    domInv_mono (vle_visitStmtList _ initState) domInv_init
  constructor
  · rw [show (mkCell 0 (SL.app pre (.cons (.classDef f bases decorators body)
        rest))).writes = writesOf (visitStmtList (SL.app pre (.cons (.classDef f bases
        decorators body) rest)) initState) from rfl, mem_writesOf]
    refine ⟨hdomf f ?_, ?_⟩
    · rw [hfinal]
      exact fun hcon => SymState.noConfusion hcon
    · rw [hfinal]
      rfl
  · rw [show (mkCell 0 (SL.app pre (.cons (.classDef f bases decorators body)
        rest))).reads = readsOf (visitStmtList (SL.app pre (.cons (.classDef f bases
        decorators body) rest)) initState) from rfl, mem_readsOf]
    rintro ⟨_, hrd⟩
    rw [hfinal] at hrd
    exact Bool.noConfusion hrd

/-- Claim C10 (confirmed): for a function *or class* definition the
classifier writes the defined name in the enclosing scope before visiting
the decorator list and the default-value (resp. base-class) expressions;
consequently, for a module-level fragment in which the name occurs nowhere
earlier — even when a decorator references the defined name itself — the
name appears in the fragment's writes and not in its reads. -/
theorem claim_C10 :
    (∀ (pre : StmtList) (f : String) (params : List String)
        (defaults decorators : ExprList) (body rest : StmtList),
      occSL f pre = false →
      f ∈ (mkCell 0 (SL.app pre
          (.cons (.functionDef f params defaults decorators body) rest))).writes
      ∧ f ∉ (mkCell 0 (SL.app pre
          (.cons (.functionDef f params defaults decorators body) rest))).reads)
    ∧ (∀ (pre : StmtList) (f : String)
        (bases decorators : ExprList) (body rest : StmtList),
      occSL f pre = false →
      f ∈ (mkCell 0 (SL.app pre
          (.cons (.classDef f bases decorators body) rest))).writes
      ∧ f ∉ (mkCell 0 (SL.app pre
          (.cons (.classDef f bases decorators body) rest))).reads) :=
  ⟨c10_fun, c10_class⟩

theorem claim_C10_witness :
    ("f" ∈ (mkCell 0 (SL.app .nil (.cons (.functionDef "f" [] .nil
        (.cons (.name "f") .nil) .nil) .nil))).writes
    ∧ "f" ∉ (mkCell 0 (SL.app .nil (.cons (.functionDef "f" [] .nil
        (.cons (.name "f") .nil) .nil) .nil))).reads)
    ∧ ("C" ∈ (mkCell 0 (SL.app .nil (.cons (.classDef "C" .nil
        (.cons (.name "C") .nil) .nil) .nil))).writes
    ∧ "C" ∉ (mkCell 0 (SL.app .nil (.cons (.classDef "C" .nil
        (.cons (.name "C") .nil) .nil) .nil))).reads) :=
  ⟨claim_C10.1 .nil "f" [] .nil (.cons (.name "f") .nil) .nil .nil (by decide),
    claim_C10.2 .nil "C" .nil (.cons (.name "C") .nil) .nil .nil (by decide)⟩

/-! ## The never-bound invariant and read progress (C9)

`RInv x st` strengthens `QInv` by also requiring that `x` is in no scope's
`locals` set; under it every `visit_Name` on `x` records a read.  It is
preserved when `x` is never fed to `assign` at any scope (`mbS true`), never
declared global and never `del`eted. -/

theorem isRead_readT_of_notWritten {s : SymState} (h : isWritten s = false) :
    isRead (readT s) = true := by
  cases s <;> simp_all [isWritten, isRead, readT]

theorem isRead_vle {x : String} {st st' : VState} (h : VLe st st')
    (hr : isRead (st.sym x) = true) : isRead (st'.sym x) = true :=
  isRead_stepLe (h.1 x) hr

theorem orT {a b : Bool} (h : (a || b) = true) : a = true ∨ b = true := by
  cases a
  · exact Or.inr (by simpa using h)
  · exact Or.inl rfl

theorem r_touch_ne {x : String} {st : VState} {y : String} (hy : y ≠ x)
    (f : SymState → SymState) (hR : RInv x st) : RInv x (st.touch y f) := by
  refine ⟨?_, hR.2⟩
  rw [touch_sym_ne hy]
  exact hR.1

theorem r_readSym {x : String} {st : VState} (y : String) (hR : RInv x st) :
    RInv x (st.readSym y) := by
  by_cases hy : y = x
  · subst hy
    refine ⟨?_, hR.2⟩
    show isWritten (if y = y then readT (st.sym y) else st.sym y) = false
    rw [if_pos rfl, isWritten_readT]
    exact hR.1
  · exact r_touch_ne hy _ hR

theorem r_visitName {x : String} {st : VState} (y : String) (hR : RInv x st) :
    RInv x (visitName y st) := by
  unfold visitName
  cases hsc : st.scopes with
  | nil => exact r_readSym y hR
  | cons sc rest =>
    show RInv x (if y ∈ sc.locals then st else st.readSym y)
    by_cases hy : y ∈ sc.locals
    · rw [if_pos hy]
      exact hR
    · rw [if_neg hy]
      exact r_readSym y hR

theorem r_assignName {x y : String} {st : VState} (upd : Bool) (hR : RInv x st)
    (hyx : y ≠ x) : RInv x (assignName y upd st) := by
  unfold assignName
  cases hsc : st.scopes with
  | nil => exact r_touch_ne hyx _ hR
  | cons sc rest =>
    show RInv x (if y ∈ sc.globals then st.writeSym y upd
      else { st with scopes := { sc with locals := insert y sc.locals } :: rest })
    by_cases hy : y ∈ sc.globals
    · rw [if_pos hy]
      exact r_touch_ne hyx _ hR
    · rw [if_neg hy]
      refine ⟨hR.1, ?_⟩
      intro sc' hsc'
      rcases List.mem_cons.mp hsc' with rfl | hsc'
      · constructor
        · show x ∉ sc.globals
          exact (hR.2 sc (by rw [hsc]; exact List.mem_cons_self sc rest)).1
        · show x ∉ insert y sc.locals
          intro hmem
          rcases Finset.mem_insert.mp hmem with heq | hmem
          · exact hyx heq.symm
          · exact (hR.2 sc (by rw [hsc]; exact List.mem_cons_self sc rest)).2 hmem
      · exact hR.2 sc' (by rw [hsc]; exact List.mem_cons_of_mem sc hsc')

theorem r_push {x : String} {st : VState} (hR : RInv x st) : RInv x (pushScope st) := by
  refine ⟨hR.1, ?_⟩
  intro sc hsc
  rcases List.mem_cons.mp hsc with rfl | hsc
  · exact ⟨Finset.not_mem_empty x, Finset.not_mem_empty x⟩
  · exact hR.2 sc hsc

theorem r_pop {x : String} {st : VState} (hR : RInv x st) : RInv x (popScope st) := by
  refine ⟨hR.1, ?_⟩
  intro sc hsc
  have hsc2 : sc ∈ st.scopes.tail := hsc
  have hmem : sc ∈ st.scopes := by
    cases hl : st.scopes with
    | nil => rw [hl] at hsc2; simp at hsc2
    | cons a l =>
      rw [hl] at hsc2
      exact List.mem_cons_of_mem a hsc2
  exact hR.2 sc hmem

theorem r_globalStmt {x : String} {st : VState} (names : List String) (hR : RInv x st)
    (hn : listHas x names = false) : RInv x (visitStmt (.globalStmt names) st) := by
  unfold visitStmt
  cases hsc : st.scopes with
  | nil => exact hR
  | cons sc rest =>
    refine ⟨hR.1, ?_⟩
    intro sc' hsc'
    rcases List.mem_cons.mp hsc' with rfl | hsc'
    · constructor
      · show x ∉ sc.globals ∪ names.toFinset
        rw [Finset.mem_union]
        rintro (hg | hg)
        · exact (hR.2 sc (by rw [hsc]; exact List.mem_cons_self sc rest)).1 hg
        · exact listHas_false hn (List.mem_toFinset.mp hg)
      · show x ∉ sc.locals
        exact (hR.2 sc (by rw [hsc]; exact List.mem_cons_self sc rest)).2
    · exact hR.2 sc' (by rw [hsc]; exact List.mem_cons_of_mem sc hsc')

theorem r_visitNameFold {x : String} :
    ∀ (params : List String) (st : VState), RInv x st →
      RInv x (params.foldl (fun s y => visitName y s) st) := by
  intro params
  induction params with
  | nil => intro st hR; exact hR
  | cons y rest ih => intro st hR; exact ih _ (r_visitName y hR)

theorem r_importFold {x : String} (f : String × Option String → String) :
    ∀ (names : List (String × Option String)) (st : VState), RInv x st →
      importHas x f names = false →
      RInv x (names.foldl (fun s p => assignName (f p) false s) st) := by
  intro names
  induction names with
  | nil => intro st hR _; exact hR
  | cons p rest ih =>
    intro st hR hm
    exact ih _ (r_assignName false hR (ne_of_beqF (orFl hm))) (orFr hm)

theorem r_name_prog {x : String} {st : VState} (hR : RInv x st) :
    isRead ((visitName x st).sym x) = true := by
  unfold visitName
  cases hsc : st.scopes with
  | nil =>
    show isRead (if x = x then readT (st.sym x) else st.sym x) = true
    rw [if_pos rfl]
    exact isRead_readT_of_notWritten hR.1
  | cons sc rest =>
    have hxl : x ∉ sc.locals :=
      (hR.2 sc (by rw [hsc]; exact List.mem_cons_self sc rest)).2
    show isRead ((if x ∈ sc.locals then st else st.readSym x).sym x) = true
    rw [if_neg hxl]
    show isRead (if x = x then readT (st.sym x) else st.sym x) = true
    rw [if_pos rfl]
    exact isRead_readT_of_notWritten hR.1

mutual

theorem r_visitStmt (x : String) : ∀ (s : Stmt) (st : VState), RInv x st →
    gdS x s = false → dnS x s = false → mbS true x s = false →
    RInv x (visitStmt s st)
  | .assign targets value, st, hR, _, _, hmb => by
    have h1 := r_assignTargets x targets st hR (orFl hmb)
    exact r_visitExpr x value _ h1 (orFr hmb)
  | .augAssign target value, st, hR, _, _, hmb => by
    have h1 := r_assignTgt x target true st hR (orFl hmb)
    exact r_visitExpr x value _ h1 (orFr hmb)
  | .delStmt targets, st, hR, _, hdn, hmb => r_delTargets x targets st hR hdn hmb
  | .functionDef nm _params defaults decorators body, st, hR, hgd, hdn, hmb => by
    have h1 := r_assignName (y := nm) false hR (ne_of_beqF (orFl (orFl (orFl hmb))))
    have h2 := r_visitExprList x defaults _ h1 (orFr (orFl (orFl hmb)))
    have h3 := r_visitExprList x decorators _ h2 (orFr (orFl hmb))
    have h5 := r_visitStmtList x body _ (r_push h3) hgd hdn (orFr hmb)
    exact r_pop h5
  | .classDef nm bases decorators body, st, hR, hgd, hdn, hmb => by
    have h1 := r_assignName (y := nm) false hR (ne_of_beqF (orFl (orFl (orFl hmb))))
    have h2 := r_visitExprList x bases _ h1 (orFr (orFl (orFl hmb)))
    have h3 := r_visitExprList x decorators _ h2 (orFr (orFl hmb))
    have h5 := r_visitStmtList x body _ (r_push h3) hgd hdn (orFr hmb)
    exact r_pop h5
  | .forLoop target iter body, st, hR, hgd, hdn, hmb => by
    have h1 := r_assignTgt x target false st hR (orFl (orFl hmb))
    have h2 := r_visitExpr x iter _ h1 (orFr (orFl hmb))
    exact r_visitStmtList x body _ h2 hgd hdn (orFr hmb)
  | .withStmt ctx .noneE body, st, hR, hgd, hdn, hmb => by
    have h2 := r_visitExpr x ctx st hR (orFl (orFl hmb))
    exact r_visitStmtList x body _ h2 hgd hdn (orFr hmb)
  | .withStmt ctx (.someE v) body, st, hR, hgd, hdn, hmb => by
    have h1 := r_assignTgt x v false st hR (orFr (orFl hmb))
    have h2 := r_visitExpr x ctx _ h1 (orFl (orFl hmb))
    exact r_visitStmtList x body _ h2 hgd hdn (orFr hmb)
  | .tryExcept body handlers orelse, st, hR, hgd, hdn, hmb => by
    have h1 := r_visitStmtList x body st hR (orFl (orFl hgd)) (orFl (orFl hdn))
      (orFl (orFl hmb))
    have h2 := r_visitHandlers x handlers _ h1 (orFr (orFl hgd)) (orFr (orFl hdn))
      (orFr (orFl hmb))
    exact r_visitStmtList x orelse _ h2 (orFr hgd) (orFr hdn) (orFr hmb)
  | .importStmt names, st, hR, _, _, hmb => r_importFold importBind names st hR hmb
  | .importFrom names, st, hR, _, _, hmb => r_importFold importFromBind names st hR hmb
  | .globalStmt names, st, hR, hgd, _, _ => r_globalStmt names hR hgd
  | .exprStmt v, st, hR, _, _, hmb => r_visitExpr x v st hR hmb
  | .printStmt vs, st, hR, _, _, hmb => r_visitExprList x vs st hR hmb
  | .ret .noneE, _, hR, _, _, _ => hR
  | .ret (.someE e), st, hR, _, _, hmb => r_visitExpr x e st hR hmb

theorem r_visitStmtList (x : String) : ∀ (l : StmtList) (st : VState), RInv x st →
    gdSL x l = false → dnSL x l = false → mbSL true x l = false →
    RInv x (visitStmtList l st)
  | .nil, _, hR, _, _, _ => hR
  | .cons s rest, st, hR, hgd, hdn, hmb => by
    have h1 := r_visitStmt x s st hR (orFl hgd) (orFl hdn) (orFl hmb)
    exact r_visitStmtList x rest _ h1 (orFr hgd) (orFr hdn) (orFr hmb)

theorem r_visitExpr (x : String) : ∀ (e : Expr) (st : VState), RInv x st →
    eMB x e = false → RInv x (visitExpr e st)
  | .name y, _, hR, _ => r_visitName y hR
  | .num _, _, hR, _ => hR
  | .binOp l r, st, hR, he => by
    have h1 := r_visitExpr x l st hR (orFl he)
    exact r_visitExpr x r _ h1 (orFr he)
  | .attr v _, st, hR, he => r_visitExpr x v st hR he
  | .subscript v s, st, hR, he => by
    have h1 := r_visitExpr x v st hR (orFl he)
    exact r_visitExpr x s _ h1 (orFr he)
  | .call (.attr v a) args kws star kw, st, hR, he => by
    have h1 := r_assignTgt x v true st hR (orFl (orFl (orFl (orFl he))))
    have h2 := r_visitExprList x args _ h1 (orFr (orFl (orFl (orFl he))))
    have h3 := r_visitExprList x kws _ h2 (orFr (orFl (orFl he)))
    have h4 := r_visitOptExpr x star _ h3 (orFr (orFl he))
    exact r_visitOptExpr x kw _ h4 (orFr he)
  | .call (.name y) args kws star kw, st, hR, he => by
    have h1 := r_visitExpr x (.name y) st hR (orFl (orFl (orFl (orFl he))))
    have h2 := r_visitExprList x args _ h1 (orFr (orFl (orFl (orFl he))))
    have h3 := r_visitExprList x kws _ h2 (orFr (orFl (orFl he)))
    have h4 := r_visitOptExpr x star _ h3 (orFr (orFl he))
    exact r_visitOptExpr x kw _ h4 (orFr he)
  | .call (.num n) args kws star kw, st, hR, he => by
    have h1 := r_visitExpr x (.num n) st hR (orFl (orFl (orFl (orFl he))))
    have h2 := r_visitExprList x args _ h1 (orFr (orFl (orFl (orFl he))))
    have h3 := r_visitExprList x kws _ h2 (orFr (orFl (orFl he)))
    have h4 := r_visitOptExpr x star _ h3 (orFr (orFl he))
    exact r_visitOptExpr x kw _ h4 (orFr he)
  | .call (.binOp l r) args kws star kw, st, hR, he => by
    have h1 := r_visitExpr x (.binOp l r) st hR (orFl (orFl (orFl (orFl he))))
    have h2 := r_visitExprList x args _ h1 (orFr (orFl (orFl (orFl he))))
    have h3 := r_visitExprList x kws _ h2 (orFr (orFl (orFl he)))
    have h4 := r_visitOptExpr x star _ h3 (orFr (orFl he))
    exact r_visitOptExpr x kw _ h4 (orFr he)
  | .call (.subscript u v) args kws star kw, st, hR, he => by
    have h1 := r_visitExpr x (.subscript u v) st hR (orFl (orFl (orFl (orFl he))))
    have h2 := r_visitExprList x args _ h1 (orFr (orFl (orFl (orFl he))))
    have h3 := r_visitExprList x kws _ h2 (orFr (orFl (orFl he)))
    have h4 := r_visitOptExpr x star _ h3 (orFr (orFl he))
    exact r_visitOptExpr x kw _ h4 (orFr he)
  | .call (.call f2 a2 k2 s2 kw2) args kws star kw, st, hR, he => by
    have h1 := r_visitExpr x (.call f2 a2 k2 s2 kw2) st hR (orFl (orFl (orFl (orFl he))))
    have h2 := r_visitExprList x args _ h1 (orFr (orFl (orFl (orFl he))))
    have h3 := r_visitExprList x kws _ h2 (orFr (orFl (orFl he)))
    have h4 := r_visitOptExpr x star _ h3 (orFr (orFl he))
    exact r_visitOptExpr x kw _ h4 (orFr he)
  | .call (.lam p d b) args kws star kw, st, hR, he => by
    have h1 := r_visitExpr x (.lam p d b) st hR (orFl (orFl (orFl (orFl he))))
    have h2 := r_visitExprList x args _ h1 (orFr (orFl (orFl (orFl he))))
    have h3 := r_visitExprList x kws _ h2 (orFr (orFl (orFl he)))
    have h4 := r_visitOptExpr x star _ h3 (orFr (orFl he))
    exact r_visitOptExpr x kw _ h4 (orFr he)
  | .call (.tupleE es) args kws star kw, st, hR, he => by
    have h1 := r_visitExpr x (.tupleE es) st hR (orFl (orFl (orFl (orFl he))))
    have h2 := r_visitExprList x args _ h1 (orFr (orFl (orFl (orFl he))))
    have h3 := r_visitExprList x kws _ h2 (orFr (orFl (orFl he)))
    have h4 := r_visitOptExpr x star _ h3 (orFr (orFl he))
    exact r_visitOptExpr x kw _ h4 (orFr he)
  | .lam params defaults body, st, hR, he => by
    have h1 := r_visitNameFold params st hR
    have h2 := r_visitExprList x defaults _ h1 (orFl he)
    exact r_visitExpr x body _ h2 (orFr he)
  | .tupleE es, st, hR, he => r_visitExprList x es st hR he

theorem r_visitExprList (x : String) : ∀ (l : ExprList) (st : VState), RInv x st →
    eMBL x l = false → RInv x (visitExprList l st)
  | .nil, _, hR, _ => hR
  | .cons e rest, st, hR, he => by
    have h1 := r_visitExpr x e st hR (orFl he)
    exact r_visitExprList x rest _ h1 (orFr he)

theorem r_visitOptExpr (x : String) : ∀ (o : OptExpr) (st : VState), RInv x st →
    eMBO x o = false → RInv x (visitOptExpr o st)
  | .noneE, _, hR, _ => hR
  | .someE e, st, hR, he => r_visitExpr x e st hR he

theorem r_assignTgt (x : String) : ∀ (e : Expr) (upd : Bool) (st : VState), RInv x st →
    tgtB x e = false → RInv x (assignTgt e upd st)
  | .name y, upd, _, hR, ht => r_assignName upd hR (ne_of_beqF ht)
  | .subscript v s, _, st, hR, ht => by
    have h1 := r_visitExpr x s st hR (orFl ht)
    exact r_assignTgt x v true _ h1 (orFr ht)
  | .attr v _, _, st, hR, ht => r_assignTgt x v true st hR ht
  | .num _, _, _, hR, _ => hR
  | .binOp _ _, _, _, hR, _ => hR
  | .call _ _ _ _ _, _, _, hR, _ => hR
  | .lam _ _ _, _, _, hR, _ => hR
  | .tupleE _, _, _, hR, _ => hR

theorem r_assignTargets (x : String) : ∀ (l : ExprList) (st : VState), RInv x st →
    tgtBL x l = false → RInv x (assignTargets l st)
  | .nil, _, hR, _ => hR
  | .cons t rest, st, hR, ht => by
    have h1 := r_assignTgt x t false st hR (orFl ht)
    exact r_assignTargets x rest _ h1 (orFr ht)

theorem r_delTargets (x : String) : ∀ (l : ExprList) (st : VState), RInv x st →
    delHasName x l = false → delB x l = false →
    RInv x (delTargets l st)
  | .nil, _, hR, _, _ => hR
  | .cons (.name y) rest, st, hR, hdel, hdb => by
    have hyx : y ≠ x := ne_of_beqF (orFl hdel)
    have hstep : RInv x (if st.sym y ≠ .de then st.touch y fun s => writeT (readT s)
        else assignTgt (.name y) false (visitExpr (.name y) st)) := by
      by_cases hy : st.sym y ≠ .de
      · rw [if_pos hy]
        exact r_touch_ne hyx _ hR
      · rw [if_neg hy]
        exact r_assignTgt x (.name y) false _ (r_visitName y hR) (beqF_of_ne hyx)
    exact r_delTargets x rest _ hstep (orFr hdel) (orFr hdb)
  | .cons (.num n) rest, st, hR, hdel, hdb => by
    have h1 := r_visitExpr x (.num n) st hR (orFl (orFl hdb))
    have h2 := r_assignTgt x (.num n) false _ h1 (orFr (orFl hdb))
    exact r_delTargets x rest _ h2 hdel (orFr hdb)
  | .cons (.binOp l r) rest, st, hR, hdel, hdb => by
    have h1 := r_visitExpr x (.binOp l r) st hR (orFl (orFl hdb))
    have h2 := r_assignTgt x (.binOp l r) false _ h1 (orFr (orFl hdb))
    exact r_delTargets x rest _ h2 hdel (orFr hdb)
  | .cons (.attr v a) rest, st, hR, hdel, hdb => by
    have h1 := r_visitExpr x (.attr v a) st hR (orFl (orFl hdb))
    have h2 := r_assignTgt x (.attr v a) false _ h1 (orFr (orFl hdb))
    exact r_delTargets x rest _ h2 hdel (orFr hdb)
  | .cons (.subscript u v) rest, st, hR, hdel, hdb => by
    have h1 := r_visitExpr x (.subscript u v) st hR (orFl (orFl hdb))
    have h2 := r_assignTgt x (.subscript u v) false _ h1 (orFr (orFl hdb))
    exact r_delTargets x rest _ h2 hdel (orFr hdb)
  | .cons (.call f a k s2 kw) rest, st, hR, hdel, hdb => by
    have h1 := r_visitExpr x (.call f a k s2 kw) st hR (orFl (orFl hdb))
    have h2 := r_assignTgt x (.call f a k s2 kw) false _ h1 (orFr (orFl hdb))
    exact r_delTargets x rest _ h2 hdel (orFr hdb)
  | .cons (.lam p d b) rest, st, hR, hdel, hdb => by
    have h1 := r_visitExpr x (.lam p d b) st hR (orFl (orFl hdb))
    have h2 := r_assignTgt x (.lam p d b) false _ h1 (orFr (orFl hdb))
    exact r_delTargets x rest _ h2 hdel (orFr hdb)
  | .cons (.tupleE es) rest, st, hR, hdel, hdb => by
    have h1 := r_visitExpr x (.tupleE es) st hR (orFl (orFl hdb))
    have h2 := r_assignTgt x (.tupleE es) false _ h1 (orFr (orFl hdb))
    exact r_delTargets x rest _ h2 hdel (orFr hdb)

theorem r_visitHandlers (x : String) : ∀ (h : Handlers) (st : VState), RInv x st →
    gdH x h = false → dnH x h = false → mbH true x h = false →
    RInv x (visitHandlers h st)
  | .nil, _, hR, _, _, _ => hR
  | .cons .noneE hname hbody rest, st, hR, hgd, hdn, hmb => by
    cases hname with
    | none =>
      have h2 := r_visitStmtList x hbody st hR (orFl hgd) (orFl hdn) (orFr (orFl hmb))
      exact r_visitHandlers x rest _ h2 (orFr hgd) (orFr hdn) (orFr hmb)
    | some y =>
      have hstep := r_assignName (y := y) false hR (ne_of_beqF (orFr (orFl (orFl hmb))))
      have h2 := r_visitStmtList x hbody _ hstep (orFl hgd) (orFl hdn) (orFr (orFl hmb))
      exact r_visitHandlers x rest _ h2 (orFr hgd) (orFr hdn) (orFr hmb)
  | .cons (.someE e) hname hbody rest, st, hR, hgd, hdn, hmb => by
    have h1 := r_visitExpr x e st hR (orFl (orFl (orFl hmb)))
    cases hname with
    | none =>
      have h2 := r_visitStmtList x hbody _ h1 (orFl hgd) (orFl hdn) (orFr (orFl hmb))
      exact r_visitHandlers x rest _ h2 (orFr hgd) (orFr hdn) (orFr hmb)
    | some y =>
      have hstep := r_assignName (y := y) false h1 (ne_of_beqF (orFr (orFl (orFl hmb))))
      have h2 := r_visitStmtList x hbody _ hstep (orFl hgd) (orFl hdn) (orFr (orFl hmb))
      exact r_visitHandlers x rest _ h2 (orFr hgd) (orFr hdn) (orFr hmb)

end

theorem eq_of_beqT {a b : String} (h : (a == b) = true) : a = b := by
  simpa using h

theorem p_visitNameFold {x : String} :
    ∀ (params : List String) (st : VState), RInv x st → listHas x params = true →
      isRead ((params.foldl (fun s y => visitName y s) st).sym x) = true
  | [], _, _, h => by exact Bool.noConfusion h
  | y :: rest, st, hR, h => by
    rcases orT h with h1 | h1
    · have hy : y = x := eq_of_beqT h1
      subst hy
      exact isRead_vle (vle_foldl _ (fun z st2 => vle_visitName z st2) rest _)
        (r_name_prog hR)
    · exact p_visitNameFold rest _ (r_visitName y hR) h1

mutual

theorem p_visitStmt (x : String) : ∀ (s : Stmt) (st : VState), RInv x st →
    gdS x s = false → dnS x s = false → mbS true x s = false → refsS x s = true →
    isRead ((visitStmt s st).sym x) = true
  | .assign targets value, st, hR, _, _, hmb, hrefs => by
    rcases orT hrefs with h | h
    · exact isRead_vle (vle_visitExpr value _)
        (p_assignTargets x targets st hR (orFl hmb) h)
    · exact p_visitExpr x value _ (r_assignTargets x targets st hR (orFl hmb))
        (orFr hmb) h
  | .augAssign target value, st, hR, _, _, hmb, hrefs => by
    rcases orT hrefs with h | h
    · exact isRead_vle (vle_visitExpr value _)
        (p_assignTgt x target true st hR (orFl hmb) h)
    · exact p_visitExpr x value _ (r_assignTgt x target true st hR (orFl hmb))
        (orFr hmb) h
  | .delStmt targets, st, hR, _, hdn, hmb, hrefs =>
    p_delTargets x targets st hR hdn hmb hrefs
  | .functionDef nm _params defaults decorators body, st, hR, hgd, hdn, hmb, hrefs => by
    have h1 := r_assignName (y := nm) false hR (ne_of_beqF (orFl (orFl (orFl hmb))))
    rcases orT hrefs with h | h
    · rcases orT h with h1r | h1r
      · exact isRead_vle
          (vle_trans (vle_visitExprList decorators _)
            (vle_of_push_pop (vle_visitStmtList body _)))
          (p_visitExprList x defaults _ h1 (orFr (orFl (orFl hmb))) h1r)
      · have h2 := r_visitExprList x defaults _ h1 (orFr (orFl (orFl hmb)))
        exact isRead_vle (vle_of_push_pop (vle_visitStmtList body _))
          (p_visitExprList x decorators _ h2 (orFr (orFl hmb)) h1r)
    · have h2 := r_visitExprList x defaults _ h1 (orFr (orFl (orFl hmb)))
      have h3 := r_visitExprList x decorators _ h2 (orFr (orFl hmb))
      exact p_visitStmtList x body _ (r_push h3) hgd hdn (orFr hmb) h
  | .classDef nm bases decorators body, st, hR, hgd, hdn, hmb, hrefs => by
    have h1 := r_assignName (y := nm) false hR (ne_of_beqF (orFl (orFl (orFl hmb))))
    rcases orT hrefs with h | h
    · rcases orT h with h1r | h1r
      · exact isRead_vle
          (vle_trans (vle_visitExprList decorators _)
            (vle_of_push_pop (vle_visitStmtList body _)))
          (p_visitExprList x bases _ h1 (orFr (orFl (orFl hmb))) h1r)
      · have h2 := r_visitExprList x bases _ h1 (orFr (orFl (orFl hmb)))
        exact isRead_vle (vle_of_push_pop (vle_visitStmtList body _))
          (p_visitExprList x decorators _ h2 (orFr (orFl hmb)) h1r)
    · have h2 := r_visitExprList x bases _ h1 (orFr (orFl (orFl hmb)))
      have h3 := r_visitExprList x decorators _ h2 (orFr (orFl hmb))
      exact p_visitStmtList x body _ (r_push h3) hgd hdn (orFr hmb) h
  | .forLoop target iter body, st, hR, hgd, hdn, hmb, hrefs => by
    rcases orT hrefs with h | h
    · rcases orT h with h1r | h1r
      · exact isRead_vle (vle_trans (vle_visitExpr iter _) (vle_visitStmtList body _))
          (p_assignTgt x target false st hR (orFl (orFl hmb)) h1r)
      · have h1 := r_assignTgt x target false st hR (orFl (orFl hmb))
        exact isRead_vle (vle_visitStmtList body _)
          (p_visitExpr x iter _ h1 (orFr (orFl hmb)) h1r)
    · have h1 := r_assignTgt x target false st hR (orFl (orFl hmb))
      have h2 := r_visitExpr x iter _ h1 (orFr (orFl hmb))
      exact p_visitStmtList x body _ h2 hgd hdn (orFr hmb) h
  | .withStmt ctx .noneE body, st, hR, hgd, hdn, hmb, hrefs => by
    rcases orT hrefs with h | h
    · rcases orT h with h1r | h1r
      · exact Bool.noConfusion h1r
      · exact isRead_vle (vle_visitStmtList body _)
          (p_visitExpr x ctx st hR (orFl (orFl hmb)) h1r)
    · exact p_visitStmtList x body _ (r_visitExpr x ctx st hR (orFl (orFl hmb)))
        hgd hdn (orFr hmb) h
  | .withStmt ctx (.someE v) body, st, hR, hgd, hdn, hmb, hrefs => by
    rcases orT hrefs with h | h
    · rcases orT h with h1r | h1r
      · exact isRead_vle (vle_trans (vle_visitExpr ctx _) (vle_visitStmtList body _))
          (p_assignTgt x v false st hR (orFr (orFl hmb)) h1r)
      · have h1 := r_assignTgt x v false st hR (orFr (orFl hmb))
        exact isRead_vle (vle_visitStmtList body _)
          (p_visitExpr x ctx _ h1 (orFl (orFl hmb)) h1r)
    · have h1 := r_assignTgt x v false st hR (orFr (orFl hmb))
      have h2 := r_visitExpr x ctx _ h1 (orFl (orFl hmb))
      exact p_visitStmtList x body _ h2 hgd hdn (orFr hmb) h
  | .tryExcept body handlers orelse, st, hR, hgd, hdn, hmb, hrefs => by
    rcases orT hrefs with h | h
    · rcases orT h with h1r | h1r
      · exact isRead_vle (vle_trans (vle_visitHandlers handlers _) (vle_visitStmtList orelse _))
          (p_visitStmtList x body st hR (orFl (orFl hgd)) (orFl (orFl hdn))
            (orFl (orFl hmb)) h1r)
      · have h1 := r_visitStmtList x body st hR (orFl (orFl hgd)) (orFl (orFl hdn))
          (orFl (orFl hmb))
        exact isRead_vle (vle_visitStmtList orelse _)
          (p_visitHandlers x handlers _ h1 (orFr (orFl hgd)) (orFr (orFl hdn))
            (orFr (orFl hmb)) h1r)
    · have h1 := r_visitStmtList x body st hR (orFl (orFl hgd)) (orFl (orFl hdn))
        (orFl (orFl hmb))
      have h2 := r_visitHandlers x handlers _ h1 (orFr (orFl hgd)) (orFr (orFl hdn))
        (orFr (orFl hmb))
      exact p_visitStmtList x orelse _ h2 (orFr hgd) (orFr hdn) (orFr hmb) h
  | .importStmt _, _, _, _, _, _, hrefs => by exact Bool.noConfusion hrefs
  | .importFrom _, _, _, _, _, _, hrefs => by exact Bool.noConfusion hrefs
  | .globalStmt _, _, _, _, _, _, hrefs => by exact Bool.noConfusion hrefs
  | .exprStmt v, st, hR, _, _, hmb, hrefs => p_visitExpr x v st hR hmb hrefs
  | .printStmt vs, st, hR, _, _, hmb, hrefs => p_visitExprList x vs st hR hmb hrefs
  | .ret .noneE, _, _, _, _, _, hrefs => by exact Bool.noConfusion hrefs
  | .ret (.someE e), st, hR, _, _, hmb, hrefs => p_visitExpr x e st hR hmb hrefs

theorem p_visitStmtList (x : String) : ∀ (l : StmtList) (st : VState), RInv x st →
    gdSL x l = false → dnSL x l = false → mbSL true x l = false → refsSL x l = true →
    isRead ((visitStmtList l st).sym x) = true
  | .nil, _, _, _, _, _, hrefs => by exact Bool.noConfusion hrefs
  | .cons s rest, st, hR, hgd, hdn, hmb, hrefs => by
    rcases orT hrefs with h | h
    · exact isRead_vle (vle_visitStmtList rest _)
        (p_visitStmt x s st hR (orFl hgd) (orFl hdn) (orFl hmb) h)
    · exact p_visitStmtList x rest _
        (r_visitStmt x s st hR (orFl hgd) (orFl hdn) (orFl hmb))
        (orFr hgd) (orFr hdn) (orFr hmb) h

theorem p_visitExpr (x : String) : ∀ (e : Expr) (st : VState), RInv x st →
    eMB x e = false → refsE x e = true →
    isRead ((visitExpr e st).sym x) = true
  | .name y, st, hR, _, hrefs => by
    have hy : y = x := eq_of_beqT hrefs
    subst hy
    exact r_name_prog hR
  | .num _, _, _, _, hrefs => by exact Bool.noConfusion hrefs
  | .binOp l r, st, hR, he, hrefs => by
    rcases orT hrefs with h | h
    · exact isRead_vle (vle_visitExpr r _) (p_visitExpr x l st hR (orFl he) h)
    · exact p_visitExpr x r _ (r_visitExpr x l st hR (orFl he)) (orFr he) h
  | .attr v _, st, hR, he, hrefs => p_visitExpr x v st hR he hrefs
  | .subscript v s, st, hR, he, hrefs => by
    rcases orT hrefs with h | h
    · exact isRead_vle (vle_visitExpr s _) (p_visitExpr x v st hR (orFl he) h)
    · exact p_visitExpr x s _ (r_visitExpr x v st hR (orFl he)) (orFr he) h
  | .call (.attr v a) args kws star kw, st, hR, he, hrefs => by
    have r1 := r_assignTgt x v true st hR (orFl (orFl (orFl (orFl he))))
    have r2 := r_visitExprList x args _ r1 (orFr (orFl (orFl (orFl he))))
    have r3 := r_visitExprList x kws _ r2 (orFr (orFl (orFl he)))
    have r4 := r_visitOptExpr x star _ r3 (orFr (orFl he))
    rcases orT hrefs with h | hkw
    · rcases orT h with h | hstar
      · rcases orT h with h | hkws
        · rcases orT h with hf | hargs
          · exact isRead_vle
              (vle_trans (vle_visitExprList args _)
                (vle_trans (vle_visitExprList kws _)
                  (vle_trans (vle_visitOptExpr star _) (vle_visitOptExpr kw _))))
              (p_assignTgt x v true st hR (orFl (orFl (orFl (orFl he)))) hf)
          · exact isRead_vle
              (vle_trans (vle_visitExprList kws _)
                (vle_trans (vle_visitOptExpr star _) (vle_visitOptExpr kw _)))
              (p_visitExprList x args _ r1 (orFr (orFl (orFl (orFl he)))) hargs)
        · exact isRead_vle
            (vle_trans (vle_visitOptExpr star _) (vle_visitOptExpr kw _))
            (p_visitExprList x kws _ r2 (orFr (orFl (orFl he))) hkws)
      · exact isRead_vle (vle_visitOptExpr kw _)
          (p_visitOptExpr x star _ r3 (orFr (orFl he)) hstar)
    · exact p_visitOptExpr x kw _ r4 (orFr he) hkw
  | .call (.name y) args kws star kw, st, hR, he, hrefs => by
    have r1 := r_visitExpr x (.name y) st hR (orFl (orFl (orFl (orFl he))))
    have r2 := r_visitExprList x args _ r1 (orFr (orFl (orFl (orFl he))))
    have r3 := r_visitExprList x kws _ r2 (orFr (orFl (orFl he)))
    have r4 := r_visitOptExpr x star _ r3 (orFr (orFl he))
    rcases orT hrefs with h | hkw
    · rcases orT h with h | hstar
      · rcases orT h with h | hkws
        · rcases orT h with hf | hargs
          · exact isRead_vle
              (vle_trans (vle_visitExprList args _)
                (vle_trans (vle_visitExprList kws _)
                  (vle_trans (vle_visitOptExpr star _) (vle_visitOptExpr kw _))))
              (p_visitExpr x (.name y) st hR (orFl (orFl (orFl (orFl he)))) hf)
          · exact isRead_vle
              (vle_trans (vle_visitExprList kws _)
                (vle_trans (vle_visitOptExpr star _) (vle_visitOptExpr kw _)))
              (p_visitExprList x args _ r1 (orFr (orFl (orFl (orFl he)))) hargs)
        · exact isRead_vle
            (vle_trans (vle_visitOptExpr star _) (vle_visitOptExpr kw _))
            (p_visitExprList x kws _ r2 (orFr (orFl (orFl he))) hkws)
      · exact isRead_vle (vle_visitOptExpr kw _)
          (p_visitOptExpr x star _ r3 (orFr (orFl he)) hstar)
    · exact p_visitOptExpr x kw _ r4 (orFr he) hkw
  | .call (.num n) args kws star kw, st, hR, he, hrefs => by
    have r1 := r_visitExpr x (.num n) st hR (orFl (orFl (orFl (orFl he))))
    have r2 := r_visitExprList x args _ r1 (orFr (orFl (orFl (orFl he))))
    have r3 := r_visitExprList x kws _ r2 (orFr (orFl (orFl he)))
    have r4 := r_visitOptExpr x star _ r3 (orFr (orFl he))
    rcases orT hrefs with h | hkw
    · rcases orT h with h | hstar
      · rcases orT h with h | hkws
        · rcases orT h with hf | hargs
          · exact isRead_vle
              (vle_trans (vle_visitExprList args _)
                (vle_trans (vle_visitExprList kws _)
                  (vle_trans (vle_visitOptExpr star _) (vle_visitOptExpr kw _))))
              (p_visitExpr x (.num n) st hR (orFl (orFl (orFl (orFl he)))) hf)
          · exact isRead_vle
              (vle_trans (vle_visitExprList kws _)
                (vle_trans (vle_visitOptExpr star _) (vle_visitOptExpr kw _)))
              (p_visitExprList x args _ r1 (orFr (orFl (orFl (orFl he)))) hargs)
        · exact isRead_vle
            (vle_trans (vle_visitOptExpr star _) (vle_visitOptExpr kw _))
            (p_visitExprList x kws _ r2 (orFr (orFl (orFl he))) hkws)
      · exact isRead_vle (vle_visitOptExpr kw _)
          (p_visitOptExpr x star _ r3 (orFr (orFl he)) hstar)
    · exact p_visitOptExpr x kw _ r4 (orFr he) hkw
  | .call (.binOp l r) args kws star kw, st, hR, he, hrefs => by
    have r1 := r_visitExpr x (.binOp l r) st hR (orFl (orFl (orFl (orFl he))))
    have r2 := r_visitExprList x args _ r1 (orFr (orFl (orFl (orFl he))))
    have r3 := r_visitExprList x kws _ r2 (orFr (orFl (orFl he)))
    have r4 := r_visitOptExpr x star _ r3 (orFr (orFl he))
    rcases orT hrefs with h | hkw
    · rcases orT h with h | hstar
      · rcases orT h with h | hkws
        · rcases orT h with hf | hargs
          · exact isRead_vle
              (vle_trans (vle_visitExprList args _)
                (vle_trans (vle_visitExprList kws _)
                  (vle_trans (vle_visitOptExpr star _) (vle_visitOptExpr kw _))))
              (p_visitExpr x (.binOp l r) st hR (orFl (orFl (orFl (orFl he)))) hf)
          · exact isRead_vle
              (vle_trans (vle_visitExprList kws _)
                (vle_trans (vle_visitOptExpr star _) (vle_visitOptExpr kw _)))
              (p_visitExprList x args _ r1 (orFr (orFl (orFl (orFl he)))) hargs)
        · exact isRead_vle
            (vle_trans (vle_visitOptExpr star _) (vle_visitOptExpr kw _))
            (p_visitExprList x kws _ r2 (orFr (orFl (orFl he))) hkws)
      · exact isRead_vle (vle_visitOptExpr kw _)
          (p_visitOptExpr x star _ r3 (orFr (orFl he)) hstar)
    · exact p_visitOptExpr x kw _ r4 (orFr he) hkw
  | .call (.subscript u v) args kws star kw, st, hR, he, hrefs => by
    have r1 := r_visitExpr x (.subscript u v) st hR (orFl (orFl (orFl (orFl he))))
    have r2 := r_visitExprList x args _ r1 (orFr (orFl (orFl (orFl he))))
    have r3 := r_visitExprList x kws _ r2 (orFr (orFl (orFl he)))
    have r4 := r_visitOptExpr x star _ r3 (orFr (orFl he))
    rcases orT hrefs with h | hkw
    · rcases orT h with h | hstar
      · rcases orT h with h | hkws
        · rcases orT h with hf | hargs
          · exact isRead_vle
              (vle_trans (vle_visitExprList args _)
                (vle_trans (vle_visitExprList kws _)
                  (vle_trans (vle_visitOptExpr star _) (vle_visitOptExpr kw _))))
              (p_visitExpr x (.subscript u v) st hR (orFl (orFl (orFl (orFl he)))) hf)
          · exact isRead_vle
              (vle_trans (vle_visitExprList kws _)
                (vle_trans (vle_visitOptExpr star _) (vle_visitOptExpr kw _)))
              (p_visitExprList x args _ r1 (orFr (orFl (orFl (orFl he)))) hargs)
        · exact isRead_vle
            (vle_trans (vle_visitOptExpr star _) (vle_visitOptExpr kw _))
            (p_visitExprList x kws _ r2 (orFr (orFl (orFl he))) hkws)
      · exact isRead_vle (vle_visitOptExpr kw _)
          (p_visitOptExpr x star _ r3 (orFr (orFl he)) hstar)
    · exact p_visitOptExpr x kw _ r4 (orFr he) hkw
  | .call (.call f2 a2 k2 s2 kw2) args kws star kw, st, hR, he, hrefs => by
    have r1 := r_visitExpr x (.call f2 a2 k2 s2 kw2) st hR (orFl (orFl (orFl (orFl he))))
    have r2 := r_visitExprList x args _ r1 (orFr (orFl (orFl (orFl he))))
    have r3 := r_visitExprList x kws _ r2 (orFr (orFl (orFl he)))
    have r4 := r_visitOptExpr x star _ r3 (orFr (orFl he))
    rcases orT hrefs with h | hkw
    · rcases orT h with h | hstar
      · rcases orT h with h | hkws
        · rcases orT h with hf | hargs
          · exact isRead_vle
              (vle_trans (vle_visitExprList args _)
                (vle_trans (vle_visitExprList kws _)
                  (vle_trans (vle_visitOptExpr star _) (vle_visitOptExpr kw _))))
              (p_visitExpr x (.call f2 a2 k2 s2 kw2) st hR (orFl (orFl (orFl (orFl he)))) hf)
          · exact isRead_vle
              (vle_trans (vle_visitExprList kws _)
                (vle_trans (vle_visitOptExpr star _) (vle_visitOptExpr kw _)))
              (p_visitExprList x args _ r1 (orFr (orFl (orFl (orFl he)))) hargs)
        · exact isRead_vle
            (vle_trans (vle_visitOptExpr star _) (vle_visitOptExpr kw _))
            (p_visitExprList x kws _ r2 (orFr (orFl (orFl he))) hkws)
      · exact isRead_vle (vle_visitOptExpr kw _)
          (p_visitOptExpr x star _ r3 (orFr (orFl he)) hstar)
    · exact p_visitOptExpr x kw _ r4 (orFr he) hkw
  | .call (.lam p d b) args kws star kw, st, hR, he, hrefs => by
    have r1 := r_visitExpr x (.lam p d b) st hR (orFl (orFl (orFl (orFl he))))
    have r2 := r_visitExprList x args _ r1 (orFr (orFl (orFl (orFl he))))
    have r3 := r_visitExprList x kws _ r2 (orFr (orFl (orFl he)))
    have r4 := r_visitOptExpr x star _ r3 (orFr (orFl he))
    rcases orT hrefs with h | hkw
    · rcases orT h with h | hstar
      · rcases orT h with h | hkws
        · rcases orT h with hf | hargs
          · exact isRead_vle
              (vle_trans (vle_visitExprList args _)
                (vle_trans (vle_visitExprList kws _)
                  (vle_trans (vle_visitOptExpr star _) (vle_visitOptExpr kw _))))
              (p_visitExpr x (.lam p d b) st hR (orFl (orFl (orFl (orFl he)))) hf)
          · exact isRead_vle
              (vle_trans (vle_visitExprList kws _)
                (vle_trans (vle_visitOptExpr star _) (vle_visitOptExpr kw _)))
              (p_visitExprList x args _ r1 (orFr (orFl (orFl (orFl he)))) hargs)
        · exact isRead_vle
            (vle_trans (vle_visitOptExpr star _) (vle_visitOptExpr kw _))
            (p_visitExprList x kws _ r2 (orFr (orFl (orFl he))) hkws)
      · exact isRead_vle (vle_visitOptExpr kw _)
          (p_visitOptExpr x star _ r3 (orFr (orFl he)) hstar)
    · exact p_visitOptExpr x kw _ r4 (orFr he) hkw
  | .call (.tupleE es) args kws star kw, st, hR, he, hrefs => by
    have r1 := r_visitExpr x (.tupleE es) st hR (orFl (orFl (orFl (orFl he))))
    have r2 := r_visitExprList x args _ r1 (orFr (orFl (orFl (orFl he))))
    have r3 := r_visitExprList x kws _ r2 (orFr (orFl (orFl he)))
    have r4 := r_visitOptExpr x star _ r3 (orFr (orFl he))
    rcases orT hrefs with h | hkw
    · rcases orT h with h | hstar
      · rcases orT h with h | hkws
        · rcases orT h with hf | hargs
          · exact isRead_vle
              (vle_trans (vle_visitExprList args _)
                (vle_trans (vle_visitExprList kws _)
                  (vle_trans (vle_visitOptExpr star _) (vle_visitOptExpr kw _))))
              (p_visitExpr x (.tupleE es) st hR (orFl (orFl (orFl (orFl he)))) hf)
          · exact isRead_vle
              (vle_trans (vle_visitExprList kws _)
                (vle_trans (vle_visitOptExpr star _) (vle_visitOptExpr kw _)))
              (p_visitExprList x args _ r1 (orFr (orFl (orFl (orFl he)))) hargs)
        · exact isRead_vle
            (vle_trans (vle_visitOptExpr star _) (vle_visitOptExpr kw _))
            (p_visitExprList x kws _ r2 (orFr (orFl (orFl he))) hkws)
      · exact isRead_vle (vle_visitOptExpr kw _)
          (p_visitOptExpr x star _ r3 (orFr (orFl he)) hstar)
    · exact p_visitOptExpr x kw _ r4 (orFr he) hkw
  | .lam params defaults body, st, hR, he, hrefs => by
    have r1 := r_visitNameFold params st hR
    rcases orT hrefs with h | h
    · rcases orT h with h1r | h1r
      · exact isRead_vle (vle_trans (vle_visitExprList defaults _) (vle_visitExpr body _))
          (p_visitNameFold params st hR h1r)
      · exact isRead_vle (vle_visitExpr body _)
          (p_visitExprList x defaults _ r1 (orFl he) h1r)
    · have r2 := r_visitExprList x defaults _ r1 (orFl he)
      exact p_visitExpr x body _ r2 (orFr he) h
  | .tupleE es, st, hR, he, hrefs => p_visitExprList x es st hR he hrefs

theorem p_visitExprList (x : String) : ∀ (l : ExprList) (st : VState), RInv x st →
    eMBL x l = false → refsEL x l = true →
    isRead ((visitExprList l st).sym x) = true
  | .nil, _, _, _, hrefs => by exact Bool.noConfusion hrefs
  | .cons e rest, st, hR, he, hrefs => by
    rcases orT hrefs with h | h
    · exact isRead_vle (vle_visitExprList rest _) (p_visitExpr x e st hR (orFl he) h)
    · exact p_visitExprList x rest _ (r_visitExpr x e st hR (orFl he)) (orFr he) h

theorem p_visitOptExpr (x : String) : ∀ (o : OptExpr) (st : VState), RInv x st →
    eMBO x o = false → refsEO x o = true →
    isRead ((visitOptExpr o st).sym x) = true
  | .noneE, _, _, _, hrefs => by exact Bool.noConfusion hrefs
  | .someE e, st, hR, he, hrefs => p_visitExpr x e st hR he hrefs

theorem p_assignTgt (x : String) : ∀ (e : Expr) (upd : Bool) (st : VState), RInv x st →
    tgtB x e = false → refsA x e = true →
    isRead ((assignTgt e upd st).sym x) = true
  | .name _, _, _, _, _, hrefs => by exact Bool.noConfusion hrefs
  | .subscript v s, _, st, hR, ht, hrefs => by
    rcases orT hrefs with h | h
    · exact isRead_vle (vle_assignTgt v true _) (p_visitExpr x s st hR (orFl ht) h)
    · exact p_assignTgt x v true _ (r_visitExpr x s st hR (orFl ht)) (orFr ht) h
  | .attr v _, _, st, hR, ht, hrefs => p_assignTgt x v true st hR ht hrefs
  | .num _, _, _, _, _, hrefs => by exact Bool.noConfusion hrefs
  | .binOp _ _, _, _, _, _, hrefs => by exact Bool.noConfusion hrefs
  | .call _ _ _ _ _, _, _, _, _, hrefs => by exact Bool.noConfusion hrefs
  | .lam _ _ _, _, _, _, _, hrefs => by exact Bool.noConfusion hrefs
  | .tupleE _, _, _, _, _, hrefs => by exact Bool.noConfusion hrefs

theorem p_assignTargets (x : String) : ∀ (l : ExprList) (st : VState), RInv x st →
    tgtBL x l = false → refsAL x l = true →
    isRead ((assignTargets l st).sym x) = true
  | .nil, _, _, _, hrefs => by exact Bool.noConfusion hrefs
  | .cons t rest, st, hR, ht, hrefs => by
    rcases orT hrefs with h | h
    · exact isRead_vle (vle_assignTargets rest _)
        (p_assignTgt x t false st hR (orFl ht) h)
    · exact p_assignTargets x rest _ (r_assignTgt x t false st hR (orFl ht))
        (orFr ht) h

theorem p_delTargets (x : String) : ∀ (l : ExprList) (st : VState), RInv x st →
    delHasName x l = false → delB x l = false → refsDel x l = true →
    isRead ((delTargets l st).sym x) = true
  | .nil, _, _, _, _, hrefs => by exact Bool.noConfusion hrefs
  | .cons (.name y) rest, st, hR, hdel, hdb, hrefs => by
    have hyx : y ≠ x := ne_of_beqF (orFl hdel)
    have hstep : RInv x (if st.sym y ≠ .de then st.touch y fun s => writeT (readT s)
        else assignTgt (.name y) false (visitExpr (.name y) st)) := by
      by_cases hy : st.sym y ≠ .de
      · rw [if_pos hy]
        exact r_touch_ne hyx _ hR
      · rw [if_neg hy]
        exact r_assignTgt x (.name y) false _ (r_visitName y hR) (beqF_of_ne hyx)
    exact p_delTargets x rest _ hstep (orFr hdel) (orFr hdb) hrefs
  | .cons (.num n) rest, st, hR, hdel, hdb, hrefs => by
    rcases orT hrefs with h | h
    · rcases orT h with h1r | h1r
      · exact isRead_vle
          (vle_trans (vle_assignTgt (.num n) false _) (vle_delTargets rest _))
          (p_visitExpr x (.num n) st hR (orFl (orFl hdb)) h1r)
      · have r1 := r_visitExpr x (.num n) st hR (orFl (orFl hdb))
        exact isRead_vle (vle_delTargets rest _)
          (p_assignTgt x (.num n) false _ r1 (orFr (orFl hdb)) h1r)
    · have r1 := r_visitExpr x (.num n) st hR (orFl (orFl hdb))
      have r2 := r_assignTgt x (.num n) false _ r1 (orFr (orFl hdb))
      exact p_delTargets x rest _ r2 hdel (orFr hdb) h
  | .cons (.binOp l r) rest, st, hR, hdel, hdb, hrefs => by
    rcases orT hrefs with h | h
    · rcases orT h with h1r | h1r
      · exact isRead_vle
          (vle_trans (vle_assignTgt (.binOp l r) false _) (vle_delTargets rest _))
          (p_visitExpr x (.binOp l r) st hR (orFl (orFl hdb)) h1r)
      · have r1 := r_visitExpr x (.binOp l r) st hR (orFl (orFl hdb))
        exact isRead_vle (vle_delTargets rest _)
          (p_assignTgt x (.binOp l r) false _ r1 (orFr (orFl hdb)) h1r)
    · have r1 := r_visitExpr x (.binOp l r) st hR (orFl (orFl hdb))
      have r2 := r_assignTgt x (.binOp l r) false _ r1 (orFr (orFl hdb))
      exact p_delTargets x rest _ r2 hdel (orFr hdb) h
  | .cons (.attr v a) rest, st, hR, hdel, hdb, hrefs => by
    rcases orT hrefs with h | h
    · rcases orT h with h1r | h1r
      · exact isRead_vle
          (vle_trans (vle_assignTgt (.attr v a) false _) (vle_delTargets rest _))
          (p_visitExpr x (.attr v a) st hR (orFl (orFl hdb)) h1r)
      · have r1 := r_visitExpr x (.attr v a) st hR (orFl (orFl hdb))
        exact isRead_vle (vle_delTargets rest _)
          (p_assignTgt x (.attr v a) false _ r1 (orFr (orFl hdb)) h1r)
    · have r1 := r_visitExpr x (.attr v a) st hR (orFl (orFl hdb))
      have r2 := r_assignTgt x (.attr v a) false _ r1 (orFr (orFl hdb))
      exact p_delTargets x rest _ r2 hdel (orFr hdb) h
  | .cons (.subscript u v) rest, st, hR, hdel, hdb, hrefs => by
    rcases orT hrefs with h | h
    · rcases orT h with h1r | h1r
      · exact isRead_vle
          (vle_trans (vle_assignTgt (.subscript u v) false _) (vle_delTargets rest _))
          (p_visitExpr x (.subscript u v) st hR (orFl (orFl hdb)) h1r)
      · have r1 := r_visitExpr x (.subscript u v) st hR (orFl (orFl hdb))
        exact isRead_vle (vle_delTargets rest _)
          (p_assignTgt x (.subscript u v) false _ r1 (orFr (orFl hdb)) h1r)
    · have r1 := r_visitExpr x (.subscript u v) st hR (orFl (orFl hdb))
      have r2 := r_assignTgt x (.subscript u v) false _ r1 (orFr (orFl hdb))
      exact p_delTargets x rest _ r2 hdel (orFr hdb) h
  | .cons (.call f a2 k s2 kw) rest, st, hR, hdel, hdb, hrefs => by
    rcases orT hrefs with h | h
    · rcases orT h with h1r | h1r
      · exact isRead_vle
          (vle_trans (vle_assignTgt (.call f a2 k s2 kw) false _) (vle_delTargets rest _))
          (p_visitExpr x (.call f a2 k s2 kw) st hR (orFl (orFl hdb)) h1r)
      · have r1 := r_visitExpr x (.call f a2 k s2 kw) st hR (orFl (orFl hdb))
        exact isRead_vle (vle_delTargets rest _)
          (p_assignTgt x (.call f a2 k s2 kw) false _ r1 (orFr (orFl hdb)) h1r)
    · have r1 := r_visitExpr x (.call f a2 k s2 kw) st hR (orFl (orFl hdb))
      have r2 := r_assignTgt x (.call f a2 k s2 kw) false _ r1 (orFr (orFl hdb))
      exact p_delTargets x rest _ r2 hdel (orFr hdb) h
  | .cons (.lam p d b) rest, st, hR, hdel, hdb, hrefs => by
    rcases orT hrefs with h | h
    · rcases orT h with h1r | h1r
      · exact isRead_vle
          (vle_trans (vle_assignTgt (.lam p d b) false _) (vle_delTargets rest _))
          (p_visitExpr x (.lam p d b) st hR (orFl (orFl hdb)) h1r)
      · have r1 := r_visitExpr x (.lam p d b) st hR (orFl (orFl hdb))
        exact isRead_vle (vle_delTargets rest _)
          (p_assignTgt x (.lam p d b) false _ r1 (orFr (orFl hdb)) h1r)
    · have r1 := r_visitExpr x (.lam p d b) st hR (orFl (orFl hdb))
      have r2 := r_assignTgt x (.lam p d b) false _ r1 (orFr (orFl hdb))
      exact p_delTargets x rest _ r2 hdel (orFr hdb) h
  | .cons (.tupleE es) rest, st, hR, hdel, hdb, hrefs => by
    rcases orT hrefs with h | h
    · rcases orT h with h1r | h1r
      · exact isRead_vle
          (vle_trans (vle_assignTgt (.tupleE es) false _) (vle_delTargets rest _))
          (p_visitExpr x (.tupleE es) st hR (orFl (orFl hdb)) h1r)
      · have r1 := r_visitExpr x (.tupleE es) st hR (orFl (orFl hdb))
        exact isRead_vle (vle_delTargets rest _)
          (p_assignTgt x (.tupleE es) false _ r1 (orFr (orFl hdb)) h1r)
    · have r1 := r_visitExpr x (.tupleE es) st hR (orFl (orFl hdb))
      have r2 := r_assignTgt x (.tupleE es) false _ r1 (orFr (orFl hdb))
      exact p_delTargets x rest _ r2 hdel (orFr hdb) h

theorem p_visitHandlers (x : String) : ∀ (h : Handlers) (st : VState), RInv x st →
    gdH x h = false → dnH x h = false → mbH true x h = false → refsH x h = true →
    isRead ((visitHandlers h st).sym x) = true
  | .nil, _, _, _, _, _, hrefs => by exact Bool.noConfusion hrefs
  | .cons .noneE hname hbody rest, st, hR, hgd, hdn, hmb, hrefs => by
    cases hname with
    | none =>
      rcases orT hrefs with h | h
      · rcases orT h with h1r | h1r
        · exact Bool.noConfusion h1r
        · exact isRead_vle (vle_visitHandlers rest _)
            (p_visitStmtList x hbody st hR (orFl hgd) (orFl hdn) (orFr (orFl hmb)) h1r)
      · exact p_visitHandlers x rest _
          (r_visitStmtList x hbody st hR (orFl hgd) (orFl hdn) (orFr (orFl hmb)))
          (orFr hgd) (orFr hdn) (orFr hmb) h
    | some y =>
      have hstep := r_assignName (y := y) false hR (ne_of_beqF (orFr (orFl (orFl hmb))))
      rcases orT hrefs with h | h
      · rcases orT h with h1r | h1r
        · exact Bool.noConfusion h1r
        · exact isRead_vle (vle_visitHandlers rest _)
            (p_visitStmtList x hbody _ hstep (orFl hgd) (orFl hdn) (orFr (orFl hmb)) h1r)
      · exact p_visitHandlers x rest _
          (r_visitStmtList x hbody _ hstep (orFl hgd) (orFl hdn) (orFr (orFl hmb)))
          (orFr hgd) (orFr hdn) (orFr hmb) h
  | .cons (.someE e) hname hbody rest, st, hR, hgd, hdn, hmb, hrefs => by
    have h1 := r_visitExpr x e st hR (orFl (orFl (orFl hmb)))
    cases hname with
    | none =>
      rcases orT hrefs with h | h
      · rcases orT h with h1r | h1r
        · exact isRead_vle
            (vle_trans (vle_visitStmtList hbody _) (vle_visitHandlers rest _))
            (p_visitExpr x e st hR (orFl (orFl (orFl hmb))) h1r)
        · exact isRead_vle (vle_visitHandlers rest _)
            (p_visitStmtList x hbody _ h1 (orFl hgd) (orFl hdn) (orFr (orFl hmb)) h1r)
      · exact p_visitHandlers x rest _
          (r_visitStmtList x hbody _ h1 (orFl hgd) (orFl hdn) (orFr (orFl hmb)))
          (orFr hgd) (orFr hdn) (orFr hmb) h
    | some y =>
      have hstep := r_assignName (y := y) false h1 (ne_of_beqF (orFr (orFl (orFl hmb))))
      rcases orT hrefs with h | h
      · rcases orT h with h1r | h1r
        · exact isRead_vle
            (vle_trans (vle_assignName y false _)
              (vle_trans (vle_visitStmtList hbody _) (vle_visitHandlers rest _)))
            (p_visitExpr x e st hR (orFl (orFl (orFl hmb))) h1r)
        · exact isRead_vle (vle_visitHandlers rest _)
            (p_visitStmtList x hbody _ hstep (orFl hgd) (orFl hdn) (orFr (orFl hmb)) h1r)
      · exact p_visitHandlers x rest _
          (r_visitStmtList x hbody _ hstep (orFl hgd) (orFl hdn) (orFr (orFl hmb)))
          (orFr hgd) (orFr hdn) (orFr hmb) h

end

/-! ## Claim C9: parameters are not locals, so a body reference is a read -/

/-- C9: function parameters are never registered as locals of the pushed
scope (`visit_FunctionDef` only visits `node.args.defaults`), so any name
that is referenced somewhere in the fragment (`refsSL`), reaches no write
site even inside nested bodies (`mbSL true`), is never declared `global` and
never `del`eted, ends up in the fragment's `reads` — in particular a
parameter referenced in its function's own body, as in `def f(g): return g`. -/
theorem claim_C9 (prog : StmtList) (x : String)
    (hg : gdSL x prog = false) (hd : dnSL x prog = false)
    (hb : mbSL true x prog = false) (hr : refsSL x prog = true) :
    x ∈ (mkCell 0 prog).reads := by
  have hRinit : RInv x initState := ⟨rfl, fun sc hsc => absurd hsc (List.not_mem_nil sc)⟩
  have hread := p_visitStmtList x prog initState hRinit hg hd hb hr
  have hdom : x ∈ (visitStmtList prog initState).dom :=
    domInv_mono (vle_visitStmtList prog initState) domInv_init x
      (notDe_of_isRead hread)
  show x ∈ readsOf (visitStmtList prog initState)
  exact mem_readsOf.mpr ⟨hdom, hread⟩

/-- C9 witness: on `def f(g): return g` the hypotheses hold by computation
and the parameter `g` is in the fragment's `reads`. -/
theorem claim_C9_witness :
    refsSL "g" prog9 = true ∧ "g" ∈ (mkCell 0 prog9).reads :=
  ⟨by decide, claim_C9 prog9 "g" (by decide) (by decide) (by decide) (by decide)⟩

end StaticFlow

